import Mathlib

/-!
Shallow embedding of the json.cpp JSON parser and serializer (src/json.h,
src/json.cpp) together with proofs about the claims of the specification.

Byte buffers are modelled as lists of natural numbers below 256; a char read
such as (*p & 255) in the C source is the byte value itself.  Machine
integers (long long accumulators) are modelled as Int with explicit range
checks against 2^63.  The external double-conversion component is out of
scope of the repository and is modelled from the spec where its behavior is
observable (see StringToDouble below).

Naming follows the source: JsonStatus, Json (the value tree), kJsonStr,
kEscapeLiteral, kHexToInt, EncodeUTF8, Json.parseVal / Json.parseStr and so
on for the parser, Json.marshal / Json.serialize for the serializer.
-/

abbrev Bytes := List Nat

/-- Diagnostic codes, mirroring enum class JsonStatus in src/json.h. -/
inductive JsonStatus where
  | success
  | bad_double
  | absent_value
  | bad_negative
  | bad_exponent
  | missing_comma
  | missing_colon
  | malformed_utf8
  | depth_exceeded
  | stack_overflow
  | unexpected_eof
  | overlong_ascii
  | unexpected_comma
  | unexpected_colon
  | unexpected_octal
  | trailing_content
  | illegal_character
  | invalid_hex_escape
  | overlong_utf8_0x7ff
  | overlong_utf8_0xffff
  | object_missing_value
  | illegal_utf8_character
  | invalid_unicode_escape
  | utf16_surrogate_in_utf8
  | unexpected_end_of_array
  | hex_escape_not_printable
  | invalid_escape_character
  | utf8_exceeds_utf16_range
  | unexpected_end_of_string
  | unexpected_end_of_object
  | object_key_must_be_string
  | c1_control_code_in_string
  | non_del_c0_control_code_in_string
  | internal_error_unreachable_code
  deriving DecidableEq, Repr

/-- The value tree, mirroring class Json in src/json.h: a tagged union of
null, bool, long long, float, double, string, vector and map payloads.
The float and double payloads are modelled as rationals standing for the
stored IEEE-754 value; arrays are lists, and an object is the contents of
the std map in its iteration order, that is, an association list strictly
sorted by the lexicographic byte order on keys. -/
inductive Json where
  | null
  | bool (b : Bool)
  | long (n : Int)
  | float (q : ℚ)
  | double (q : ℚ)
  | str (s : Bytes)
  | arr (elems : List Json)
  | obj (entries : List (Bytes × Json))
  deriving Repr

-- Context bitmask flags and depth constant (defines in src/json.cpp l.95-100).
def KEY : Nat := 1
def COMMA : Nat := 2
def COLON : Nat := 4
def ARRAY : Nat := 8
def OBJECT : Nat := 16
def DEPTH : Nat := 20

def isDigitB (c : Nat) : Bool := 48 ≤ c && c ≤ 57

def isWsB (c : Nat) : Bool := c = 32 || c = 10 || c = 13 || c = 9

/-- Classifier table kJsonStr (src/json.cpp l.146-179), given as the function
the 256-entry table tabulates.  Class codes as in the defines: 0 ASCII,
1 C0, 2 DQUOTE, 3 BACKSLASH, 4 UTF8_2, 5 UTF8_3, 6 UTF8_4, 7 C1,
8 UTF8_3_E0, 9 UTF8_3_ED, 10 UTF8_4_F0, 11 BADUTF8, 12 EVILUTF8. -/
def kJsonStr (c : Nat) : Nat :=
  if c < 32 then 1
  else if c = 34 then 2
  else if c = 92 then 3
  else if c < 128 then 0
  else if c < 160 then 7
  else if c < 192 then 11
  else if c < 194 then 12
  else if c = 224 then 8
  else if c = 237 then 9
  else if c < 224 then 4
  else if c < 240 then 5
  else if c = 240 then 10
  else if c < 245 then 6
  else 11

/-- Escape classifier kEscapeLiteral (src/json.cpp l.181-190) as a function:
0 emit raw, 1 tab, 2 newline, 3 carriage return, 4 form feed, 5 backslash,
6 slash, 7 quote, 9 unicode escape. -/
def kEscapeLiteral (c : Nat) : Nat :=
  if c = 9 then 1
  else if c = 10 then 2
  else if c = 13 then 3
  else if c = 12 then 4
  else if c = 92 then 5
  else if c = 47 then 6
  else if c = 34 then 7
  else if c < 32 then 9
  else if c = 38 || c = 39 || c = 60 || c = 61 || c = 62 || c = 127 then 9
  else 0

/-- Hex digit table kHexToInt (src/json.cpp l.192-209): value of a hex digit
byte, or -1. -/
def kHexToInt (c : Nat) : Int :=
  if 48 ≤ c && c ≤ 57 then (c : Int) - 48
  else if 65 ≤ c && c ≤ 70 then (c : Int) - 55
  else if 97 ≤ c && c ≤ 102 then (c : Int) - 87
  else -1

-- Surrogate predicates (macros in src/json.cpp l.132-135).
def IsSurrogate (wc : Nat) : Bool := (0xf800 &&& wc) = 0xd800
def IsHighSurrogate (wc : Nat) : Bool := (wc &&& 0xfc00) = 0xd800
def IsLowSurrogate (wc : Nat) : Bool := (wc &&& 0xfc00) = 0xdc00
def MergeUtf16 (hi lo : Nat) : Nat := ((hi - 0xd800) <<< 10) + (lo - 0xdc00) + 0x10000

/-- EncodeUtf16 (macro in src/json.cpp l.136-142): a BMP value maps to
itself, a supplementary code point packs its high surrogate in the low
half and its low surrogate in the high half, anything else maps to 0xfffd. -/
def EncodeUtf16 (wc : Nat) : Nat :=
  if wc ≤ 0xffff then wc
  else if 0x10000 ≤ wc && wc ≤ 0x10ffff then
    ((((wc - 0x10000) >>> 10) + 0xd800) ||| ((((wc - 0x10000) &&& 1023) + 0xdc00) <<< 16))
  else 0xfffd

/-- EncodeUTF8 (src/json.cpp l.898-930): encode a code point as UTF-8 bytes;
surrogates and values with all of bits 18-20 set become 0xfffd. -/
def EncodeUTF8 (c : Nat) : Bytes :=
  if c ≤ 0x7f then [c]
  else if c ≤ 0x7ff then [0xc0 ||| (c >>> 6), 0x80 ||| (c &&& 63)]
  else if c ≤ 0xffff then
    let c2 := if IsSurrogate c then 0xfffd else c
    [0xe0 ||| (c2 >>> 12), 0x80 ||| ((c2 >>> 6) &&& 63), 0x80 ||| (c2 &&& 63)]
  else if (c >>> 18) &&& 7 ≠ 7 then
    [0xf0 ||| (c >>> 18), 0x80 ||| ((c >>> 12) &&& 63),
     0x80 ||| ((c >>> 6) &&& 63), 0x80 ||| (c &&& 63)]
  else
    [0xe0 ||| (0xfffd >>> 12), 0x80 ||| ((0xfffd >>> 6) &&& 63), 0x80 ||| (0xfffd &&& 63)]

-- ===========================================================================
-- External double-conversion component (out of scope of the repository).
-- ===========================================================================

/-- Span of decimal digit bytes at the head of a buffer. -/
def takeDigits : Bytes → Bytes × Bytes
  | [] => ([], [])
  | c :: t =>
    if isDigitB c then
      let (ds, rest) := takeDigits t
      (c :: ds, rest)
    else ([], c :: t)

def digitsToNat (ds : Bytes) : Nat := ds.foldl (fun x c => x * 10 + (c - 48)) 0

/-- Fraction part: a dot followed by at least one digit, or nothing.
Returns (numerator digits, rest). -/
def s2dFrac : Bytes → Bytes × Bytes
  | 46 :: t =>
    match takeDigits t with
    | ([], _) => ([], 46 :: t)
    | (ds, rest) => (ds, rest)
  | bs => ([], bs)

/-- Exponent part: an e or E, an optional sign, and at least one digit, or
nothing.  Returns (exponent as Int, number of bytes, rest). -/
def s2dExp : Bytes → Int × Nat × Bytes
  | c :: t =>
    if c = 101 || c = 69 then
      match t with
      | 43 :: t2 =>
        match takeDigits t2 with
        | ([], _) => (0, 0, c :: t)
        | (ds, rest) => ((digitsToNat ds : Int), 2 + ds.length, rest)
      | 45 :: t2 =>
        match takeDigits t2 with
        | ([], _) => (0, 0, c :: t)
        | (ds, rest) => (-(digitsToNat ds : Int), 2 + ds.length, rest)
      | _ =>
        match takeDigits t with
        | ([], _) => (0, 0, c :: t)
        | (ds, rest) => ((digitsToNat ds : Int), 1 + ds.length, rest)
    else (0, 0, c :: t)
  | [] => (0, 0, [])

def qpow10 (e : Int) : ℚ := if 0 ≤ e then (10 : ℚ) ^ e.toNat else ((10 : ℚ) ^ (-e).toNat)⁻¹

/-- Modelled from the spec: the StringToDouble wrapper (src/json.cpp
l.262-272) delegates to the external double-conversion library, which is
out of scope of the repository.  Per the spec (section 6) the converter
accepts a decimal literal with optional sign, integer digits, optional
fraction and optional exponent, allows trailing junk, and returns the value
together with the number of bytes consumed, where a non-positive count
means failure.  The value is modelled as the exact rational denoted by the
literal; rounding to IEEE-754 is outside the repository and is not the
subject of any claim.  All call sites in the parser pass a buffer starting
with an optional minus sign followed by a digit, so the leading-whitespace
and infinity/nan forms accepted by the library are never exercised and are
not modelled. -/
def StringToDouble (bs : Bytes) : ℚ × Nat :=
  let (sign, signLen, t) : ℚ × Nat × Bytes :=
    match bs with
    | 45 :: t => (-1, 1, t)
    | 43 :: t => (1, 1, t)
    | _ => (1, 0, bs)
  match takeDigits t with
  | ([], _) =>
    -- no integer digits: accept .digits, otherwise fail with 0 consumed
    (match t with
     | 46 :: t2 =>
       (match takeDigits t2 with
        | ([], _) => (0, 0)
        | (fs, rest2) =>
          let (ex, elen, _) := s2dExp rest2
          (sign * (digitsToNat fs : ℚ) / (10 : ℚ) ^ fs.length * qpow10 ex,
           signLen + 1 + fs.length + elen))
     | _ => (0, 0))
  | (ds, rest) =>
    let (fs, rest2) := s2dFrac rest
    let fracLen := if fs.isEmpty then 0 else fs.length + 1
    let (ex, elen, _) := s2dExp rest2
    (sign * ((digitsToNat ds : ℚ) + (digitsToNat fs : ℚ) / (10 : ℚ) ^ fs.length) * qpow10 ex,
     signLen + ds.length + fracLen + elen)

-- ===========================================================================
-- Number tokenizer (the integer loop of src/json.cpp l.1066-1086).
-- ===========================================================================

def i64min : Int := -(2 ^ 63)
def i64max : Int := 2 ^ 63 - 1

/-- Check that an Int fits the signed 64-bit range; ckd_mul and ckd_add in
the source report overflow exactly when the mathematical result leaves
this range. -/
def inI64 (x : Int) : Bool := i64min ≤ x && x ≤ i64max

inductive NumOut where
  | fixed (x : Int) (rest : Bytes)
  | promote (rest : Bytes)
  | badDouble (rest : Bytes)
  deriving Repr

/-- The digit fold loop of the integer case (src/json.cpp l.1066-1086):
fold digits into the accumulator with checked multiply and add; a dot with
a digit after it, an e or E, or an overflow promotes to the double path;
a dot without a digit is bad_double; any other byte ends the number. -/
def numLoop (d : Int) : Bytes → Int → NumOut
  | [], x => .fixed x []
  | c :: t, x =>
    if isDigitB c then
      if !inI64 (x * 10) then .promote (c :: t)
      else if !inI64 (x * 10 + ((c : Int) - 48) * d) then .promote (c :: t)
      else numLoop d t (x * 10 + ((c : Int) - 48) * d)
    else if c = 46 then
      match t with
      | [] => .badDouble (c :: t)
      | c2 :: _ => if isDigitB c2 then .promote (c :: t) else .badDouble (c :: t)
    else if c = 101 || c = 69 then .promote (c :: t)
    else .fixed x (c :: t)

/-- The double promotion path shared by the zero and integer cases
(src/json.cpp l.1038-1046 and l.1087-1095): run the external converter from
the token start a, fail with bad_double when it consumed nothing, with
bad_exponent when it stopped immediately before an e, and otherwise
install the double and resume after the consumed bytes. -/
def promoteDouble (a rest : Bytes) : JsonStatus × Json × Bytes :=
  let (q, c) := StringToDouble a
  if c = 0 then (.bad_double, .double q, rest)
  else
    match a.drop c with
    | [] => (.success, .double q, [])
    | c2 :: t2 =>
      if c2 = 101 || c2 = 69 then (.bad_exponent, .double q, rest)
      else (.success, .double q, c2 :: t2)

-- ===========================================================================
-- String tokenizer (src/json.cpp l.1155-1411).
-- ===========================================================================

def tpCont (x : Nat) : Bool := (x &&& 0xc0) = 0x80

/-- Four valid hex digits (the kHexToInt tests of the backslash-u case). -/
def hexOk4 (h1 h2 h3 h4 : Nat) : Bool :=
  kHexToInt h1 ≠ -1 && kHexToInt h2 ≠ -1 && kHexToInt h3 ≠ -1 && kHexToInt h4 ≠ -1

/-- The value A shl 12 or B shl 8 or C shl 4 or D of four hex digits. -/
def hexQuad (h1 h2 h3 h4 : Nat) : Nat :=
  ((kHexToInt h1).toNat <<< 12) ||| ((kHexToInt h2).toNat <<< 8) |||
    ((kHexToInt h3).toNat <<< 4) ||| (kHexToInt h4).toNat

/-- The follow-up test of the high-surrogate branch (src/json.cpp
l.1238-1251): a backslash, a u, four valid hex digits forming a low
surrogate. -/
def lowSurrogateEscAt (t6 : Bytes) : Bool :=
  6 ≤ t6.length && t6.getD 0 0 = 92 && t6.getD 1 0 = 117 &&
    hexOk4 (t6.getD 2 0) (t6.getD 3 0) (t6.getD 4 0) (t6.getD 5 0) &&
    IsLowSurrogate (hexQuad (t6.getD 2 0) (t6.getD 3 0) (t6.getD 4 0) (t6.getD 5 0))

/-- The CESU-8 pattern test (src/json.cpp l.1306-1311). -/
def cesuFires (t : Bytes) : Bool :=
  5 ≤ t.length && 0xae ≤ t.getD 0 0 && tpCont (t.getD 1 0) &&
    t.getD 2 0 = 0xed && 0xb0 ≤ t.getD 3 0 && tpCont (t.getD 4 0)

/-- The code point the CESU-8 branch computes (src/json.cpp l.1312-1319). -/
def cesuDecode (t : Bytes) : Nat :=
  let A := (0xd000 : Nat) ||| ((t.getD 0 0 &&& 63) <<< 6) ||| (t.getD 1 0 &&& 63)
  let B := (0xd000 : Nat) ||| ((t.getD 3 0 &&& 63) <<< 6) ||| (t.getD 4 0 &&& 63)
  ((A - 0xdb80) <<< 10) + ((B - 0xdc00) + 0x10000)

/-- The generic three-byte code point decode. -/
def utf3Decode (c b1 b2 : Nat) : Nat :=
  ((c &&& 0xf) <<< 12) ||| ((b1 &&& 0x3f) <<< 6) ||| (b2 &&& 0x3f)

/-- The generic four-byte code point decode. -/
def utf4Decode (c b1 b2 b3 : Nat) : Nat :=
  ((c &&& 7) <<< 18) ||| ((b1 &&& 0x3f) <<< 12) ||| ((b2 &&& 0x3f) <<< 6) ||| (b3 &&& 0x3f)

-- The string body scanner: the while loop of the quote case (src/json.cpp
-- l.1164-1409), split into one mutual function per classifier branch (plus
-- one function per inner consumption point) so that every recursive call is
-- structural.  Each function takes the not yet consumed input and the bytes
-- accumulated so far, and returns the status, the accumulated string, and
-- the rest of the input; on success the rest starts after the closing
-- quote.  parseStr performs the dispatch on the classifier; parseStrEsc is
-- the backslash case with parseStrEscX and parseStrEscU for the hex and
-- unicode escapes and parseStrEscPair for the consumption of a low
-- surrogate escape; parseStrU2, parseStrE0, parseStrED (with parseStrEDU3
-- for its generic fallthrough), parseStrU3, parseStrF0 and parseStrU4 are
-- the multi-byte sequence cases (classes 4, 8, 9, 5, 10 and 6), each
-- receiving the lead byte c and the bytes after it.

mutual

def Json.parseStr : Bytes → Bytes → JsonStatus × Bytes × Bytes
  | [], acc => (.unexpected_end_of_string, acc, [])
  | c :: t, acc =>
    let k := kJsonStr c
    if k = 0 then Json.parseStr t (acc ++ [c])
    else if k = 2 then (.success, acc, t)
    else if k = 3 then Json.parseStrEsc t acc
    else if k = 4 then Json.parseStrU2 c t acc
    else if k = 8 then Json.parseStrE0 c t acc
    else if k = 9 then Json.parseStrED c t acc
    else if k = 5 then Json.parseStrU3 c t acc
    else if k = 10 then Json.parseStrF0 c t acc
    else if k = 6 then Json.parseStrU4 c t acc
    else if k = 12 then
      if 1 ≤ t.length && tpCont (t.getD 0 0) then (.overlong_ascii, acc, t)
      else (.illegal_utf8_character, acc, t)
    else if k = 11 then (.illegal_utf8_character, acc, t)
    else if k = 1 then (.non_del_c0_control_code_in_string, acc, t)
    else if k = 7 then (.c1_control_code_in_string, acc, t)
    else (.internal_error_unreachable_code, acc, t)
termination_by structural bs acc => bs

/-- The BACKSLASH case (src/json.cpp l.1182-1277). -/
def Json.parseStrEsc : Bytes → Bytes → JsonStatus × Bytes × Bytes
  | [], acc => (.unexpected_end_of_string, acc, [])
  | c2 :: t2, acc =>
    if c2 = 34 || c2 = 47 || c2 = 92 then Json.parseStr t2 (acc ++ [c2])
    else if c2 = 98 then Json.parseStr t2 (acc ++ [8])
    else if c2 = 102 then Json.parseStr t2 (acc ++ [12])
    else if c2 = 110 then Json.parseStr t2 (acc ++ [10])
    else if c2 = 114 then Json.parseStr t2 (acc ++ [13])
    else if c2 = 116 then Json.parseStr t2 (acc ++ [9])
    else if c2 = 120 then Json.parseStrEscX t2 acc
    else if c2 = 117 then Json.parseStrEscU t2 acc
    else (.invalid_escape_character, acc, t2)
termination_by structural bs acc => bs

/-- The backslash-x case (src/json.cpp l.1208-1224): two hex digits giving
a printable ASCII byte. -/
def Json.parseStrEscX : Bytes → Bytes → JsonStatus × Bytes × Bytes
  | h1 :: h2 :: t3, acc =>
    if kHexToInt h1 ≠ -1 && kHexToInt h2 ≠ -1 then
      let cc := ((kHexToInt h1).toNat <<< 4) ||| (kHexToInt h2).toNat
      if 0x20 ≤ cc && cc ≤ 0x7e then Json.parseStr t3 (acc ++ [cc])
      else (.hex_escape_not_printable, acc, h1 :: h2 :: t3)
    else (.invalid_hex_escape, acc, h1 :: h2 :: t3)
  | t2, acc => (.invalid_hex_escape, acc, t2)
termination_by structural bs acc => bs

/-- The backslash-u case (src/json.cpp l.1225-1272).  In the bad-surrogate
cases the source appends the two bytes backslash u and resumes at the four
hex digits just read; those are ASCII bytes of class 0, so the next four
loop iterations append them unchanged and those iterations are inlined
here, resuming at t6 with the digits appended, keeping the recursion
structural. -/
def Json.parseStrEscU : Bytes → Bytes → JsonStatus × Bytes × Bytes
  | h1 :: h2 :: h3 :: h4 :: t6, acc =>
    if hexOk4 h1 h2 h3 h4 then
      let cc := hexQuad h1 h2 h3 h4
      if !IsSurrogate cc then Json.parseStr t6 (acc ++ EncodeUTF8 cc)
      else if IsHighSurrogate cc then
        if lowSurrogateEscAt t6 then Json.parseStrEscPair cc t6 acc
        else Json.parseStr t6 (acc ++ [92, 117, h1, h2, h3, h4])
      else Json.parseStr t6 (acc ++ [92, 117, h1, h2, h3, h4])
    else (.invalid_unicode_escape, acc, h1 :: h2 :: h3 :: h4 :: t6)
  | t2, acc => (.invalid_unicode_escape, acc, t2)
termination_by structural bs acc => bs

/-- Consumption of the low surrogate escape after a high surrogate cc
(src/json.cpp l.1251-1255): merge the pair and append its UTF-8 encoding.
Only called when lowSurrogateEscAt holds, so the second arm is
unreachable. -/
def Json.parseStrEscPair (cc : Nat) : Bytes → Bytes → JsonStatus × Bytes × Bytes
  | _ :: _ :: g1 :: g2 :: g3 :: g4 :: t12, acc =>
    Json.parseStr t12 (acc ++ EncodeUTF8 (MergeUtf16 cc (hexQuad g1 g2 g3 g4)))
  | t6, acc => (.internal_error_unreachable_code, acc, t6)
termination_by structural bs acc => bs

/-- The UTF8_2 case (src/json.cpp l.1279-1291). -/
def Json.parseStrU2 (c : Nat) : Bytes → Bytes → JsonStatus × Bytes × Bytes
  | b1 :: t1, acc =>
    if tpCont b1 then
      Json.parseStr t1 (acc ++ EncodeUTF8 (((c &&& 0x1f) <<< 6) ||| (b1 &&& 0x3f)))
    else (.malformed_utf8, acc, b1 :: t1)
  | [], acc => (.malformed_utf8, acc, [])
termination_by structural bs acc => bs

/-- The UTF8_3_E0 case (src/json.cpp l.1293-1302): reject an overlong
encoding, otherwise fall through to the generic three-byte decode. -/
def Json.parseStrE0 (c : Nat) : Bytes → Bytes → JsonStatus × Bytes × Bytes
  | b1 :: b2 :: t2, acc =>
    if b1 < 0xa0 && tpCont b1 && tpCont b2 then (.overlong_utf8_0x7ff, acc, b1 :: b2 :: t2)
    else if tpCont b1 && tpCont b2 then
      Json.parseStr t2 (acc ++ EncodeUTF8 (utf3Decode c b1 b2))
    else (.malformed_utf8, acc, b1 :: b2 :: t2)
  | t, acc => (.malformed_utf8, acc, t)
termination_by structural bs acc => bs

/-- The UTF8_3_ED case, containing the CESU-8 branch (src/json.cpp
l.1303-1331).  The branch test p + 2 at most e with first continuation at
least 0xa0 is the test 1 at most the length of t1 with b1 at least 0xa0.
When the CESU branch fires the source appends the re-encoded bytes without
advancing the cursor past the continuation bytes, so the scan resumes at
the same position; its first byte b1 is then at least 0xae, whose class is
one of the multi-byte or error classes, and that one dispatch step of the
loop is inlined here so that the recursion stays structural. -/
def Json.parseStrED (c : Nat) : Bytes → Bytes → JsonStatus × Bytes × Bytes
  | [], acc => (.malformed_utf8, acc, [])
  | b1 :: t1, acc =>
    if 1 ≤ t1.length && 0xa0 ≤ b1 then
      if cesuFires (b1 :: t1) then
        let acc2 := acc ++ EncodeUTF8 (cesuDecode (b1 :: t1))
        let k2 := kJsonStr b1
        if k2 = 4 then Json.parseStrU2 b1 t1 acc2
        else if k2 = 8 then Json.parseStrE0 b1 t1 acc2
        else if k2 = 9 then Json.parseStrED b1 t1 acc2
        else if k2 = 5 then Json.parseStrU3 b1 t1 acc2
        else if k2 = 10 then Json.parseStrF0 b1 t1 acc2
        else if k2 = 6 then Json.parseStrU4 b1 t1 acc2
        else if k2 = 12 then
          if 1 ≤ t1.length && tpCont (t1.getD 0 0) then (.overlong_ascii, acc2, t1)
          else (.illegal_utf8_character, acc2, t1)
        else (.illegal_utf8_character, acc2, t1)
      else if tpCont b1 && tpCont (t1.getD 0 0) then (.utf16_surrogate_in_utf8, acc, b1 :: t1)
      else (.malformed_utf8, acc, b1 :: t1)
    else Json.parseStrEDU3 c b1 t1 acc
termination_by structural bs acc => bs

/-- The generic three-byte fallthrough of the ED case, with the first
continuation byte b1 already consumed from the pattern. -/
def Json.parseStrEDU3 (c b1 : Nat) : Bytes → Bytes → JsonStatus × Bytes × Bytes
  | b2 :: t3, acc =>
    if tpCont b1 && tpCont b2 then
      Json.parseStr t3 (acc ++ EncodeUTF8 (utf3Decode c b1 b2))
    else (.malformed_utf8, acc, b1 :: b2 :: t3)
  | [], acc => (.malformed_utf8, acc, [b1])
termination_by structural bs acc => bs

/-- The generic UTF8_3 case (src/json.cpp l.1335-1349). -/
def Json.parseStrU3 (c : Nat) : Bytes → Bytes → JsonStatus × Bytes × Bytes
  | b1 :: b2 :: t2, acc =>
    if tpCont b1 && tpCont b2 then
      Json.parseStr t2 (acc ++ EncodeUTF8 (utf3Decode c b1 b2))
    else (.malformed_utf8, acc, b1 :: b2 :: t2)
  | t, acc => (.malformed_utf8, acc, t)
termination_by structural bs acc => bs

/-- The UTF8_4_F0 case (src/json.cpp l.1351-1361): reject an overlong
encoding, otherwise fall through to the generic four-byte decode. -/
def Json.parseStrF0 (c : Nat) : Bytes → Bytes → JsonStatus × Bytes × Bytes
  | b1 :: b2 :: b3 :: t3, acc =>
    if b1 < 0x90 && tpCont b1 && tpCont b2 && tpCont b3 then
      (.overlong_utf8_0xffff, acc, b1 :: b2 :: b3 :: t3)
    else if tpCont b1 && tpCont b2 && tpCont b3 then
      let A := utf4Decode c b1 b2 b3
      if A ≤ 0x10ffff then Json.parseStr t3 (acc ++ EncodeUTF8 A)
      else (.utf8_exceeds_utf16_range, acc, b1 :: b2 :: b3 :: t3)
    else (.malformed_utf8, acc, b1 :: b2 :: b3 :: t3)
  | t, acc => (.malformed_utf8, acc, t)
termination_by structural bs acc => bs

/-- The generic UTF8_4 case (src/json.cpp l.1362-1388). -/
def Json.parseStrU4 (c : Nat) : Bytes → Bytes → JsonStatus × Bytes × Bytes
  | b1 :: b2 :: b3 :: t3, acc =>
    if tpCont b1 && tpCont b2 && tpCont b3 then
      let A := utf4Decode c b1 b2 b3
      if A ≤ 0x10ffff then Json.parseStr t3 (acc ++ EncodeUTF8 A)
      else (.utf8_exceeds_utf16_range, acc, b1 :: b2 :: b3 :: t3)
    else (.malformed_utf8, acc, b1 :: b2 :: b3 :: t3)
  | t, acc => (.malformed_utf8, acc, t)
termination_by structural bs acc => bs

end

-- ===========================================================================
-- Structural parser (src/json.cpp l.939-1417) and public wrapper (l.1419-1434).
-- ===========================================================================

/-- Error selection helper (src/json.cpp l.884-889). -/
def ReturnColonCommaErrorStatus (context : Nat) : JsonStatus :=
  if context &&& COLON ≠ 0 then .missing_colon else .missing_comma

/-- Error selection helper (src/json.cpp l.891-896). -/
def ReturnColonCommaKeyErrorStatus (context : Nat) : JsonStatus :=
  if context &&& KEY ≠ 0 then .object_key_must_be_string
  else ReturnColonCommaErrorStatus context

/-- Ordering of std::string keys: lexicographic on byte values (char traits
compare as unsigned char). -/
def lexLt : Bytes → Bytes → Bool
  | [], [] => false
  | [], _ :: _ => true
  | _ :: _, [] => false
  | a :: s, b :: t => if a < b then true else if b < a then false else lexLt s t

/-- Insertion into the std::map payload as done by object_value.emplace
(src/json.cpp l.1148): insert at the ordered position, keeping the existing
entry when the key is already present. -/
def Json.emplace : List (Bytes × Json) → Bytes → Json → List (Bytes × Json)
  | [], k, v => [(k, v)]
  | (k2, v2) :: t, k, v =>
    if lexLt k k2 then (k, v) :: (k2, v2) :: t
    else if lexLt k2 k then (k2, v2) :: Json.emplace t k v
    else (k2, v2) :: t

/-- The null literal case (src/json.cpp l.975-983): the three remaining
letters of null must follow; the destination is left untouched, hence Null
by the caller invariant. -/
def Json.parseNullTok : Bytes → JsonStatus × Json × Bytes
  | 117 :: 108 :: 108 :: t3 => (.success, .null, t3)
  | t => (.illegal_character, .null, t)

/-- The false literal case (src/json.cpp l.985-995). -/
def Json.parseFalseTok : Bytes → JsonStatus × Json × Bytes
  | 97 :: 108 :: 115 :: 101 :: t4 => (.success, .bool false, t4)
  | t => (.illegal_character, .null, t)

/-- The true literal case (src/json.cpp l.997-1007). -/
def Json.parseTrueTok : Bytes → JsonStatus × Json × Bytes
  | 114 :: 117 :: 101 :: t3 => (.success, .bool true, t3)
  | t => (.illegal_character, .null, t)

/-- The zero case (src/json.cpp l.1022-1052), after the context check: a
dot not followed by a digit is bad_double, a dot with a digit or an
exponent letter promotes to the double path, another digit is a rejected
octal, anything else is Long 0.  a is the token start, t the bytes after
the zero. -/
def Json.parseZeroTok (a t : Bytes) : JsonStatus × Json × Bytes :=
  match t with
  | [] => (.success, .long 0, [])
  | p1 :: t1 =>
    if p1 = 46 then
      match t1 with
      | [] => (.bad_double, .null, t)
      | p2 :: _ =>
        if isDigitB p2 then promoteDouble a t
        else (.bad_double, .null, t)
    else if p1 = 101 || p1 = 69 then promoteDouble a t
    else if isDigitB p1 then (.unexpected_octal, .null, t)
    else (.success, .long 0, t)

/-- The integer case (src/json.cpp l.1054-1101), after the context check:
fold the digits with numLoop starting from the dispatched digit c, and
either install the Long or run the double path from the token start a. -/
def Json.parseIntTok (c : Nat) (d : Int) (a t : Bytes) : JsonStatus × Json × Bytes :=
  match numLoop d t (((c : Int) - 48) * d) with
  | .fixed x rest => (.success, .long x, rest)
  | .promote rest => promoteDouble a rest
  | .badDouble rest => (.bad_double, .null, rest)

/-- The string case (src/json.cpp l.1155-1410), after the context check:
run the string scanner; on success install the String, otherwise leave the
destination untouched. -/
def Json.parseStrTok (t : Bytes) : JsonStatus × Json × Bytes :=
  match Json.parseStr t [] with
  | (.success, s, rest) => (.success, .str s, rest)
  | (st, _, rest) => (st, .null, rest)

mutual

/-- The recursive parser Json::parse (src/json.cpp l.939-1417).  Arguments:
fuel (a step counter making the recursion structural; none is returned only
when it runs out, which parseVal_total rules out for the fuel the public
wrapper supplies), the remaining input p..e, the token start a (used by the
number cases for the external converter), the sign d, the context bitmask
and the remaining depth.  The destination Json is passed as Null by every
caller (fresh value at the top level, moved-from or cleared values in the
container loops), so the cases that leave the destination untouched return
Json.null.  Returns the status, the destination value and the rest of the
input. -/
def Json.parseVal : Nat → Bytes → Bytes → Int → Nat → Nat → Option (JsonStatus × Json × Bytes)
  | 0, _, _, _, _, _ => none
  | fuel + 1, bs, a, d, context, depth =>
    if depth = 0 then some (.depth_exceeded, .null, bs)
    else
      match bs with
      | [] => some (if depth = DEPTH then .absent_value else .unexpected_eof, .null, [])
      | c :: t =>
        if isWsB c then Json.parseVal fuel t t d context depth
        else if c = 44 then
          if context &&& COMMA ≠ 0 then Json.parseVal fuel t t d 0 depth
          else some (.unexpected_comma, .null, t)
        else if c = 58 then
          if context &&& COLON ≠ 0 then Json.parseVal fuel t t d 0 depth
          else some (.unexpected_colon, .null, t)
        else if c = 110 then
          if context &&& (KEY ||| COLON ||| COMMA) ≠ 0 then
            some (ReturnColonCommaKeyErrorStatus context, .null, t)
          else some (Json.parseNullTok t)
        else if c = 102 then
          if context &&& (KEY ||| COLON ||| COMMA) ≠ 0 then
            some (ReturnColonCommaKeyErrorStatus context, .null, t)
          else some (Json.parseFalseTok t)
        else if c = 116 then
          if context &&& (KEY ||| COLON ||| COMMA) ≠ 0 then
            some (ReturnColonCommaKeyErrorStatus context, .null, t)
          else some (Json.parseTrueTok t)
        else if c = 45 then
          if context &&& (COLON ||| COMMA ||| KEY) ≠ 0 then
            some (ReturnColonCommaKeyErrorStatus context, .null, t)
          else if isDigitB (t.getD 0 256) then Json.parseVal fuel t a (-1) context depth
          else some (.bad_negative, .null, t)
        else if c = 48 then
          if context &&& (COLON ||| COMMA ||| KEY) ≠ 0 then
            some (ReturnColonCommaKeyErrorStatus context, .null, t)
          else some (Json.parseZeroTok a t)
        else if isDigitB c then
          if context &&& (COLON ||| COMMA ||| KEY) ≠ 0 then
            some (ReturnColonCommaKeyErrorStatus context, .null, t)
          else some (Json.parseIntTok c d a t)
        else if c = 91 then
          if context &&& (COLON ||| COMMA ||| KEY) ≠ 0 then
            some (ReturnColonCommaKeyErrorStatus context, .null, t)
          else Json.parseArr fuel t depth [] ARRAY
        else if c = 93 then
          if context &&& ARRAY ≠ 0 then some (.absent_value, .null, t)
          else some (.unexpected_end_of_array, .null, t)
        else if c = 125 then
          if context &&& OBJECT ≠ 0 then some (.absent_value, .null, t)
          else some (.unexpected_end_of_object, .null, t)
        else if c = 123 then
          if context &&& (COLON ||| COMMA ||| KEY) ≠ 0 then
            some (ReturnColonCommaKeyErrorStatus context, .null, t)
          else Json.parseObj fuel t depth [] (KEY ||| OBJECT)
        else if c = 34 then
          if context &&& (COLON ||| COMMA) ≠ 0 then
            some (ReturnColonCommaErrorStatus context, .null, t)
          else some (Json.parseStrTok t)
        else some (.illegal_character, .null, t)
termination_by structural fuel bs a d context depth => fuel

/-- The array element loop (src/json.cpp l.1103-1117): parse elements at
depth - 1 until a recursive call reports absent_value for the closing
bracket; the context is ARRAY for the first element and ARRAY or COMMA
afterwards. -/
def Json.parseArr : Nat → Bytes → Nat → List Json → Nat → Option (JsonStatus × Json × Bytes)
  | 0, _, _, _, _ => none
  | fuel + 1, bs, depth, acc, actx =>
    match Json.parseVal fuel bs bs 1 actx (depth - 1) with
    | none => none
    | some (st, v, rest) =>
      if st = .absent_value then some (.success, .arr acc, rest)
      else if st = .success then Json.parseArr fuel rest depth (acc ++ [v]) (ARRAY ||| COMMA)
      else some (st, .arr acc, rest)
termination_by structural fuel bs depth acc actx => fuel

/-- The object member loop (src/json.cpp l.1129-1153): alternate a key parse
(KEY or OBJECT context, plus COMMA after the first member) and a value
parse (COLON context), both at depth - 1; absent_value from the key slot
closes the object, a non-string key and an absent value are errors, and
members are inserted with emplace. -/
def Json.parseObj : Nat → Bytes → Nat → List (Bytes × Json) → Nat → Option (JsonStatus × Json × Bytes)
  | 0, _, _, _, _ => none
  | fuel + 1, bs, depth, acc, octx =>
    match Json.parseVal fuel bs bs 1 octx (depth - 1) with
    | none => none
    | some (st, k, rest) =>
      if st = .absent_value then some (.success, .obj acc, rest)
      else if st ≠ .success then some (st, .obj acc, rest)
      else
        match k with
        | .str ks =>
          match Json.parseVal fuel rest rest 1 COLON (depth - 1) with
          | none => none
          | some (st2, v, rest2) =>
            if st2 = .absent_value then some (.object_missing_value, .obj acc, rest2)
            else if st2 ≠ .success then some (st2, .obj acc, rest2)
            else Json.parseObj fuel rest2 depth (Json.emplace acc ks v) (KEY ||| COMMA ||| OBJECT)
        | _ => some (.object_key_must_be_string, .obj acc, rest)
termination_by structural fuel bs depth acc octx => fuel

end

/-- Fuel that always suffices for an input (see parseVal_total below). -/
def goodFuel (bs : Bytes) : Nat := 2 * bs.length + 2 * DEPTH + 4

/-- The public entry point Json::parse (src/json.cpp l.1419-1434): parse one
document from the whole input at the maximal depth, and on success reparse
from the cursor, remapping every second result other than absent_value to
trailing_content. -/
def Json.parse (bs : Bytes) : JsonStatus × Json :=
  match Json.parseVal (goodFuel bs) bs bs 1 0 DEPTH with
  | none => (.internal_error_unreachable_code, .null)
  | some (st, v, rest) =>
    if st = .success then
      match Json.parseVal (goodFuel bs) rest rest 1 0 DEPTH with
      | none => (.internal_error_unreachable_code, v)
      | some (st2, _, _) =>
        if st2 = .absent_value then (.success, v) else (.trailing_content, v)
    else (st, v)

-- ===========================================================================
-- Serializer (src/json.cpp l.703-882).
-- ===========================================================================

-- ThomPike macros (src/json.cpp l.126-130): Bsr is the index of the highest
-- set bit; 255 and the complement of a byte x is 255 - x.
def Bsr (x : Nat) : Nat := Nat.log2 x

def ThomPikeMsb (x : Nat) : Nat := if x &&& 255 < 252 then Bsr (255 - (x &&& 255)) else 1

def ThomPikeByte (x : Nat) : Nat := x &&& (((1 <<< ThomPikeMsb x) - 1) ||| 3)

def ThomPikeLen (x : Nat) : Nat := 7 - ThomPikeMsb x

def ThomPikeMerge (x y : Nat) : Nat := (x <<< 6) ||| (y &&& 63)

def hexDigitLower (k : Nat) : Nat := if k < 10 then 48 + k else 87 + k

/-- One group of the backslash-u escape emitted by the case 9 of
Json::serialize (src/json.cpp l.865-877): backslash, u, and the four hex
digits of the low 16 bits of w. -/
def uEscapeGroup (w : Nat) : Bytes :=
  [92, 117, hexDigitLower ((w &&& 0xf000) >>> 12), hexDigitLower ((w &&& 0x0f00) >>> 8),
   hexDigitLower ((w &&& 0x00f0) >>> 4), hexDigitLower (w &&& 0x000f)]

/-- The do-while loop of case 9: emit the low group, then the high group when
the shifted value is nonzero.  EncodeUtf16 yields values below 2^32, so the
loop runs at most twice. -/
def uEscape (w : Nat) : Bytes :=
  uEscapeGroup w ++ (if w >>> 16 ≠ 0 then uEscapeGroup (w >>> 16) else [])

/-- The body of the escape switch in Json::serialize (src/json.cpp
l.840-880) for one decoded value x: emit the raw byte, one of the two-byte
shortcuts, or the backslash-u escape of EncodeUtf16 x.  The classifier only
produces codes 0 to 7 and 9, so the final branch is the case 9. -/
def Json.serializeChar (x : Nat) : Bytes :=
  let k := if x ≤ 127 then kEscapeLiteral x else 9
  if k = 0 then [x]
  else if k = 1 then [92, 116]
  else if k = 2 then [92, 110]
  else if k = 3 then [92, 114]
  else if k = 4 then [92, 102]
  else if k = 5 then [92, 92]
  else if k = 6 then [92, 47]
  else if k = 7 then [92, 34]
  else uEscape (EncodeUtf16 x)

/-- All-or-nothing test of the inner merge loop of Json::serialize: the next
m bytes exist and each has the continuation shape.  The source loop breaks
out, leaving x and the cursor untouched, as soon as a byte fails the test
or when fewer than m bytes remain, and commits only after merging all m,
so the decode consumes either zero or m bytes. -/
def tpOkN : Nat → Bytes → Bool
  | 0, _ => true
  | _ + 1, [] => false
  | m + 1, b :: t => tpCont b && tpOkN m t

/-- Json::serialize (src/json.cpp l.814-882): walk the bytes, attempting a
ThomPike decode at each lead byte at or above 0xc0, then emit the escape of
the decoded value.  The number of continuation bytes m = ThomPikeLen - 1
is between 1 and 5 for a lead at or above 0xc0, spelled out per case so
the recursion is structural; the final wildcard arm is unreachable. -/
def Json.serialize : Bytes → Bytes
  | [] => []
  | c :: t =>
    if c < 0xc0 then Json.serializeChar c ++ Json.serialize t
    else
      let a := ThomPikeByte c
      let m := ThomPikeLen c - 1
      if tpOkN m t = false then Json.serializeChar c ++ Json.serialize t
      else
        match m, t with
        | 1, b1 :: t1 => Json.serializeChar (ThomPikeMerge a b1) ++ Json.serialize t1
        | 2, b1 :: b2 :: t2 =>
          Json.serializeChar (ThomPikeMerge (ThomPikeMerge a b1) b2) ++ Json.serialize t2
        | 3, b1 :: b2 :: b3 :: t3 =>
          Json.serializeChar (ThomPikeMerge (ThomPikeMerge (ThomPikeMerge a b1) b2) b3) ++
            Json.serialize t3
        | 4, b1 :: b2 :: b3 :: b4 :: t4 =>
          Json.serializeChar
              (ThomPikeMerge (ThomPikeMerge (ThomPikeMerge (ThomPikeMerge a b1) b2) b3) b4) ++
            Json.serialize t4
        | 5, b1 :: b2 :: b3 :: b4 :: b5 :: t5 =>
          Json.serializeChar
              (ThomPikeMerge (ThomPikeMerge (ThomPikeMerge
                (ThomPikeMerge (ThomPikeMerge a b1) b2) b3) b4) b5) ++
            Json.serialize t5
        | _, _ => []

/-- Json::stringify (src/json.cpp l.806-812): a quote, the serialized body,
a quote.  The body is read through c_str(), so it stops at the first NUL
byte. -/
def Json.stringify (s : Bytes) : Bytes :=
  34 :: Json.serialize (s.takeWhile (fun c => c ≠ 0)) ++ [34]

/-- Digit emission of UlongToString (src/json.cpp l.274-293), written with
most significant digit first; the first argument is fuel for the division
recursion and UlongToString passes the value itself, which always
suffices. -/
def decDigitsAux : Nat → Nat → Bytes
  | 0, x => [x % 10 + 48]
  | fuel + 1, x => if x < 10 then [x + 48] else decDigitsAux fuel (x / 10) ++ [x % 10 + 48]

def UlongToString (x : Nat) : Bytes := decDigitsAux x x

/-- LongToString (src/json.cpp l.295-301): minus sign and the decimal digits
of the magnitude. -/
def LongToString (n : Int) : Bytes :=
  if n < 0 then 45 :: UlongToString n.natAbs else UlongToString n.natAbs

/-- Modelled from the spec: stand-in for the external double-conversion
shortest-round-trip double-to-string converter (spec section 6), which is
out of scope of the repository.  No claim in this development depends on
its output; it only keeps the serializer total on Float and Double
payloads. -/
def DoubleToStringStub (q : ℚ) : Bytes := LongToString q.num ++ 47 :: UlongToString q.den

mutual

/-- Json::marshal in compact mode (src/json.cpp l.719-804 with pretty =
false, as called by toString): null, true and false literals, LongToString
for Long, the external converter for Float and Double, stringify for
String, and bracketed comma-separated members for containers, object keys
through stringify. -/
def Json.marshal : Json → Bytes
  | .null => [110, 117, 108, 108]
  | .str s => Json.stringify s
  | .bool b => if b then [116, 114, 117, 101] else [102, 97, 108, 115, 101]
  | .long n => LongToString n
  | .float q => DoubleToStringStub q
  | .double q => DoubleToStringStub q
  | .arr xs => 91 :: Json.marshalArr xs ++ [93]
  | .obj kvs => 123 :: Json.marshalObj kvs ++ [125]

def Json.marshalArr : List Json → Bytes
  | [] => []
  | [x] => Json.marshal x
  | x :: y :: t => Json.marshal x ++ 44 :: Json.marshalArr (y :: t)

def Json.marshalObj : List (Bytes × Json) → Bytes
  | [] => []
  | (k, v) :: t =>
    Json.stringify k ++ 58 :: Json.marshal v ++ (if t.isEmpty then [] else [44]) ++
      Json.marshalObj t

end

/-- Json::toString (src/json.cpp l.703-709): marshal with pretty = false. -/
def Json.toBytes (v : Json) : Bytes := Json.marshal v

-- ===========================================================================
-- Observers (src/json.cpp l.555-649) and move operations (l.462-553).
-- ===========================================================================

/-- Json::getBool (src/json.cpp l.581-590); none models the abort on a kind
mismatch. -/
def Json.getBool : Json → Option Bool
  | .bool b => some b
  | _ => none

/-- Json::getLong (src/json.cpp l.570-579). -/
def Json.getLong : Json → Option Int
  | .long n => some n
  | _ => none

/-- Json::getFloat (src/json.cpp l.592-603): returns for kind Float and also
for kind Double (narrowing the stored double to float, a conversion of the
modelled rational payload); aborts otherwise. -/
def Json.getFloat : Json → Option ℚ
  | .float q => some q
  | .double q => some q
  | _ => none

/-- Json::getDouble (src/json.cpp l.605-616): returns for kinds Float and
Double; aborts otherwise. -/
def Json.getDouble : Json → Option ℚ
  | .float q => some q
  | .double q => some q
  | _ => none

/-- Json::getString (src/json.cpp l.618-627). -/
def Json.getString : Json → Option Bytes
  | .str s => some s
  | _ => none

/-- Json::getArray (src/json.cpp l.629-638). -/
def Json.getArray : Json → Option (List Json)
  | .arr xs => some xs
  | _ => none

/-- Json::getObject (src/json.cpp l.640-649). -/
def Json.getObject : Json → Option (List (Bytes × Json))
  | .obj kvs => some kvs
  | _ => none

/-- The move constructor (src/json.cpp l.462-497): the destination takes the
payload per kind and the source is left with type Null.  Returns
(destination, source after the move). -/
def Json.moveCtor (other : Json) : Json × Json :=
  match other with
  | .null => (.null, .null)
  | .bool b => (.bool b, .null)
  | .long n => (.long n, .null)
  | .float q => (.float q, .null)
  | .double q => (.double q, .null)
  | .str s => (.str s, .null)
  | .arr xs => (.arr xs, .null)
  | .obj kvs => (.obj kvs, .null)

/-- Move assignment onto a distinct object (src/json.cpp l.499-553, the
branch where this and other differ): the destination releases its payload
and takes the payload of the source per kind; for a string payload the
buffer is stolen when the two allocator contexts are the same object and
copied then freed otherwise, leaving the same value either way; the source
is left with type Null.  Contexts are modelled by identifiers.  Returns
(destination, source after the move). -/
def Json.moveAssign (ctxDst ctxSrc : Nat) (dst other : Json) : Json × Json :=
  match other with
  | .null => (.null, .null)
  | .bool b => (.bool b, .null)
  | .long n => (.long n, .null)
  | .float q => (.float q, .null)
  | .double q => (.double q, .null)
  | .str s => if ctxDst = ctxSrc then (.str s, .null) else (.str s, .null)
  | .arr xs => (.arr xs, .null)
  | .obj kvs => (.obj kvs, .null)

-- ===========================================================================
-- Unfolding equations.  The definitions above compile to mutual structural
-- recursors; these restatements, all definitional, let proofs rewrite one
-- step at a time.
-- ===========================================================================

theorem parseStr_nil (acc : Bytes) :
    Json.parseStr [] acc = (.unexpected_end_of_string, acc, []) := rfl

theorem parseStr_cons (c : Nat) (t acc : Bytes) :
    Json.parseStr (c :: t) acc =
      (if kJsonStr c = 0 then Json.parseStr t (acc ++ [c])
       else if kJsonStr c = 2 then (.success, acc, t)
       else if kJsonStr c = 3 then Json.parseStrEsc t acc
       else if kJsonStr c = 4 then Json.parseStrU2 c t acc
       else if kJsonStr c = 8 then Json.parseStrE0 c t acc
       else if kJsonStr c = 9 then Json.parseStrED c t acc
       else if kJsonStr c = 5 then Json.parseStrU3 c t acc
       else if kJsonStr c = 10 then Json.parseStrF0 c t acc
       else if kJsonStr c = 6 then Json.parseStrU4 c t acc
       else if kJsonStr c = 12 then
         if 1 ≤ t.length && tpCont (t.getD 0 0) then (.overlong_ascii, acc, t)
         else (.illegal_utf8_character, acc, t)
       else if kJsonStr c = 11 then (.illegal_utf8_character, acc, t)
       else if kJsonStr c = 1 then (.non_del_c0_control_code_in_string, acc, t)
       else if kJsonStr c = 7 then (.c1_control_code_in_string, acc, t)
       else (.internal_error_unreachable_code, acc, t)) := rfl

theorem parseStrEsc_nil (acc : Bytes) :
    Json.parseStrEsc [] acc = (.unexpected_end_of_string, acc, []) := rfl

theorem parseStrEsc_cons (c2 : Nat) (t2 acc : Bytes) :
    Json.parseStrEsc (c2 :: t2) acc =
      (if c2 = 34 || c2 = 47 || c2 = 92 then Json.parseStr t2 (acc ++ [c2])
       else if c2 = 98 then Json.parseStr t2 (acc ++ [8])
       else if c2 = 102 then Json.parseStr t2 (acc ++ [12])
       else if c2 = 110 then Json.parseStr t2 (acc ++ [10])
       else if c2 = 114 then Json.parseStr t2 (acc ++ [13])
       else if c2 = 116 then Json.parseStr t2 (acc ++ [9])
       else if c2 = 120 then Json.parseStrEscX t2 acc
       else if c2 = 117 then Json.parseStrEscU t2 acc
       else (.invalid_escape_character, acc, t2)) := rfl

theorem parseStrEscX_cons2 (h1 h2 : Nat) (t3 acc : Bytes) :
    Json.parseStrEscX (h1 :: h2 :: t3) acc =
      (if kHexToInt h1 ≠ -1 && kHexToInt h2 ≠ -1 then
        if 0x20 ≤ (((kHexToInt h1).toNat <<< 4) ||| (kHexToInt h2).toNat) &&
            (((kHexToInt h1).toNat <<< 4) ||| (kHexToInt h2).toNat) ≤ 0x7e then
          Json.parseStr t3 (acc ++ [((kHexToInt h1).toNat <<< 4) ||| (kHexToInt h2).toNat])
        else (.hex_escape_not_printable, acc, h1 :: h2 :: t3)
       else (.invalid_hex_escape, acc, h1 :: h2 :: t3)) := rfl

theorem parseStrEscU_cons4 (h1 h2 h3 h4 : Nat) (t6 acc : Bytes) :
    Json.parseStrEscU (h1 :: h2 :: h3 :: h4 :: t6) acc =
      (if hexOk4 h1 h2 h3 h4 then
        if !IsSurrogate (hexQuad h1 h2 h3 h4) then
          Json.parseStr t6 (acc ++ EncodeUTF8 (hexQuad h1 h2 h3 h4))
        else if IsHighSurrogate (hexQuad h1 h2 h3 h4) then
          if lowSurrogateEscAt t6 then Json.parseStrEscPair (hexQuad h1 h2 h3 h4) t6 acc
          else Json.parseStr t6 (acc ++ [92, 117, h1, h2, h3, h4])
        else Json.parseStr t6 (acc ++ [92, 117, h1, h2, h3, h4])
       else (.invalid_unicode_escape, acc, h1 :: h2 :: h3 :: h4 :: t6)) := rfl

theorem parseStrEscPair_cons6 (cc e1 e2 g1 g2 g3 g4 : Nat) (t12 acc : Bytes) :
    Json.parseStrEscPair cc (e1 :: e2 :: g1 :: g2 :: g3 :: g4 :: t12) acc =
      Json.parseStr t12 (acc ++ EncodeUTF8 (MergeUtf16 cc (hexQuad g1 g2 g3 g4))) := rfl

theorem parseStrU2_cons (c b1 : Nat) (t1 acc : Bytes) :
    Json.parseStrU2 c (b1 :: t1) acc =
      (if tpCont b1 then
        Json.parseStr t1 (acc ++ EncodeUTF8 (((c &&& 0x1f) <<< 6) ||| (b1 &&& 0x3f)))
       else (.malformed_utf8, acc, b1 :: t1)) := rfl

theorem parseStrE0_cons2 (c b1 b2 : Nat) (t2 acc : Bytes) :
    Json.parseStrE0 c (b1 :: b2 :: t2) acc =
      (if b1 < 0xa0 && tpCont b1 && tpCont b2 then (.overlong_utf8_0x7ff, acc, b1 :: b2 :: t2)
       else if tpCont b1 && tpCont b2 then
        Json.parseStr t2 (acc ++ EncodeUTF8 (utf3Decode c b1 b2))
       else (.malformed_utf8, acc, b1 :: b2 :: t2)) := rfl

theorem parseStrED_cons (c b1 : Nat) (t1 acc : Bytes) :
    Json.parseStrED c (b1 :: t1) acc =
      (if 1 ≤ t1.length && 0xa0 ≤ b1 then
        if cesuFires (b1 :: t1) then
          if kJsonStr b1 = 4 then
            Json.parseStrU2 b1 t1 (acc ++ EncodeUTF8 (cesuDecode (b1 :: t1)))
          else if kJsonStr b1 = 8 then
            Json.parseStrE0 b1 t1 (acc ++ EncodeUTF8 (cesuDecode (b1 :: t1)))
          else if kJsonStr b1 = 9 then
            Json.parseStrED b1 t1 (acc ++ EncodeUTF8 (cesuDecode (b1 :: t1)))
          else if kJsonStr b1 = 5 then
            Json.parseStrU3 b1 t1 (acc ++ EncodeUTF8 (cesuDecode (b1 :: t1)))
          else if kJsonStr b1 = 10 then
            Json.parseStrF0 b1 t1 (acc ++ EncodeUTF8 (cesuDecode (b1 :: t1)))
          else if kJsonStr b1 = 6 then
            Json.parseStrU4 b1 t1 (acc ++ EncodeUTF8 (cesuDecode (b1 :: t1)))
          else if kJsonStr b1 = 12 then
            if 1 ≤ t1.length && tpCont (t1.getD 0 0) then
              (.overlong_ascii, acc ++ EncodeUTF8 (cesuDecode (b1 :: t1)), t1)
            else (.illegal_utf8_character, acc ++ EncodeUTF8 (cesuDecode (b1 :: t1)), t1)
          else (.illegal_utf8_character, acc ++ EncodeUTF8 (cesuDecode (b1 :: t1)), t1)
        else if tpCont b1 && tpCont (t1.getD 0 0) then (.utf16_surrogate_in_utf8, acc, b1 :: t1)
        else (.malformed_utf8, acc, b1 :: t1)
       else Json.parseStrEDU3 c b1 t1 acc) := rfl

theorem parseStrEDU3_nil (c b1 : Nat) (acc : Bytes) :
    Json.parseStrEDU3 c b1 [] acc = (.malformed_utf8, acc, [b1]) := rfl

theorem parseStrEDU3_cons (c b1 b2 : Nat) (t3 acc : Bytes) :
    Json.parseStrEDU3 c b1 (b2 :: t3) acc =
      (if tpCont b1 && tpCont b2 then
        Json.parseStr t3 (acc ++ EncodeUTF8 (utf3Decode c b1 b2))
       else (.malformed_utf8, acc, b1 :: b2 :: t3)) := rfl

theorem parseStrU3_cons2 (c b1 b2 : Nat) (t2 acc : Bytes) :
    Json.parseStrU3 c (b1 :: b2 :: t2) acc =
      (if tpCont b1 && tpCont b2 then
        Json.parseStr t2 (acc ++ EncodeUTF8 (utf3Decode c b1 b2))
       else (.malformed_utf8, acc, b1 :: b2 :: t2)) := rfl

theorem parseStrF0_cons3 (c b1 b2 b3 : Nat) (t3 acc : Bytes) :
    Json.parseStrF0 c (b1 :: b2 :: b3 :: t3) acc =
      (if b1 < 0x90 && tpCont b1 && tpCont b2 && tpCont b3 then
        (.overlong_utf8_0xffff, acc, b1 :: b2 :: b3 :: t3)
       else if tpCont b1 && tpCont b2 && tpCont b3 then
        if utf4Decode c b1 b2 b3 ≤ 0x10ffff then
          Json.parseStr t3 (acc ++ EncodeUTF8 (utf4Decode c b1 b2 b3))
        else (.utf8_exceeds_utf16_range, acc, b1 :: b2 :: b3 :: t3)
       else (.malformed_utf8, acc, b1 :: b2 :: b3 :: t3)) := rfl

theorem parseStrU4_cons3 (c b1 b2 b3 : Nat) (t3 acc : Bytes) :
    Json.parseStrU4 c (b1 :: b2 :: b3 :: t3) acc =
      (if tpCont b1 && tpCont b2 && tpCont b3 then
        if utf4Decode c b1 b2 b3 ≤ 0x10ffff then
          Json.parseStr t3 (acc ++ EncodeUTF8 (utf4Decode c b1 b2 b3))
        else (.utf8_exceeds_utf16_range, acc, b1 :: b2 :: b3 :: t3)
       else (.malformed_utf8, acc, b1 :: b2 :: b3 :: t3)) := rfl

theorem parseVal_zero (bs a : Bytes) (d : Int) (context depth : Nat) :
    Json.parseVal 0 bs a d context depth = none := rfl

theorem parseVal_succ (fuel : Nat) (bs a : Bytes) (d : Int) (context depth : Nat) :
    Json.parseVal (fuel + 1) bs a d context depth =
      (if depth = 0 then some (.depth_exceeded, .null, bs)
       else
        match bs with
        | [] => some (if depth = DEPTH then .absent_value else .unexpected_eof, .null, [])
        | c :: t =>
          if isWsB c then Json.parseVal fuel t t d context depth
          else if c = 44 then
            if context &&& COMMA ≠ 0 then Json.parseVal fuel t t d 0 depth
            else some (.unexpected_comma, .null, t)
          else if c = 58 then
            if context &&& COLON ≠ 0 then Json.parseVal fuel t t d 0 depth
            else some (.unexpected_colon, .null, t)
          else if c = 110 then
            if context &&& (KEY ||| COLON ||| COMMA) ≠ 0 then
              some (ReturnColonCommaKeyErrorStatus context, .null, t)
            else some (Json.parseNullTok t)
          else if c = 102 then
            if context &&& (KEY ||| COLON ||| COMMA) ≠ 0 then
              some (ReturnColonCommaKeyErrorStatus context, .null, t)
            else some (Json.parseFalseTok t)
          else if c = 116 then
            if context &&& (KEY ||| COLON ||| COMMA) ≠ 0 then
              some (ReturnColonCommaKeyErrorStatus context, .null, t)
            else some (Json.parseTrueTok t)
          else if c = 45 then
            if context &&& (COLON ||| COMMA ||| KEY) ≠ 0 then
              some (ReturnColonCommaKeyErrorStatus context, .null, t)
            else if isDigitB (t.getD 0 256) then Json.parseVal fuel t a (-1) context depth
            else some (.bad_negative, .null, t)
          else if c = 48 then
            if context &&& (COLON ||| COMMA ||| KEY) ≠ 0 then
              some (ReturnColonCommaKeyErrorStatus context, .null, t)
            else some (Json.parseZeroTok a t)
          else if isDigitB c then
            if context &&& (COLON ||| COMMA ||| KEY) ≠ 0 then
              some (ReturnColonCommaKeyErrorStatus context, .null, t)
            else some (Json.parseIntTok c d a t)
          else if c = 91 then
            if context &&& (COLON ||| COMMA ||| KEY) ≠ 0 then
              some (ReturnColonCommaKeyErrorStatus context, .null, t)
            else Json.parseArr fuel t depth [] ARRAY
          else if c = 93 then
            if context &&& ARRAY ≠ 0 then some (.absent_value, .null, t)
            else some (.unexpected_end_of_array, .null, t)
          else if c = 125 then
            if context &&& OBJECT ≠ 0 then some (.absent_value, .null, t)
            else some (.unexpected_end_of_object, .null, t)
          else if c = 123 then
            if context &&& (COLON ||| COMMA ||| KEY) ≠ 0 then
              some (ReturnColonCommaKeyErrorStatus context, .null, t)
            else Json.parseObj fuel t depth [] (KEY ||| OBJECT)
          else if c = 34 then
            if context &&& (COLON ||| COMMA) ≠ 0 then
              some (ReturnColonCommaErrorStatus context, .null, t)
            else some (Json.parseStrTok t)
          else some (.illegal_character, .null, t)) := rfl

theorem parseArr_zero (bs : Bytes) (depth : Nat) (acc : List Json) (actx : Nat) :
    Json.parseArr 0 bs depth acc actx = none := rfl

theorem parseArr_succ (fuel : Nat) (bs : Bytes) (depth : Nat) (acc : List Json) (actx : Nat) :
    Json.parseArr (fuel + 1) bs depth acc actx =
      (match Json.parseVal fuel bs bs 1 actx (depth - 1) with
       | none => none
       | some (st, v, rest) =>
         if st = .absent_value then some (.success, .arr acc, rest)
         else if st = .success then Json.parseArr fuel rest depth (acc ++ [v]) (ARRAY ||| COMMA)
         else some (st, .arr acc, rest)) := rfl

theorem parseObj_zero (bs : Bytes) (depth : Nat) (acc : List (Bytes × Json)) (octx : Nat) :
    Json.parseObj 0 bs depth acc octx = none := rfl

theorem parseObj_succ (fuel : Nat) (bs : Bytes) (depth : Nat)
    (acc : List (Bytes × Json)) (octx : Nat) :
    Json.parseObj (fuel + 1) bs depth acc octx =
      (match Json.parseVal fuel bs bs 1 octx (depth - 1) with
       | none => none
       | some (st, k, rest) =>
         if st = .absent_value then some (.success, .obj acc, rest)
         else if st ≠ .success then some (st, .obj acc, rest)
         else
           match k with
           | .str ks =>
             match Json.parseVal fuel rest rest 1 COLON (depth - 1) with
             | none => none
             | some (st2, v, rest2) =>
               if st2 = .absent_value then some (.object_missing_value, .obj acc, rest2)
               else if st2 ≠ .success then some (st2, .obj acc, rest2)
               else Json.parseObj fuel rest2 depth (Json.emplace acc ks v) (KEY ||| COMMA ||| OBJECT)
           | _ => some (.object_key_must_be_string, .obj acc, rest)) := rfl

theorem parseStrEscX_nil (acc : Bytes) :
    Json.parseStrEscX [] acc = (.invalid_hex_escape, acc, []) := rfl

theorem parseStrEscX_one (h1 : Nat) (acc : Bytes) :
    Json.parseStrEscX [h1] acc = (.invalid_hex_escape, acc, [h1]) := rfl

theorem parseStrEscPair_short (cc : Nat) (l acc : Bytes) (hl : l.length < 6) :
    Json.parseStrEscPair cc l acc = (.internal_error_unreachable_code, acc, l) := by
  rcases l with _ | ⟨a, _ | ⟨b, _ | ⟨c, _ | ⟨d, _ | ⟨e, _ | ⟨f, t⟩⟩⟩⟩⟩⟩
  · rfl
  · rfl
  · rfl
  · rfl
  · rfl
  · rfl
  · simp at hl; omega

theorem parseStrEscU_short (l acc : Bytes) (hl : l.length < 4) :
    Json.parseStrEscU l acc = (.invalid_unicode_escape, acc, l) := by
  rcases l with _ | ⟨a, _ | ⟨b, _ | ⟨c, _ | ⟨d, t⟩⟩⟩⟩
  · rfl
  · rfl
  · rfl
  · rfl
  · simp at hl; omega

theorem parseStrU2_nil (c : Nat) (acc : Bytes) :
    Json.parseStrU2 c [] acc = (.malformed_utf8, acc, []) := rfl

theorem parseStrE0_short (c : Nat) (l acc : Bytes) (hl : l.length < 2) :
    Json.parseStrE0 c l acc = (.malformed_utf8, acc, l) := by
  rcases l with _ | ⟨a, _ | ⟨b, t⟩⟩
  · rfl
  · rfl
  · simp at hl; omega

theorem parseStrED_nil (c : Nat) (acc : Bytes) :
    Json.parseStrED c [] acc = (.malformed_utf8, acc, []) := rfl

theorem parseStrU3_short (c : Nat) (l acc : Bytes) (hl : l.length < 2) :
    Json.parseStrU3 c l acc = (.malformed_utf8, acc, l) := by
  rcases l with _ | ⟨a, _ | ⟨b, t⟩⟩
  · rfl
  · rfl
  · simp at hl; omega

theorem parseStrF0_short (c : Nat) (l acc : Bytes) (hl : l.length < 3) :
    Json.parseStrF0 c l acc = (.malformed_utf8, acc, l) := by
  rcases l with _ | ⟨a, _ | ⟨b, _ | ⟨d, t⟩⟩⟩
  · rfl
  · rfl
  · rfl
  · simp at hl; omega

theorem parseStrU4_short (c : Nat) (l acc : Bytes) (hl : l.length < 3) :
    Json.parseStrU4 c l acc = (.malformed_utf8, acc, l) := by
  rcases l with _ | ⟨a, _ | ⟨b, _ | ⟨d, t⟩⟩⟩
  · rfl
  · rfl
  · rfl
  · simp at hl; omega

/-- Invariant of the string scanner results: the status is never the
absent_value sentinel and the unconsumed rest is no longer than n. -/
abbrev StrOut (n : Nat) (r : JsonStatus × Bytes × Bytes) : Prop :=
  r.1 ≠ .absent_value ∧ r.2.2.length ≤ n

theorem StrOut.mono {n m : Nat} {r : JsonStatus × Bytes × Bytes}
    (h : StrOut n r) (hnm : n ≤ m) : StrOut m r := ⟨h.1, le_trans h.2 hnm⟩

theorem len_cons_le (c : Nat) (t : Bytes) : t.length ≤ (c :: t).length := by simp

theorem strFamNil :
    (∀ acc, StrOut ([] : Bytes).length (Json.parseStr [] acc)) ∧
    (∀ acc, StrOut ([] : Bytes).length (Json.parseStrEsc [] acc)) ∧
    (∀ acc, StrOut ([] : Bytes).length (Json.parseStrEscX [] acc)) ∧
    (∀ cc acc, StrOut ([] : Bytes).length (Json.parseStrEscPair cc [] acc)) ∧
    (∀ acc, StrOut ([] : Bytes).length (Json.parseStrEscU [] acc)) ∧
    (∀ c acc, StrOut ([] : Bytes).length (Json.parseStrU2 c [] acc)) ∧
    (∀ c acc, StrOut ([] : Bytes).length (Json.parseStrE0 c [] acc)) ∧
    (∀ c acc, StrOut ([] : Bytes).length (Json.parseStrED c [] acc)) ∧
    (∀ c b1 acc, StrOut (([] : Bytes).length + 1) (Json.parseStrEDU3 c b1 [] acc)) ∧
    (∀ c acc, StrOut ([] : Bytes).length (Json.parseStrU3 c [] acc)) ∧
    (∀ c acc, StrOut ([] : Bytes).length (Json.parseStrF0 c [] acc)) ∧
    (∀ c acc, StrOut ([] : Bytes).length (Json.parseStrU4 c [] acc)) := by
  refine ⟨fun acc => ?_, fun acc => ?_, fun acc => ?_, fun cc acc => ?_, fun acc => ?_,
    fun c acc => ?_, fun c acc => ?_, fun c acc => ?_, fun c b1 acc => ?_, fun c acc => ?_,
    fun c acc => ?_, fun c acc => ?_⟩
  · rw [parseStr_nil]; exact ⟨by simp, by simp⟩
  · rw [parseStrEsc_nil]; exact ⟨by simp, by simp⟩
  · rw [parseStrEscX_nil]; exact ⟨by simp, by simp⟩
  · rw [parseStrEscPair_short cc [] acc (by simp)]; exact ⟨by simp, by simp⟩
  · rw [parseStrEscU_short [] acc (by simp)]; exact ⟨by simp, by simp⟩
  · rw [parseStrU2_nil]; exact ⟨by simp, by simp⟩
  · rw [parseStrE0_short c [] acc (by simp)]; exact ⟨by simp, by simp⟩
  · rw [parseStrED_nil]; exact ⟨by simp, by simp⟩
  · rw [parseStrEDU3_nil]; exact ⟨by simp, by simp⟩
  · rw [parseStrU3_short c [] acc (by simp)]; exact ⟨by simp, by simp⟩
  · rw [parseStrF0_short c [] acc (by simp)]; exact ⟨by simp, by simp⟩
  · rw [parseStrU4_short c [] acc (by simp)]; exact ⟨by simp, by simp⟩

theorem strFam : ∀ (n : Nat) (bs : Bytes), bs.length ≤ n →
    (∀ acc, StrOut bs.length (Json.parseStr bs acc)) ∧
    (∀ acc, StrOut bs.length (Json.parseStrEsc bs acc)) ∧
    (∀ acc, StrOut bs.length (Json.parseStrEscX bs acc)) ∧
    (∀ cc acc, StrOut bs.length (Json.parseStrEscPair cc bs acc)) ∧
    (∀ acc, StrOut bs.length (Json.parseStrEscU bs acc)) ∧
    (∀ c acc, StrOut bs.length (Json.parseStrU2 c bs acc)) ∧
    (∀ c acc, StrOut bs.length (Json.parseStrE0 c bs acc)) ∧
    (∀ c acc, StrOut bs.length (Json.parseStrED c bs acc)) ∧
    (∀ c b1 acc, StrOut (bs.length + 1) (Json.parseStrEDU3 c b1 bs acc)) ∧
    (∀ c acc, StrOut bs.length (Json.parseStrU3 c bs acc)) ∧
    (∀ c acc, StrOut bs.length (Json.parseStrF0 c bs acc)) ∧
    (∀ c acc, StrOut bs.length (Json.parseStrU4 c bs acc)) := by
  intro n
  induction n with
  | zero =>
    intro bs hbs
    have hb : bs = [] := List.eq_nil_of_length_eq_zero (by omega)
    subst hb
    exact strFamNil
  | succ n ih =>
    intro bs hbs
    rcases bs with _ | ⟨c, t⟩
    · exact strFamNil
    have ht : t.length ≤ n := by simp at hbs; omega
    obtain ⟨iS, iE, iX, iP, iU, i2, i0, iD, iDU, i3, iF, i4⟩ := ih t ht
    refine ⟨?_, ?_, ?_, ?_, ?_, ?_, ?_, ?_, ?_, ?_, ?_, ?_⟩
    · -- parseStr
      intro acc
      rw [parseStr_cons]
      by_cases h0 : kJsonStr c = 0
      · rw [if_pos h0]; exact (iS _).mono (len_cons_le c t)
      rw [if_neg h0]
      by_cases h2 : kJsonStr c = 2
      · rw [if_pos h2]; exact ⟨by simp, by simp⟩
      rw [if_neg h2]
      by_cases h3 : kJsonStr c = 3
      · rw [if_pos h3]; exact (iE _).mono (len_cons_le c t)
      rw [if_neg h3]
      by_cases h4 : kJsonStr c = 4
      · rw [if_pos h4]; exact (i2 _ _).mono (len_cons_le c t)
      rw [if_neg h4]
      by_cases h8 : kJsonStr c = 8
      · rw [if_pos h8]; exact (i0 _ _).mono (len_cons_le c t)
      rw [if_neg h8]
      by_cases h9 : kJsonStr c = 9
      · rw [if_pos h9]; exact (iD _ _).mono (len_cons_le c t)
      rw [if_neg h9]
      by_cases h5 : kJsonStr c = 5
      · rw [if_pos h5]; exact (i3 _ _).mono (len_cons_le c t)
      rw [if_neg h5]
      by_cases h10 : kJsonStr c = 10
      · rw [if_pos h10]; exact (iF _ _).mono (len_cons_le c t)
      rw [if_neg h10]
      by_cases h6 : kJsonStr c = 6
      · rw [if_pos h6]; exact (i4 _ _).mono (len_cons_le c t)
      rw [if_neg h6]
      by_cases h12 : kJsonStr c = 12
      · rw [if_pos h12]
        exact ⟨by split <;> simp, by split <;> simp⟩
      rw [if_neg h12]
      by_cases h11 : kJsonStr c = 11
      · rw [if_pos h11]; exact ⟨by simp, by simp⟩
      rw [if_neg h11]
      by_cases h1 : kJsonStr c = 1
      · rw [if_pos h1]; exact ⟨by simp, by simp⟩
      rw [if_neg h1]
      by_cases h7 : kJsonStr c = 7
      · rw [if_pos h7]; exact ⟨by simp, by simp⟩
      rw [if_neg h7]
      exact ⟨by simp, by simp⟩
    · -- parseStrEsc
      intro acc
      rw [parseStrEsc_cons]
      split_ifs with e1 e2 e3 e4 e5 e6 e7 e8
      · exact (iS _).mono (len_cons_le c t)
      · exact (iS _).mono (len_cons_le c t)
      · exact (iS _).mono (len_cons_le c t)
      · exact (iS _).mono (len_cons_le c t)
      · exact (iS _).mono (len_cons_le c t)
      · exact (iS _).mono (len_cons_le c t)
      · exact (iX _).mono (len_cons_le c t)
      · exact (iU _).mono (len_cons_le c t)
      · exact ⟨by simp, by simp⟩
    · -- parseStrEscX
      intro acc
      rcases t with _ | ⟨h2b, t3⟩
      · rw [parseStrEscX_one]; exact ⟨by simp, by simp⟩
      rw [parseStrEscX_cons2]
      split_ifs with e1 e2
      · exact ((ih t3 (by simp at hbs; omega)).1 _).mono (by simp only [List.length_cons]; omega)
      · exact ⟨by simp, by simp⟩
      · exact ⟨by simp, by simp⟩
    · -- parseStrEscPair
      intro cc acc
      rcases t with _ | ⟨b2, _ | ⟨b3, _ | ⟨b4, _ | ⟨b5, _ | ⟨b6, t12⟩⟩⟩⟩⟩
      · rw [parseStrEscPair_short cc [c] acc (by simp)]; exact ⟨by simp, by simp⟩
      · rw [parseStrEscPair_short cc [c, b2] acc (by simp)]; exact ⟨by simp, by simp⟩
      · rw [parseStrEscPair_short cc [c, b2, b3] acc (by simp)]; exact ⟨by simp, by simp⟩
      · rw [parseStrEscPair_short cc [c, b2, b3, b4] acc (by simp)]; exact ⟨by simp, by simp⟩
      · rw [parseStrEscPair_short cc [c, b2, b3, b4, b5] acc (by simp)]; exact ⟨by simp, by simp⟩
      rw [parseStrEscPair_cons6]
      exact ((ih t12 (by simp at hbs; omega)).1 _).mono (by simp only [List.length_cons]; omega)
    · -- parseStrEscU
      intro acc
      rcases t with _ | ⟨b2, _ | ⟨b3, _ | ⟨b4, t6⟩⟩⟩
      · rw [parseStrEscU_short [c] acc (by simp)]; exact ⟨by simp, by simp⟩
      · rw [parseStrEscU_short [c, b2] acc (by simp)]; exact ⟨by simp, by simp⟩
      · rw [parseStrEscU_short [c, b2, b3] acc (by simp)]; exact ⟨by simp, by simp⟩
      rw [parseStrEscU_cons4]
      have h6 : t6.length ≤ n := by simp at hbs; omega
      split_ifs with e1 e2 e3 e4
      · exact ((ih t6 h6).1 _).mono (by simp only [List.length_cons]; omega)
      · exact (((ih t6 h6).2.2.2.1) _ _).mono (by simp only [List.length_cons]; omega)
      · exact ((ih t6 h6).1 _).mono (by simp only [List.length_cons]; omega)
      · exact ((ih t6 h6).1 _).mono (by simp only [List.length_cons]; omega)
      · exact ⟨by simp, by simp⟩
    · -- parseStrU2
      intro cl acc
      rw [parseStrU2_cons]
      split_ifs with e1
      · exact (iS _).mono (len_cons_le c t)
      · exact ⟨by simp, by simp⟩
    · -- parseStrE0
      intro cl acc
      rcases t with _ | ⟨b2, t2⟩
      · rw [parseStrE0_short cl [c] acc (by simp)]; exact ⟨by simp, by simp⟩
      rw [parseStrE0_cons2]
      split_ifs with e1 e2
      · exact ⟨by simp, by simp⟩
      · exact ((ih t2 (by simp at hbs; omega)).1 _).mono (by simp only [List.length_cons]; omega)
      · exact ⟨by simp, by simp⟩
    · -- parseStrED
      intro cl acc
      rw [parseStrED_cons]
      by_cases hg : (1 ≤ t.length && 0xa0 ≤ c : Bool)
      · rw [if_pos hg]
        by_cases hcf : (cesuFires (c :: t) : Bool)
        · rw [if_pos hcf]
          by_cases k4 : kJsonStr c = 4
          · rw [if_pos k4]; exact (i2 _ _).mono (len_cons_le c t)
          rw [if_neg k4]
          by_cases k8 : kJsonStr c = 8
          · rw [if_pos k8]; exact (i0 _ _).mono (len_cons_le c t)
          rw [if_neg k8]
          by_cases k9 : kJsonStr c = 9
          · rw [if_pos k9]; exact (iD _ _).mono (len_cons_le c t)
          rw [if_neg k9]
          by_cases k5 : kJsonStr c = 5
          · rw [if_pos k5]; exact (i3 _ _).mono (len_cons_le c t)
          rw [if_neg k5]
          by_cases k10 : kJsonStr c = 10
          · rw [if_pos k10]; exact (iF _ _).mono (len_cons_le c t)
          rw [if_neg k10]
          by_cases k6 : kJsonStr c = 6
          · rw [if_pos k6]; exact (i4 _ _).mono (len_cons_le c t)
          rw [if_neg k6]
          by_cases k12 : kJsonStr c = 12
          · rw [if_pos k12]
            exact ⟨by split <;> simp, by split <;> simp⟩
          rw [if_neg k12]
          exact ⟨by simp, by simp⟩
        · rw [if_neg hcf]
          exact ⟨by split <;> simp, by split <;> simp⟩
      · rw [if_neg hg]
        exact (iDU _ _ _).mono (by simp only [List.length_cons]; omega)
    · -- parseStrEDU3
      intro cl b1 acc
      rw [parseStrEDU3_cons]
      split_ifs with e1
      · exact (iS _).mono (by simp; omega)
      · exact ⟨by simp, by simp⟩
    · -- parseStrU3
      intro cl acc
      rcases t with _ | ⟨b2, t2⟩
      · rw [parseStrU3_short cl [c] acc (by simp)]; exact ⟨by simp, by simp⟩
      rw [parseStrU3_cons2]
      split_ifs with e1
      · exact ((ih t2 (by simp at hbs; omega)).1 _).mono (by simp only [List.length_cons]; omega)
      · exact ⟨by simp, by simp⟩
    · -- parseStrF0
      intro cl acc
      rcases t with _ | ⟨b2, _ | ⟨b3, t3⟩⟩
      · rw [parseStrF0_short cl [c] acc (by simp)]; exact ⟨by simp, by simp⟩
      · rw [parseStrF0_short cl [c, b2] acc (by simp)]; exact ⟨by simp, by simp⟩
      rw [parseStrF0_cons3]
      split_ifs with e1 e2 e3
      · exact ⟨by simp, by simp⟩
      · exact ((ih t3 (by simp at hbs; omega)).1 _).mono (by simp only [List.length_cons]; omega)
      · exact ⟨by simp, by simp⟩
      · exact ⟨by simp, by simp⟩
    · -- parseStrU4
      intro cl acc
      rcases t with _ | ⟨b2, _ | ⟨b3, t3⟩⟩
      · rw [parseStrU4_short cl [c] acc (by simp)]; exact ⟨by simp, by simp⟩
      · rw [parseStrU4_short cl [c, b2] acc (by simp)]; exact ⟨by simp, by simp⟩
      rw [parseStrU4_cons3]
      split_ifs with e1 e2
      · exact ((ih t3 (by simp at hbs; omega)).1 _).mono (by simp only [List.length_cons]; omega)
      · exact ⟨by simp, by simp⟩
      · exact ⟨by simp, by simp⟩

theorem parseStr_strOut (bs acc : Bytes) : StrOut bs.length (Json.parseStr bs acc) :=
  (strFam bs.length bs le_rfl).1 acc

/-- The string token case as projections: the status of the scan, the
scanned string on success and Null otherwise, and the rest of the scan. -/
theorem parseStrTok_eq (t : Bytes) :
    Json.parseStrTok t =
      ((Json.parseStr t []).1,
       if (Json.parseStr t []).1 = .success then Json.str (Json.parseStr t []).2.1 else .null,
       (Json.parseStr t []).2.2) := by
  unfold Json.parseStrTok
  rcases hE : Json.parseStr t [] with ⟨st, s, rest⟩
  cases st <;> simp

theorem parseStrTok_spec (t : Bytes) :
    (Json.parseStrTok t).1 ≠ .absent_value ∧ (Json.parseStrTok t).2.2.length ≤ t.length := by
  have h := parseStr_strOut t []
  rw [parseStrTok_eq]
  exact ⟨h.1, h.2⟩

theorem parseNullTok_spec (t : Bytes) :
    (Json.parseNullTok t).1 ≠ .absent_value ∧ (Json.parseNullTok t).2.2.length ≤ t.length := by
  unfold Json.parseNullTok
  split
  · exact ⟨by simp, by simp only [List.length_cons]; omega⟩
  · exact ⟨by simp, le_rfl⟩

theorem parseFalseTok_spec (t : Bytes) :
    (Json.parseFalseTok t).1 ≠ .absent_value ∧ (Json.parseFalseTok t).2.2.length ≤ t.length := by
  unfold Json.parseFalseTok
  split
  · exact ⟨by simp, by simp only [List.length_cons]; omega⟩
  · exact ⟨by simp, le_rfl⟩

theorem parseTrueTok_spec (t : Bytes) :
    (Json.parseTrueTok t).1 ≠ .absent_value ∧ (Json.parseTrueTok t).2.2.length ≤ t.length := by
  unfold Json.parseTrueTok
  split
  · exact ⟨by simp, by simp only [List.length_cons]; omega⟩
  · exact ⟨by simp, le_rfl⟩

theorem promoteDouble_spec (a rest : Bytes) :
    (promoteDouble a rest).1 ≠ .absent_value ∧
      (promoteDouble a rest).2.2.length ≤ max rest.length (a.length - 1) := by
  unfold promoteDouble
  rcases hqc : StringToDouble a with ⟨q, cn⟩
  dsimp only
  by_cases hc : cn = 0
  · rw [if_pos hc]
    exact ⟨by simp, le_max_of_le_left (by simp)⟩
  · rw [if_neg hc]
    rcases hd : a.drop cn with _ | ⟨c2, t2⟩
    · exact ⟨by simp, by simp⟩
    · have hlen : (c2 :: t2).length ≤ a.length - 1 := by
        rw [show (c2 :: t2) = a.drop cn from hd.symm, List.length_drop]
        omega
      dsimp only
      split_ifs with he
      · exact ⟨by simp, le_max_of_le_left (by simp)⟩
      · exact ⟨by simp, le_max_of_le_right hlen⟩

/-- The rest a NumOut carries. -/
def NumOut.rest : NumOut → Bytes
  | .fixed _ r => r
  | .promote r => r
  | .badDouble r => r

theorem numLoop_rest_le (d : Int) : ∀ (bs : Bytes) (x : Int),
    (numLoop d bs x).rest.length ≤ bs.length := by
  intro bs
  induction bs with
  | nil => intro x; simp [numLoop, NumOut.rest]
  | cons c t ihn =>
    intro x
    unfold numLoop
    split_ifs with h1 h2 h3 h4 h5
    · simp [NumOut.rest]
    · simp [NumOut.rest]
    · exact le_trans (ihn _) (by simp)
    · rcases t with _ | ⟨c2, t2⟩
      · simp [NumOut.rest]
      · dsimp only
        split_ifs with h6
        · simp [NumOut.rest]
        · simp [NumOut.rest]
    · simp [NumOut.rest]
    · simp [NumOut.rest]

theorem parseIntTok_spec (c : Nat) (d : Int) (a t : Bytes) :
    (Json.parseIntTok c d a t).1 ≠ .absent_value ∧
      (Json.parseIntTok c d a t).2.2.length ≤ max t.length (a.length - 1) := by
  unfold Json.parseIntTok
  rcases hn : numLoop d t (((c : Int) - 48) * d) with ⟨x, r⟩ | r | r
  · have := numLoop_rest_le d t (((c : Int) - 48) * d)
    rw [hn] at this
    exact ⟨by simp, le_max_of_le_left (le_trans this le_rfl)⟩
  · have hr := numLoop_rest_le d t (((c : Int) - 48) * d)
    rw [hn] at hr
    have := promoteDouble_spec a r
    exact ⟨this.1, le_trans this.2 (by simp [NumOut.rest] at hr ⊢; omega)⟩
  · have hr := numLoop_rest_le d t (((c : Int) - 48) * d)
    rw [hn] at hr
    exact ⟨by simp, le_max_of_le_left (by simpa [NumOut.rest] using hr)⟩

theorem parseZeroTok_spec (a t : Bytes) :
    (Json.parseZeroTok a t).1 ≠ .absent_value ∧
      (Json.parseZeroTok a t).2.2.length ≤ max t.length (a.length - 1) := by
  unfold Json.parseZeroTok
  rcases t with _ | ⟨p1, t1⟩
  · exact ⟨by simp, by simp⟩
  dsimp only
  split_ifs with h1 h2 h3
  · rcases t1 with _ | ⟨p2, t2⟩
    · exact ⟨by simp, le_max_of_le_left (by simp)⟩
    · dsimp only
      split_ifs with h4
      · have := promoteDouble_spec a (p1 :: p2 :: t2)
        exact ⟨this.1, this.2⟩
      · exact ⟨by simp, le_max_of_le_left (by simp)⟩
  · have := promoteDouble_spec a (p1 :: t1)
    exact ⟨this.1, this.2⟩
  · exact ⟨by simp, le_max_of_le_left (by simp)⟩
  · exact ⟨by simp, le_max_of_le_left (by simp)⟩

/-- Invariant on the token-start pointer a: it is the current cursor, or the
cursor is one past a leading minus sign whose next byte is a digit. -/
def AInv (a bs : Bytes) : Prop := a = bs ∨ (a = 45 :: bs ∧ isDigitB (bs.getD 0 256))

theorem AInv.len {a bs : Bytes} (h : AInv a bs) : a.length ≤ bs.length + 1 := by
  rcases h with rfl | ⟨rfl, _⟩
  · omega
  · simp

theorem parseArr_ne_absent : ∀ (fuel : Nat) (bs : Bytes) (dep : Nat) (acc : List Json)
    (actx : Nat) (r : JsonStatus × Json × Bytes),
    Json.parseArr fuel bs dep acc actx = some r → r.1 ≠ .absent_value := by
  intro fuel
  induction fuel with
  | zero => intro bs dep acc actx r h; rw [parseArr_zero] at h; cases h
  | succ fuel ih =>
    intro bs dep acc actx r h
    rw [parseArr_succ] at h
    rcases hv : Json.parseVal fuel bs bs 1 actx (dep - 1) with _ | ⟨st1, v1, r1⟩ <;> rw [hv] at h
    · cases h
    dsimp only at h
    split_ifs at h with hs1 hs2
    · rw [Option.some_inj] at h; subst h; simp
    · exact ih _ _ _ _ _ h
    · rw [Option.some_inj] at h; subst h; exact hs1

theorem parseObj_ne_absent : ∀ (fuel : Nat) (bs : Bytes) (dep : Nat)
    (acc : List (Bytes × Json)) (octx : Nat) (r : JsonStatus × Json × Bytes),
    Json.parseObj fuel bs dep acc octx = some r → r.1 ≠ .absent_value := by
  intro fuel
  induction fuel with
  | zero => intro bs dep acc octx r h; rw [parseObj_zero] at h; cases h
  | succ fuel ih =>
    intro bs dep acc octx r h
    rw [parseObj_succ] at h
    rcases hv : Json.parseVal fuel bs bs 1 octx (dep - 1) with _ | ⟨st1, k1, r1⟩ <;> rw [hv] at h
    · cases h
    dsimp only at h
    split_ifs at h with hs1 hs2
    · rw [Option.some_inj] at h; subst h; simp
    · rw [Option.some_inj] at h; subst h; exact hs1
    cases k1 with
    | str ks =>
      dsimp only at h
      rcases hv2 : Json.parseVal fuel r1 r1 1 COLON (dep - 1) with _ | ⟨st2, v2, r2⟩ <;>
        rw [hv2] at h
      · cases h
      dsimp only at h
      split_ifs at h with ht1 ht2
      · rw [Option.some_inj] at h; subst h; simp
      · rw [Option.some_inj] at h; subst h; exact ht1
      · exact ih _ _ _ _ _ h
    | null => rw [Option.some_inj] at h; subst h; simp
    | bool b => rw [Option.some_inj] at h; subst h; simp
    | long n => rw [Option.some_inj] at h; subst h; simp
    | float q => rw [Option.some_inj] at h; subst h; simp
    | double q => rw [Option.some_inj] at h; subst h; simp
    | arr xs => rw [Option.some_inj] at h; subst h; simp
    | obj kvs => rw [Option.some_inj] at h; subst h; simp

theorem parse_restLe : ∀ fuel : Nat,
    (∀ (bs a : Bytes) (d : Int) (c dep : Nat) (r : JsonStatus × Json × Bytes), AInv a bs →
      Json.parseVal fuel bs a d c dep = some r → r.2.2.length ≤ bs.length) ∧
    (∀ (bs : Bytes) (dep : Nat) (acc : List Json) (actx : Nat) (r : JsonStatus × Json × Bytes),
      Json.parseArr fuel bs dep acc actx = some r → r.2.2.length ≤ bs.length) ∧
    (∀ (bs : Bytes) (dep : Nat) (acc : List (Bytes × Json)) (octx : Nat)
      (r : JsonStatus × Json × Bytes),
      Json.parseObj fuel bs dep acc octx = some r → r.2.2.length ≤ bs.length) := by
  intro fuel
  induction fuel with
  | zero =>
    refine ⟨?_, ?_, ?_⟩
    · intro bs a d c dep r _ h; rw [parseVal_zero] at h; cases h
    · intro bs dep acc actx r h; rw [parseArr_zero] at h; cases h
    · intro bs dep acc octx r h; rw [parseObj_zero] at h; cases h
  | succ fuel ih =>
    obtain ⟨ihV, ihA, ihO⟩ := ih
    refine ⟨?_, ?_, ?_⟩
    · -- parseVal
      intro bs a d c dep r hA h
      rw [parseVal_succ] at h
      by_cases hD : dep = 0
      · rw [if_pos hD] at h; rw [Option.some_inj] at h; subst h; simp
      rw [if_neg hD] at h
      rcases bs with _ | ⟨cb, t⟩
      · dsimp only at h; rw [Option.some_inj] at h; subst h; simp
      dsimp only at h
      by_cases h1 : (isWsB cb : Bool)
      · rw [if_pos h1] at h
        exact le_trans (ihV t t d c dep r (Or.inl rfl) h) (by simp)
      rw [if_neg h1] at h
      by_cases h2 : cb = 44
      · rw [if_pos h2] at h
        split_ifs at h with hc2
        · exact le_trans (ihV t t d 0 dep r (Or.inl rfl) h) (by simp)
        · rw [Option.some_inj] at h; subst h; simp
      rw [if_neg h2] at h
      by_cases h3 : cb = 58
      · rw [if_pos h3] at h
        split_ifs at h with hc3
        · exact le_trans (ihV t t d 0 dep r (Or.inl rfl) h) (by simp)
        · rw [Option.some_inj] at h; subst h; simp
      rw [if_neg h3] at h
      by_cases h4 : cb = 110
      · rw [if_pos h4] at h
        split_ifs at h with hc4
        · rw [Option.some_inj] at h; subst h; simp
        · rw [Option.some_inj] at h; subst h
          exact le_trans (parseNullTok_spec t).2 (by simp)
      rw [if_neg h4] at h
      by_cases h5 : cb = 102
      · rw [if_pos h5] at h
        split_ifs at h with hc5
        · rw [Option.some_inj] at h; subst h; simp
        · rw [Option.some_inj] at h; subst h
          exact le_trans (parseFalseTok_spec t).2 (by simp)
      rw [if_neg h5] at h
      by_cases h6 : cb = 116
      · rw [if_pos h6] at h
        split_ifs at h with hc6
        · rw [Option.some_inj] at h; subst h; simp
        · rw [Option.some_inj] at h; subst h
          exact le_trans (parseTrueTok_spec t).2 (by simp)
      rw [if_neg h6] at h
      by_cases h7 : cb = 45
      · rw [if_pos h7] at h
        split_ifs at h with hc7 hd7
        · rw [Option.some_inj] at h; subst h; simp
        · have hA2 : AInv a t := by
            subst h7
            rcases hA with rfl | ⟨rfl, hdig⟩
            · exact Or.inr ⟨rfl, by simpa using hd7⟩
            · simp [isDigitB] at hdig
          exact le_trans (ihV t a (-1) c dep r hA2 h) (by simp)
        · rw [Option.some_inj] at h; subst h; simp
      rw [if_neg h7] at h
      have hAlen : a.length ≤ t.length + 2 := by
        have := hA.len; simp at this; omega
      by_cases h8 : cb = 48
      · rw [if_pos h8] at h
        split_ifs at h with hc8
        · rw [Option.some_inj] at h; subst h; simp
        · rw [Option.some_inj] at h; subst h
          refine le_trans (parseZeroTok_spec a t).2 ?_
          simp only [List.length_cons]
          omega
      rw [if_neg h8] at h
      by_cases h9 : (isDigitB cb : Bool)
      · rw [if_pos h9] at h
        split_ifs at h with hc9
        · rw [Option.some_inj] at h; subst h; simp
        · rw [Option.some_inj] at h; subst h
          refine le_trans (parseIntTok_spec cb d a t).2 ?_
          simp only [List.length_cons]
          omega
      rw [if_neg h9] at h
      by_cases h10 : cb = 91
      · rw [if_pos h10] at h
        split_ifs at h with hc10
        · rw [Option.some_inj] at h; subst h; simp
        · exact le_trans (ihA t dep [] ARRAY r h) (by simp)
      rw [if_neg h10] at h
      by_cases h11 : cb = 93
      · rw [if_pos h11] at h
        split_ifs at h with hc11 <;> (rw [Option.some_inj] at h; subst h; simp)
      rw [if_neg h11] at h
      by_cases h12 : cb = 125
      · rw [if_pos h12] at h
        split_ifs at h with hc12 <;> (rw [Option.some_inj] at h; subst h; simp)
      rw [if_neg h12] at h
      by_cases h13 : cb = 123
      · rw [if_pos h13] at h
        split_ifs at h with hc13
        · rw [Option.some_inj] at h; subst h; simp
        · exact le_trans (ihO t dep [] (KEY ||| OBJECT) r h) (by simp)
      rw [if_neg h13] at h
      by_cases h14 : cb = 34
      · rw [if_pos h14] at h
        split_ifs at h with hc14
        · rw [Option.some_inj] at h; subst h; simp
        · rw [Option.some_inj] at h; subst h
          exact le_trans (parseStrTok_spec t).2 (by simp)
      rw [if_neg h14] at h
      rw [Option.some_inj] at h; subst h; simp
    · -- parseArr
      intro bs dep acc actx r h
      rw [parseArr_succ] at h
      rcases hv : Json.parseVal fuel bs bs 1 actx (dep - 1) with _ | ⟨st1, v1, r1⟩ <;>
        rw [hv] at h
      · cases h
      dsimp only at h
      have hr1 : r1.length ≤ bs.length := ihV bs bs 1 actx (dep - 1) _ (Or.inl rfl) hv
      split_ifs at h with hs1 hs2
      · rw [Option.some_inj] at h; subst h; exact hr1
      · exact le_trans (ihA r1 dep (acc ++ [v1]) (ARRAY ||| COMMA) r h) hr1
      · rw [Option.some_inj] at h; subst h; exact hr1
    · -- parseObj
      intro bs dep acc octx r h
      rw [parseObj_succ] at h
      rcases hv : Json.parseVal fuel bs bs 1 octx (dep - 1) with _ | ⟨st1, k1, r1⟩ <;>
        rw [hv] at h
      · cases h
      dsimp only at h
      have hr1 : r1.length ≤ bs.length := ihV bs bs 1 octx (dep - 1) _ (Or.inl rfl) hv
      split_ifs at h with hs1 hs2
      · rw [Option.some_inj] at h; subst h; exact hr1
      · rw [Option.some_inj] at h; subst h; exact hr1
      cases k1 with
      | str ks =>
        dsimp only at h
        rcases hv2 : Json.parseVal fuel r1 r1 1 COLON (dep - 1) with _ | ⟨st2, v2, r2⟩ <;>
          rw [hv2] at h
        · cases h
        dsimp only at h
        have hr2 : r2.length ≤ r1.length := ihV r1 r1 1 COLON (dep - 1) _ (Or.inl rfl) hv2
        split_ifs at h with ht1 ht2
        · rw [Option.some_inj] at h; subst h; exact le_trans hr2 hr1
        · rw [Option.some_inj] at h; subst h; exact le_trans hr2 hr1
        · exact le_trans (ihO r2 dep (Json.emplace acc ks v2) (KEY ||| COMMA ||| OBJECT) r h)
            (le_trans hr2 hr1)
      | null => rw [Option.some_inj] at h; subst h; exact hr1
      | bool b => rw [Option.some_inj] at h; subst h; exact hr1
      | long n => rw [Option.some_inj] at h; subst h; exact hr1
      | float q => rw [Option.some_inj] at h; subst h; exact hr1
      | double q => rw [Option.some_inj] at h; subst h; exact hr1
      | arr xs => rw [Option.some_inj] at h; subst h; exact hr1
      | obj kvs => rw [Option.some_inj] at h; subst h; exact hr1

theorem allWS_parseVal : ∀ (bs : Bytes), bs.all isWsB = true →
    ∀ (fuel : Nat), bs.length + 1 ≤ fuel → ∀ (a : Bytes) (d : Int),
    Json.parseVal fuel bs a d 0 DEPTH = some (.absent_value, .null, []) := by
  intro bs
  induction bs with
  | nil =>
    intro _ fuel hf a d
    obtain ⟨f, rfl⟩ : ∃ f, fuel = f + 1 := ⟨fuel - 1, by omega⟩
    rw [parseVal_succ, if_neg (by decide : ¬DEPTH = 0)]
    simp
  | cons c t ihw =>
    intro hws fuel hf a d
    obtain ⟨f, rfl⟩ : ∃ f, fuel = f + 1 := ⟨fuel - 1, by omega⟩
    rw [parseVal_succ, if_neg (by decide : ¬DEPTH = 0)]
    dsimp only
    simp only [List.all_cons, Bool.and_eq_true] at hws
    rw [if_pos hws.1]
    exact ihw hws.2 f (by simp at hf; omega) t d

theorem notDigit_of_ws {x : Nat} (h : isWsB x = true) : isDigitB x = false := by
  simp [isWsB] at h
  simp [isDigitB]
  omega

theorem parseVal_absent_ws : ∀ (fuel : Nat) (bs a : Bytes) (d : Int) (v : Json) (rest : Bytes),
    Json.parseVal fuel bs a d 0 DEPTH = some (.absent_value, v, rest) → bs.all isWsB = true := by
  intro fuel
  induction fuel with
  | zero => intro bs a d v rest h; rw [parseVal_zero] at h; cases h
  | succ fuel ih =>
    intro bs a d v rest h
    rw [parseVal_succ, if_neg (by decide : ¬DEPTH = 0)] at h
    rcases bs with _ | ⟨cb, t⟩
    · simp
    dsimp only at h
    by_cases h1 : (isWsB cb : Bool)
    · rw [if_pos h1] at h
      simp only [List.all_cons, Bool.and_eq_true]
      exact ⟨h1, ih t t d v rest h⟩
    rw [if_neg h1] at h
    by_cases h2 : cb = 44
    · rw [if_pos h2, if_neg (by decide : ¬((0 : Nat) &&& COMMA ≠ 0))] at h
      simp at h
    rw [if_neg h2] at h
    by_cases h3 : cb = 58
    · rw [if_pos h3, if_neg (by decide : ¬((0 : Nat) &&& COLON ≠ 0))] at h
      simp at h
    rw [if_neg h3] at h
    by_cases h4 : cb = 110
    · rw [if_pos h4, if_neg (by decide : ¬((0 : Nat) &&& (KEY ||| COLON ||| COMMA) ≠ 0))] at h
      rw [Option.some_inj] at h
      have := (parseNullTok_spec t).1
      rw [h] at this
      simp at this
    rw [if_neg h4] at h
    by_cases h5 : cb = 102
    · rw [if_pos h5, if_neg (by decide : ¬((0 : Nat) &&& (KEY ||| COLON ||| COMMA) ≠ 0))] at h
      rw [Option.some_inj] at h
      have := (parseFalseTok_spec t).1
      rw [h] at this
      simp at this
    rw [if_neg h5] at h
    by_cases h6 : cb = 116
    · rw [if_pos h6, if_neg (by decide : ¬((0 : Nat) &&& (KEY ||| COLON ||| COMMA) ≠ 0))] at h
      rw [Option.some_inj] at h
      have := (parseTrueTok_spec t).1
      rw [h] at this
      simp at this
    rw [if_neg h6] at h
    by_cases h7 : cb = 45
    · rw [if_pos h7, if_neg (by decide : ¬((0 : Nat) &&& (COLON ||| COMMA ||| KEY) ≠ 0))] at h
      split_ifs at h with hd7
      · have hta := ih t a (-1) v rest h
        rcases t with _ | ⟨c2, t2⟩
        · exact absurd hd7 (by decide)
        · simp only [List.all_cons, Bool.and_eq_true] at hta
          have := notDigit_of_ws hta.1
          simp [List.getD] at hd7
          rw [this] at hd7
          cases hd7
      · simp at h
    rw [if_neg h7] at h
    by_cases h8 : cb = 48
    · rw [if_pos h8, if_neg (by decide : ¬((0 : Nat) &&& (COLON ||| COMMA ||| KEY) ≠ 0))] at h
      rw [Option.some_inj] at h
      have := (parseZeroTok_spec a t).1
      rw [h] at this
      simp at this
    rw [if_neg h8] at h
    by_cases h9 : (isDigitB cb : Bool)
    · rw [if_pos h9, if_neg (by decide : ¬((0 : Nat) &&& (COLON ||| COMMA ||| KEY) ≠ 0))] at h
      rw [Option.some_inj] at h
      have := (parseIntTok_spec cb d a t).1
      rw [h] at this
      simp at this
    rw [if_neg h9] at h
    by_cases h10 : cb = 91
    · rw [if_pos h10, if_neg (by decide : ¬((0 : Nat) &&& (COLON ||| COMMA ||| KEY) ≠ 0))] at h
      have := parseArr_ne_absent fuel t DEPTH [] ARRAY _ h
      simp at this
    rw [if_neg h10] at h
    by_cases h11 : cb = 93
    · rw [if_pos h11, if_neg (by decide : ¬((0 : Nat) &&& ARRAY ≠ 0))] at h
      simp at h
    rw [if_neg h11] at h
    by_cases h12 : cb = 125
    · rw [if_pos h12, if_neg (by decide : ¬((0 : Nat) &&& OBJECT ≠ 0))] at h
      simp at h
    rw [if_neg h12] at h
    by_cases h13 : cb = 123
    · rw [if_pos h13, if_neg (by decide : ¬((0 : Nat) &&& (COLON ||| COMMA ||| KEY) ≠ 0))] at h
      have := parseObj_ne_absent fuel t DEPTH [] (KEY ||| OBJECT) _ h
      simp at this
    rw [if_neg h13] at h
    by_cases h14 : cb = 34
    · rw [if_pos h14, if_neg (by decide : ¬((0 : Nat) &&& (COLON ||| COMMA) ≠ 0))] at h
      rw [Option.some_inj] at h
      have := (parseStrTok_spec t).1
      rw [h] at this
      simp at this
    rw [if_neg h14] at h
    simp at h

theorem takeDigits_cons_digit {c : Nat} (t : Bytes) (h : isDigitB c = true) :
    takeDigits (c :: t) = ((c :: (takeDigits t).1), (takeDigits t).2) := by
  rw [takeDigits]
  rw [if_pos h]

theorem s2d_neg_consumed (bs : Bytes) (h : isDigitB (bs.getD 0 256) = true) :
    (StringToDouble (45 :: bs)).2 = 0 ∨ 2 ≤ (StringToDouble (45 :: bs)).2 := by
  rcases bs with _ | ⟨c, t⟩
  · exact absurd h (by decide)
  simp only [List.getD_cons_zero] at h
  unfold StringToDouble
  dsimp only
  rw [takeDigits_cons_digit t h]
  rcases hfr : s2dFrac (takeDigits t).2 with ⟨fs, rest2⟩
  rcases hex : s2dExp rest2 with ⟨ex, elen, rest3⟩
  dsimp only
  rw [hfr, hex]
  dsimp only
  right
  simp only [List.length_cons]
  omega

theorem promoteDouble_success_le (a rest : Bytes)
    (h : (promoteDouble a rest).1 = .success) :
    (promoteDouble a rest).2.2.length ≤ a.length - (StringToDouble a).2 ∧
      1 ≤ (StringToDouble a).2 := by
  unfold promoteDouble at h ⊢
  dsimp only at h ⊢
  by_cases hc : (StringToDouble a).2 = 0
  · rw [if_pos hc] at h; simp at h
  rw [if_neg hc] at h ⊢
  rcases hd : a.drop (StringToDouble a).2 with _ | ⟨c2, t2⟩ <;>
    (try rw [hd] at h) <;> (try rw [hd])
  · dsimp only
    exact ⟨by simp, by omega⟩
  · dsimp only at h ⊢
    split_ifs at h ⊢ with he
    have hlen : (a.drop (StringToDouble a).2).length = (c2 :: t2).length := by rw [hd]
    rw [List.length_drop] at hlen
    dsimp only
    exact ⟨by omega, by omega⟩

theorem parseZeroTok_success_lt (a t : Bytes) (cb : Nat)
    (hA : a = cb :: t ∨ (a = 45 :: cb :: t ∧ isDigitB cb = true))
    (h : (Json.parseZeroTok a t).1 = .success) :
    (Json.parseZeroTok a t).2.2.length < (cb :: t).length := by
  have halen : a.length ≤ t.length + 2 := by
    rcases hA with rfl | ⟨rfl, _⟩ <;> simp
  have hcons : (StringToDouble a).2 = 0 ∨ 2 ≤ (StringToDouble a).2 ∨ a.length ≤ t.length + 1 := by
    rcases hA with rfl | ⟨rfl, hdig⟩
    · right; right; simp
    · rcases s2d_neg_consumed (cb :: t) (by simpa using hdig) with h0 | h2
      · exact Or.inl h0
      · exact Or.inr (Or.inl h2)
  unfold Json.parseZeroTok at h ⊢
  rcases t with _ | ⟨p1, t1⟩
  · simp
  dsimp only at h ⊢
  split_ifs at h ⊢ with h1 h2 h3
  · rcases t1 with _ | ⟨p2, t2⟩
    · simp at h
    · dsimp only at h ⊢
      split_ifs at h ⊢ with h4
      have hs := promoteDouble_success_le a (p1 :: p2 :: t2) h
      simp only [List.length_cons] at halen hs hcons ⊢
      rcases hcons with h0 | h2c | hle
      · omega
      · omega
      · omega
  · have hs := promoteDouble_success_le a (p1 :: t1) h
    simp only [List.length_cons] at halen hs hcons ⊢
    rcases hcons with h0 | h2c | hle
    · omega
    · omega
    · omega
  · dsimp only
    simp only [List.length_cons]
    omega

theorem parseIntTok_success_lt (cb : Nat) (d : Int) (a t : Bytes)
    (hA : a = cb :: t ∨ (a = 45 :: cb :: t ∧ isDigitB cb = true))
    (h : (Json.parseIntTok cb d a t).1 = .success) :
    (Json.parseIntTok cb d a t).2.2.length < (cb :: t).length := by
  have halen : a.length ≤ t.length + 2 := by
    rcases hA with rfl | ⟨rfl, _⟩ <;> simp
  have hcons : (StringToDouble a).2 = 0 ∨ 2 ≤ (StringToDouble a).2 ∨ a.length ≤ t.length + 1 := by
    rcases hA with rfl | ⟨rfl, hdig⟩
    · right; right; simp
    · rcases s2d_neg_consumed (cb :: t) (by simpa using hdig) with h0 | h2
      · exact Or.inl h0
      · exact Or.inr (Or.inl h2)
  unfold Json.parseIntTok at h ⊢
  rcases hn : numLoop d t (((cb : Int) - 48) * d) with ⟨x, r⟩ | r | r
  · rw [hn] at h
    have hr := numLoop_rest_le d t (((cb : Int) - 48) * d)
    rw [hn] at hr
    simp only [NumOut.rest] at hr
    dsimp only
    simp only [List.length_cons]
    omega
  · rw [hn] at h
    dsimp only at h ⊢
    have hs := promoteDouble_success_le a r h
    simp only [List.length_cons] at halen hs hcons ⊢
    rcases hcons with h0 | h2c | hle
    · omega
    · omega
    · omega
  · rw [hn] at h
    simp at h

theorem trip_eq {x : JsonStatus × Json × Bytes} {st : JsonStatus} {v : Json} {r : Bytes}
    (h : x = (st, v, r)) : x.1 = st ∧ x.2.1 = v ∧ x.2.2 = r := by
  subst h; exact ⟨rfl, rfl, rfl⟩

theorem parseVal_success_lt (fuel : Nat) (bs a : Bytes) (d : Int) (c dep : Nat)
    (v : Json) (rest : Bytes) (hA : AInv a bs)
    (h : Json.parseVal fuel bs a d c dep = some (.success, v, rest)) :
    rest.length < bs.length := by
  rcases fuel with _ | fuel
  · rw [parseVal_zero] at h; cases h
  rw [parseVal_succ] at h
  by_cases hD : dep = 0
  · rw [if_pos hD] at h; simp at h
  rw [if_neg hD] at h
  rcases bs with _ | ⟨cb, t⟩
  · dsimp only at h
    rw [Option.some_inj] at h
    have := (trip_eq h).1
    split_ifs at this <;> simp at this
  dsimp only at h
  have hle := parse_restLe fuel
  by_cases h1 : (isWsB cb : Bool)
  · rw [if_pos h1] at h
    exact lt_of_le_of_lt (hle.1 t t d c dep _ (Or.inl rfl) h) (by simp)
  rw [if_neg h1] at h
  by_cases h2 : cb = 44
  · rw [if_pos h2] at h
    split_ifs at h with hc2
    · exact lt_of_le_of_lt (hle.1 t t d 0 dep _ (Or.inl rfl) h) (by simp)
    · rw [Option.some_inj] at h; have := (trip_eq h).1; simp at this
  rw [if_neg h2] at h
  by_cases h3 : cb = 58
  · rw [if_pos h3] at h
    split_ifs at h with hc3
    · exact lt_of_le_of_lt (hle.1 t t d 0 dep _ (Or.inl rfl) h) (by simp)
    · rw [Option.some_inj] at h; have := (trip_eq h).1; simp at this
  rw [if_neg h3] at h
  by_cases h4 : cb = 110
  · rw [if_pos h4] at h
    split_ifs at h with hc4
    · rw [Option.some_inj] at h; have := (trip_eq h).1
      unfold ReturnColonCommaKeyErrorStatus ReturnColonCommaErrorStatus at this
      split_ifs at this <;> simp at this
    · rw [Option.some_inj] at h
      have := (trip_eq h).2.2
      have h5 := (parseNullTok_spec t).2
      rw [this] at h5
      simp only [List.length_cons]; omega
  rw [if_neg h4] at h
  by_cases h5 : cb = 102
  · rw [if_pos h5] at h
    split_ifs at h with hc5
    · rw [Option.some_inj] at h; have := (trip_eq h).1
      unfold ReturnColonCommaKeyErrorStatus ReturnColonCommaErrorStatus at this
      split_ifs at this <;> simp at this
    · rw [Option.some_inj] at h
      have := (trip_eq h).2.2
      have h6 := (parseFalseTok_spec t).2
      rw [this] at h6
      simp only [List.length_cons]; omega
  rw [if_neg h5] at h
  by_cases h6 : cb = 116
  · rw [if_pos h6] at h
    split_ifs at h with hc6
    · rw [Option.some_inj] at h; have := (trip_eq h).1
      unfold ReturnColonCommaKeyErrorStatus ReturnColonCommaErrorStatus at this
      split_ifs at this <;> simp at this
    · rw [Option.some_inj] at h
      have := (trip_eq h).2.2
      have h7 := (parseTrueTok_spec t).2
      rw [this] at h7
      simp only [List.length_cons]; omega
  rw [if_neg h6] at h
  by_cases h7 : cb = 45
  · rw [if_pos h7] at h
    split_ifs at h with hc7 hd7
    · rw [Option.some_inj] at h; have := (trip_eq h).1
      unfold ReturnColonCommaKeyErrorStatus ReturnColonCommaErrorStatus at this
      split_ifs at this <;> simp at this
    · have hA2 : AInv a t := by
        subst h7
        rcases hA with rfl | ⟨rfl, hdig⟩
        · exact Or.inr ⟨rfl, by simpa using hd7⟩
        · simp [isDigitB] at hdig
      exact lt_of_le_of_lt (hle.1 t a (-1) c dep _ hA2 h) (by simp)
    · rw [Option.some_inj] at h; have := (trip_eq h).1; simp at this
  rw [if_neg h7] at h
  by_cases h8 : cb = 48
  · rw [if_pos h8] at h
    split_ifs at h with hc8
    · rw [Option.some_inj] at h; have := (trip_eq h).1
      unfold ReturnColonCommaKeyErrorStatus ReturnColonCommaErrorStatus at this
      split_ifs at this <;> simp at this
    · rw [Option.some_inj] at h
      have hAz : a = cb :: t ∨ (a = 45 :: cb :: t ∧ isDigitB cb = true) := by
        rcases hA with rfl | ⟨rfl, hdig⟩
        · exact Or.inl rfl
        · exact Or.inr ⟨rfl, by simpa using hdig⟩
      have hlt := parseZeroTok_success_lt a t cb hAz (trip_eq h).1
      rw [(trip_eq h).2.2] at hlt
      exact hlt
  rw [if_neg h8] at h
  by_cases h9 : (isDigitB cb : Bool)
  · rw [if_pos h9] at h
    split_ifs at h with hc9
    · rw [Option.some_inj] at h; have := (trip_eq h).1
      unfold ReturnColonCommaKeyErrorStatus ReturnColonCommaErrorStatus at this
      split_ifs at this <;> simp at this
    · rw [Option.some_inj] at h
      have hAz : a = cb :: t ∨ (a = 45 :: cb :: t ∧ isDigitB cb = true) := by
        rcases hA with rfl | ⟨rfl, hdig⟩
        · exact Or.inl rfl
        · exact Or.inr ⟨rfl, by simpa using hdig⟩
      have hlt := parseIntTok_success_lt cb d a t hAz (trip_eq h).1
      rw [(trip_eq h).2.2] at hlt
      exact hlt
  rw [if_neg h9] at h
  by_cases h10 : cb = 91
  · rw [if_pos h10] at h
    split_ifs at h with hc10
    · rw [Option.some_inj] at h; have := (trip_eq h).1
      unfold ReturnColonCommaKeyErrorStatus ReturnColonCommaErrorStatus at this
      split_ifs at this <;> simp at this
    · exact lt_of_le_of_lt (hle.2.1 t dep [] ARRAY _ h) (by simp)
  rw [if_neg h10] at h
  by_cases h11 : cb = 93
  · rw [if_pos h11] at h
    split_ifs at h with hc11 <;>
      (rw [Option.some_inj] at h; have := (trip_eq h).1; simp at this)
  rw [if_neg h11] at h
  by_cases h12 : cb = 125
  · rw [if_pos h12] at h
    split_ifs at h with hc12 <;>
      (rw [Option.some_inj] at h; have := (trip_eq h).1; simp at this)
  rw [if_neg h12] at h
  by_cases h13 : cb = 123
  · rw [if_pos h13] at h
    split_ifs at h with hc13
    · rw [Option.some_inj] at h; have := (trip_eq h).1
      unfold ReturnColonCommaKeyErrorStatus ReturnColonCommaErrorStatus at this
      split_ifs at this <;> simp at this
    · exact lt_of_le_of_lt (hle.2.2 t dep [] (KEY ||| OBJECT) _ h) (by simp)
  rw [if_neg h13] at h
  by_cases h14 : cb = 34
  · rw [if_pos h14] at h
    split_ifs at h with hc14
    · rw [Option.some_inj] at h; have := (trip_eq h).1
      unfold ReturnColonCommaErrorStatus at this
      split_ifs at this <;> simp at this
    · rw [Option.some_inj] at h
      have := (trip_eq h).2.2
      have h15 := (parseStrTok_spec t).2
      rw [this] at h15
      simp only [List.length_cons]; omega
  rw [if_neg h14] at h
  rw [Option.some_inj] at h; have := (trip_eq h).1; simp at this

theorem parse_total : ∀ fuel : Nat,
    (∀ (bs a : Bytes) (d : Int) (c dep : Nat), AInv a bs →
      2 * bs.length + 2 * dep + 2 ≤ fuel → (Json.parseVal fuel bs a d c dep).isSome = true) ∧
    (∀ (bs : Bytes) (dep : Nat) (acc : List Json) (actx : Nat), 1 ≤ dep →
      2 * bs.length + 2 * dep + 2 ≤ fuel → (Json.parseArr fuel bs dep acc actx).isSome = true) ∧
    (∀ (bs : Bytes) (dep : Nat) (acc : List (Bytes × Json)) (octx : Nat), 1 ≤ dep →
      2 * bs.length + 2 * dep + 2 ≤ fuel →
      (Json.parseObj fuel bs dep acc octx).isSome = true) := by
  intro fuel
  induction fuel with
  | zero =>
    refine ⟨?_, ?_, ?_⟩ <;> (intros; omega)
  | succ fuel ih =>
    obtain ⟨ihV, ihA, ihO⟩ := ih
    refine ⟨?_, ?_, ?_⟩
    · -- parseVal
      intro bs a d c dep hA hf
      rw [parseVal_succ]
      by_cases hD : dep = 0
      · rw [if_pos hD]; rfl
      rw [if_neg hD]
      rcases bs with _ | ⟨cb, t⟩
      · rfl
      dsimp only
      simp only [List.length_cons] at hf
      by_cases h1 : (isWsB cb : Bool)
      · rw [if_pos h1]
        exact ihV t t d c dep (Or.inl rfl) (by omega)
      rw [if_neg h1]
      by_cases h2 : cb = 44
      · rw [if_pos h2]
        split_ifs with hc2
        · exact ihV t t d 0 dep (Or.inl rfl) (by omega)
        · rfl
      rw [if_neg h2]
      by_cases h3 : cb = 58
      · rw [if_pos h3]
        split_ifs with hc3
        · exact ihV t t d 0 dep (Or.inl rfl) (by omega)
        · rfl
      rw [if_neg h3]
      by_cases h4 : cb = 110
      · rw [if_pos h4]; split_ifs <;> rfl
      rw [if_neg h4]
      by_cases h5 : cb = 102
      · rw [if_pos h5]; split_ifs <;> rfl
      rw [if_neg h5]
      by_cases h6 : cb = 116
      · rw [if_pos h6]; split_ifs <;> rfl
      rw [if_neg h6]
      by_cases h7 : cb = 45
      · rw [if_pos h7]
        split_ifs with hc7 hd7
        · rfl
        · have hA2 : AInv a t := by
            subst h7
            rcases hA with rfl | ⟨rfl, hdig⟩
            · exact Or.inr ⟨rfl, by simpa using hd7⟩
            · simp [isDigitB] at hdig
          exact ihV t a (-1) c dep hA2 (by omega)
        · rfl
      rw [if_neg h7]
      by_cases h8 : cb = 48
      · rw [if_pos h8]; split_ifs <;> rfl
      rw [if_neg h8]
      by_cases h9 : (isDigitB cb : Bool)
      · rw [if_pos h9]; split_ifs <;> rfl
      rw [if_neg h9]
      by_cases h10 : cb = 91
      · rw [if_pos h10]
        split_ifs with hc10
        · rfl
        · exact ihA t dep [] ARRAY (by omega) (by omega)
      rw [if_neg h10]
      by_cases h11 : cb = 93
      · rw [if_pos h11]; split_ifs <;> rfl
      rw [if_neg h11]
      by_cases h12 : cb = 125
      · rw [if_pos h12]; split_ifs <;> rfl
      rw [if_neg h12]
      by_cases h13 : cb = 123
      · rw [if_pos h13]
        split_ifs with hc13
        · rfl
        · exact ihO t dep [] (KEY ||| OBJECT) (by omega) (by omega)
      rw [if_neg h13]
      by_cases h14 : cb = 34
      · rw [if_pos h14]; split_ifs <;> rfl
      rw [if_neg h14]
      rfl
    · -- parseArr
      intro bs dep acc actx hdep hf
      rw [parseArr_succ]
      have h1 := ihV bs bs 1 actx (dep - 1) (Or.inl rfl) (by omega)
      obtain ⟨⟨st1, v1, r1⟩, hv⟩ := Option.isSome_iff_exists.mp h1
      rw [hv]
      dsimp only
      split_ifs with hs1 hs2
      · rfl
      · subst hs2
        have hlt := parseVal_success_lt fuel bs bs 1 actx (dep - 1) v1 r1 (Or.inl rfl) hv
        exact ihA r1 dep (acc ++ [v1]) (ARRAY ||| COMMA) hdep (by omega)
      · rfl
    · -- parseObj
      intro bs dep acc octx hdep hf
      rw [parseObj_succ]
      have h1 := ihV bs bs 1 octx (dep - 1) (Or.inl rfl) (by omega)
      obtain ⟨⟨st1, k1, r1⟩, hv⟩ := Option.isSome_iff_exists.mp h1
      rw [hv]
      dsimp only
      split_ifs with hs1 hs2
      · rfl
      · rfl
      cases k1 with
      | str ks =>
        dsimp only
        push_neg at hs2
        subst hs2
        have hlt1 := parseVal_success_lt fuel bs bs 1 octx (dep - 1) (.str ks) r1 (Or.inl rfl) hv
        have h2 := ihV r1 r1 1 COLON (dep - 1) (Or.inl rfl) (by omega)
        obtain ⟨⟨st2, v2, r2⟩, hv2⟩ := Option.isSome_iff_exists.mp h2
        rw [hv2]
        dsimp only
        split_ifs with ht1 ht2
        · rfl
        · rfl
        · push_neg at ht2
          subst ht2
          have hlt2 := parseVal_success_lt fuel r1 r1 1 COLON (dep - 1) v2 r2 (Or.inl rfl) hv2
          exact ihO r2 dep (Json.emplace acc ks v2) (KEY ||| COMMA ||| OBJECT) hdep (by omega)
      | null => rfl
      | bool b => rfl
      | long n => rfl
      | float q => rfl
      | double q => rfl
      | arr xs => rfl
      | obj kvs => rfl

theorem goodFuel_ge (bs : Bytes) : bs.length + 1 ≤ goodFuel bs := by
  simp [goodFuel, DEPTH]; omega

theorem goodFuel_total (bs rest : Bytes) (h : rest.length ≤ bs.length) :
    2 * rest.length + 2 * DEPTH + 2 ≤ goodFuel bs := by
  simp [goodFuel]; omega

/-- C3, counterexample: the public parse of the empty input returns the
absent_value sentinel itself, not success: the wrapper remaps only the
second parse's result, never the first one's. -/
theorem C3_empty_input_absent : Json.parse [] = (.absent_value, .null) := rfl

/-- C3 (amended): the public parse returns absent_value exactly when the
input is all whitespace (in particular when it is empty); a clean end of
the first parse is not remapped to success. -/
theorem C3_parse_absent_iff (bs : Bytes) :
    (Json.parse bs).1 = .absent_value ↔ bs.all isWsB = true := by
  constructor
  · intro h
    unfold Json.parse at h
    rcases hv : Json.parseVal (goodFuel bs) bs bs 1 0 DEPTH with _ | ⟨st, v, rest⟩ <;>
      rw [hv] at h
    · simp at h
    dsimp only at h
    by_cases hs : st = .success
    · rw [if_pos hs] at h
      rcases hv2 : Json.parseVal (goodFuel bs) rest rest 1 0 DEPTH with _ | ⟨st2, v2, r2⟩ <;>
        rw [hv2] at h
      · simp at h
      dsimp only at h
      split_ifs at h <;> simp at h
    · rw [if_neg hs] at h
      dsimp only at h
      rw [h] at hv
      exact parseVal_absent_ws (goodFuel bs) bs bs 1 v rest hv
  · intro hws
    unfold Json.parse
    rw [allWS_parseVal bs hws (goodFuel bs) (goodFuel_ge bs) bs 1]
    dsimp only
    rw [if_neg (by decide : ¬(JsonStatus.absent_value = .success))]

/-- C2: the public parse returns success exactly when one document parses
from the front and only whitespace follows it; when a document parses but
non-whitespace follows, the wrapper reports trailing_content and keeps the
parsed value. -/
theorem C2_success_iff_consumed (bs : Bytes) :
    ((Json.parse bs).1 = .success ↔
      ∃ v rest, Json.parseVal (goodFuel bs) bs bs 1 0 DEPTH = some (.success, v, rest) ∧
        rest.all isWsB = true) ∧
    (∀ v rest, Json.parseVal (goodFuel bs) bs bs 1 0 DEPTH = some (.success, v, rest) →
      rest.all isWsB = false → Json.parse bs = (.trailing_content, v)) := by
  have hT := parse_total (goodFuel bs)
  unfold Json.parse
  rcases hv : Json.parseVal (goodFuel bs) bs bs 1 0 DEPTH with _ | ⟨st, v, rest⟩
  · exfalso
    have hs := hT.1 bs bs 1 0 DEPTH (Or.inl rfl) (goodFuel_total bs bs le_rfl)
    rw [hv] at hs
    cases hs
  have hrest : rest.length ≤ bs.length :=
    (parse_restLe (goodFuel bs)).1 bs bs 1 0 DEPTH _ (Or.inl rfl) hv
  have hfuel : rest.length + 1 ≤ goodFuel bs := le_trans (by omega) (goodFuel_ge bs)
  by_cases hs : st = .success
  · subst hs
    dsimp only
    rcases hv2 : Json.parseVal (goodFuel bs) rest rest 1 0 DEPTH with _ | ⟨st2, v2, r2⟩
    · exfalso
      have hs2 := hT.1 rest rest 1 0 DEPTH (Or.inl rfl) (goodFuel_total bs rest hrest)
      rw [hv2] at hs2
      cases hs2
    dsimp only
    by_cases h2 : st2 = .absent_value
    · rw [if_pos h2]
      have hws : rest.all isWsB = true := by
        rw [h2] at hv2
        exact parseVal_absent_ws (goodFuel bs) rest rest 1 v2 r2 hv2
      constructor
      · constructor
        · intro _; exact ⟨v, rest, rfl, hws⟩
        · intro _; rfl
      · intro vx restx hsx hwx
        simp only [Option.some_inj, Prod.mk.injEq, true_and] at hsx
        obtain ⟨rfl, rfl⟩ := hsx
        rw [hws] at hwx
        cases hwx
    · rw [if_neg h2]
      have hnw : ¬(rest.all isWsB = true) := by
        intro hws
        rw [allWS_parseVal rest hws (goodFuel bs) hfuel rest 1] at hv2
        simp only [Option.some_inj, Prod.mk.injEq] at hv2
        exact h2 hv2.1.symm
      constructor
      · constructor
        · intro h; simp at h
        · rintro ⟨vx, restx, hsx, hwx⟩
          simp only [Option.some_inj, Prod.mk.injEq, true_and] at hsx
          obtain ⟨rfl, rfl⟩ := hsx
          exact absurd hwx hnw
      · intro vx restx hsx hwx
        simp only [Option.some_inj, Prod.mk.injEq, true_and] at hsx
        obtain ⟨rfl, rfl⟩ := hsx
        rfl
  · dsimp only
    rw [if_neg hs]
    constructor
    · constructor
      · intro h
        exact absurd h hs
      · rintro ⟨vx, restx, hsx, _⟩
        simp only [Option.some_inj, Prod.mk.injEq] at hsx
        exact absurd hsx.1 hs
    · intro vx restx hsx _
      simp only [Option.some_inj, Prod.mk.injEq] at hsx
      exact absurd hsx.1 hs

/-- C9, counterexample: getFloat on a Double value and getDouble on a Float
value both return the payload instead of treating the kind mismatch as a
programming error (none, the model of the abort). -/
theorem C9_cross_kind_getters : Json.getFloat (.double 1) = some 1 ∧
    Json.getDouble (.float 1) = some 1 := ⟨rfl, rfl⟩

/-- C9 (amended): each observer returns its payload exactly on its own kind,
except that getFloat and getDouble each accept both the Float and the
Double kinds; any other kind aborts (none). -/
theorem C9_getters_dispatch (j : Json) :
    (∀ b, Json.getBool j = some b ↔ j = .bool b) ∧
    (∀ n, Json.getLong j = some n ↔ j = .long n) ∧
    (∀ q, Json.getFloat j = some q ↔ (j = .float q ∨ j = .double q)) ∧
    (∀ q, Json.getDouble j = some q ↔ (j = .float q ∨ j = .double q)) ∧
    (∀ s, Json.getString j = some s ↔ j = .str s) ∧
    (∀ xs, Json.getArray j = some xs ↔ j = .arr xs) ∧
    (∀ kvs, Json.getObject j = some kvs ↔ j = .obj kvs) := by
  cases j <;>
    exact ⟨fun b => by simp [Json.getBool], fun n => by simp [Json.getLong],
      fun q => by simp [Json.getFloat], fun q => by simp [Json.getDouble],
      fun s => by simp [Json.getString], fun xs => by simp [Json.getArray],
      fun kvs => by simp [Json.getObject]⟩

/-- C10: the move constructor hands the payload to the destination and
leaves the source Null, and move assignment onto a distinct object does the
same for any pair of allocator contexts. -/
theorem C10_moves_null_source (other dst : Json) (ctxDst ctxSrc : Nat) :
    Json.moveCtor other = (other, .null) ∧
    Json.moveAssign ctxDst ctxSrc dst other = (other, .null) := by
  cases other <;> constructor <;>
    first
    | rfl
    | (unfold Json.moveAssign; split_ifs <;> rfl)

/-- C8: the CESU-8 exception of the spec never fires as described.  On a
well-formed CESU-8 surrogate pair (first continuation byte 0xa0-0xad) the
branch test fails, because the code compares the sign-extended lead byte
against 0256, and the scan reports utf16_surrogate_in_utf8.  When the test
does fire (first continuation at least 0xae) the cursor is not advanced
past the sequence, so the lead continuation byte is re-dispatched as a lead
byte and the scan reports illegal_utf8_character.  No input reaches the
claimed recombination. -/
theorem C8_cesu_branch_dead :
    Json.parseStrTok [237, 160, 180, 237, 180, 158, 34] =
      (.utf16_surrogate_in_utf8, .null, [160, 180, 237, 180, 158, 34]) ∧
    cesuFires [160, 180, 237, 180, 158, 34] = false ∧
    Json.parseStrTok [237, 174, 128, 237, 176, 128, 34] =
      (.illegal_utf8_character, .null, [128, 237, 176, 128, 34]) ∧
    cesuFires [174, 128, 237, 176, 128, 34] = true := by
  exact ⟨rfl, rfl, rfl, rfl⟩

theorem lexLt_irrefl : ∀ k : Bytes, lexLt k k = false := by
  intro k
  induction k with
  | nil => rfl
  | cons c t ih => simp [lexLt, ih]

theorem lexLt_trans : ∀ a b c : Bytes, lexLt a b = true → lexLt b c = true →
    lexLt a c = true := by
  intro a
  induction a with
  | nil =>
    intro b c hab hbc
    rcases b with _ | ⟨x, b⟩
    · cases hab
    rcases c with _ | ⟨y, c⟩
    · cases hbc
    rfl
  | cons xa ta ih =>
    intro b c hab hbc
    rcases b with _ | ⟨xb, tb⟩
    · cases hab
    rcases c with _ | ⟨xc, tc⟩
    · cases hbc
    simp only [lexLt] at hab hbc ⊢
    split_ifs at hab hbc ⊢ with h1 h2 h3 h4 h5 h6 <;> try rfl
    all_goals (try cases hab)
    all_goals (try cases hbc)
    all_goals (try omega)
    exact ih tb tc hab hbc

theorem lexLt_eq_of_not : ∀ a b : Bytes, lexLt a b = false → lexLt b a = false → a = b := by
  intro a
  induction a with
  | nil =>
    intro b hab _
    rcases b with _ | ⟨x, b⟩
    · rfl
    · cases hab
  | cons xa ta ih =>
    intro b hab hba
    rcases b with _ | ⟨xb, tb⟩
    · cases hba
    simp only [lexLt] at hab hba
    split_ifs at hab hba with h1 h2 h3 h4 <;> try cases hab
    all_goals try cases hba
    have : xa = xb := by omega
    subst this
    rw [ih tb hab hba]

/-- Strict lower bound of a byte-string key below every key of an
association list. -/
def keyLB (b : Bytes) (l : List (Bytes × Json)) : Bool := l.all (fun p => lexLt b p.1)

/-- Keys strictly sorted in lexicographic order, as the std::map payload
always is. -/
def keysSorted : List (Bytes × Json) → Bool
  | [] => true
  | (k1, _) :: t => keyLB k1 t && keysSorted t

theorem emplace_keep : ∀ (acc : List (Bytes × Json)) (k : Bytes) (v : Json),
    keysSorted acc = true → (∃ w, (k, w) ∈ acc) → Json.emplace acc k v = acc := by
  intro acc
  induction acc with
  | nil => rintro k v _ ⟨w, hw⟩; cases hw
  | cons p t ih =>
    rintro k v hs ⟨w, hw⟩
    rcases p with ⟨k2, v2⟩
    simp only [keysSorted, Bool.and_eq_true] at hs
    unfold Json.emplace
    rcases List.mem_cons.mp hw with heq | hmem
    · have hk : k = k2 := (Prod.mk.injEq _ _ _ _ ▸ heq).1
      subst hk
      rw [if_neg (by rw [lexLt_irrefl]; exact fun h => nomatch h),
        if_neg (by rw [lexLt_irrefl]; exact fun h => nomatch h)]
    · have hk2k : lexLt k2 k = true := by
        have := (List.all_eq_true.mp hs.1) (k, w) hmem
        simpa using this
      rw [if_neg (by
          intro hkk2
          have := lexLt_trans k2 k k2 hk2k hkk2
          rw [lexLt_irrefl] at this
          cases this),
        if_pos hk2k, ih k v hs.2 ⟨w, hmem⟩]

theorem emplace_sorted : ∀ (acc : List (Bytes × Json)) (k : Bytes) (v : Json),
    keysSorted acc = true → keysSorted (Json.emplace acc k v) = true := by
  have hlb : ∀ (acc : List (Bytes × Json)) (b k : Bytes) (v : Json),
      keyLB b acc = true → lexLt b k = true → keyLB b (Json.emplace acc k v) = true := by
    intro acc
    induction acc with
    | nil =>
      intro b k v _ hbk
      simp [Json.emplace, keyLB, hbk]
    | cons p t ih =>
      intro b k v hlb hbk
      rcases p with ⟨k2, v2⟩
      simp only [keyLB, List.all_cons, Bool.and_eq_true] at hlb
      unfold Json.emplace
      split_ifs with h1 h2
      · simp only [keyLB, List.all_cons, Bool.and_eq_true]
        exact ⟨by simpa using hbk, by simpa using hlb.1, by simpa [keyLB] using hlb.2⟩
      · simp only [keyLB, List.all_cons, Bool.and_eq_true]
        exact ⟨by simpa using hlb.1, by simpa [keyLB] using ih b k v (by simpa [keyLB] using hlb.2) hbk⟩
      · simp only [keyLB, List.all_cons, Bool.and_eq_true]
        exact ⟨by simpa using hlb.1, by simpa [keyLB] using hlb.2⟩
  intro acc
  induction acc with
  | nil => intro k v _; simp [Json.emplace, keysSorted, keyLB]
  | cons p t ih =>
    intro k v hs
    rcases p with ⟨k2, v2⟩
    simp only [keysSorted, Bool.and_eq_true] at hs
    unfold Json.emplace
    split_ifs with h1 h2
    · simp only [keysSorted, Bool.and_eq_true]
      refine ⟨?_, hs.1, hs.2⟩
      simp only [keyLB, List.all_cons, Bool.and_eq_true]
      constructor
      · simpa using h1
      · have := hs.1
        simp only [keyLB, List.all_eq_true] at this ⊢
        intro p hp
        exact lexLt_trans k k2 p.1 (by simpa using h1) (by simpa using this p hp)
    · simp only [keysSorted, Bool.and_eq_true]
      exact ⟨hlb t k2 k v hs.1 h2, ih k v hs.2⟩
    · simp only [keysSorted, Bool.and_eq_true]
      exact ⟨hs.1, hs.2⟩

/-- C6, counterexample: parsing an object that repeats the key a keeps the
value of the first occurrence, 1, not the last: emplace into the std::map
leaves an existing key untouched. -/
theorem C6_first_occurrence_kept :
    Json.parse [123, 34, 97, 34, 58, 49, 44, 34, 97, 34, 58, 50, 125] =
      (.success, .obj [([97], .long 1)]) ∧ Json.long 1 ≠ Json.long 2 := by
  exact ⟨rfl, by simp⟩

/-- C6 (amended): object members are inserted with emplace, which is
first-writer-wins (a key already present keeps its value) and maintains the
strict lexicographic key order in which the object iterates; parsing the
object with the key a bound first to 1 then to 2 keeps a bound to 1. -/
theorem C6_emplace_first_wins (acc : List (Bytes × Json)) (k : Bytes) (v : Json) :
    Json.parse [123, 34, 97, 34, 58, 49, 44, 34, 97, 34, 58, 50, 125] =
      (.success, .obj [([97], .long 1)]) ∧
    (keysSorted acc = true → (∃ w, (k, w) ∈ acc) → Json.emplace acc k v = acc) ∧
    (keysSorted acc = true → keysSorted (Json.emplace acc k v) = true) := by
  exact ⟨rfl, emplace_keep acc k v, emplace_sorted acc k v⟩

theorem isSurrogate_of_high {w : Nat} (h : IsHighSurrogate w = true) : IsSurrogate w = true := by
  simp only [IsHighSurrogate, decide_eq_true_eq] at h
  simp only [IsSurrogate, decide_eq_true_eq]
  have h2 := congrArg (fun x => x &&& 0xf800) h
  simp only [Nat.and_assoc] at h2
  rw [show (0xfc00 &&& 0xf800 : Nat) = 0xf800 from by decide,
    show (0xd800 &&& 0xf800 : Nat) = 0xd800 from by decide] at h2
  rw [Nat.and_comm]
  exact h2

theorem isSurrogate_of_low {w : Nat} (h : IsLowSurrogate w = true) : IsSurrogate w = true := by
  simp only [IsLowSurrogate, decide_eq_true_eq] at h
  simp only [IsSurrogate, decide_eq_true_eq]
  have h2 := congrArg (fun x => x &&& 0xf800) h
  simp only [Nat.and_assoc] at h2
  rw [show (0xfc00 &&& 0xf800 : Nat) = 0xf800 from by decide,
    show (0xdc00 &&& 0xf800 : Nat) = 0xd800 from by decide] at h2
  rw [Nat.and_comm]
  exact h2

theorem not_high_of_low {w : Nat} (h : IsLowSurrogate w = true) : IsHighSurrogate w = false := by
  simp only [IsLowSurrogate, decide_eq_true_eq] at h
  simp [IsHighSurrogate, h]

/-- C7: the backslash-u escape of the scan: (a) four valid hex digits
denoting a non-surrogate code point append its UTF-8 encoding and continue;
(b) a high surrogate escape directly followed by a valid low surrogate
escape appends the UTF-8 encoding of the merged supplementary code point;
(c) an isolated low surrogate escape and (d) a high surrogate escape with a
malformed follow-up append the literal bytes backslash u followed by the
four hex digits (the digits re-scanned as plain ASCII) and continue; and
concretely the escape pair backslash-uD834 backslash-uDD1E scans to the
UTF-8 bytes f0 9d 84 9e. -/
theorem C7_unicode_escape_cases (h1 h2 h3 h4 : Nat) (bs acc : Bytes) :
    (hexOk4 h1 h2 h3 h4 = true → IsSurrogate (hexQuad h1 h2 h3 h4) = false →
      Json.parseStr (92 :: 117 :: h1 :: h2 :: h3 :: h4 :: bs) acc =
        Json.parseStr bs (acc ++ EncodeUTF8 (hexQuad h1 h2 h3 h4))) ∧
    (hexOk4 h1 h2 h3 h4 = true → IsHighSurrogate (hexQuad h1 h2 h3 h4) = true →
      ∀ g1 g2 g3 g4 bs2, hexOk4 g1 g2 g3 g4 = true →
        IsLowSurrogate (hexQuad g1 g2 g3 g4) = true →
        bs = 92 :: 117 :: g1 :: g2 :: g3 :: g4 :: bs2 →
        Json.parseStr (92 :: 117 :: h1 :: h2 :: h3 :: h4 :: bs) acc =
          Json.parseStr bs2
            (acc ++ EncodeUTF8 (MergeUtf16 (hexQuad h1 h2 h3 h4) (hexQuad g1 g2 g3 g4)))) ∧
    (hexOk4 h1 h2 h3 h4 = true → IsLowSurrogate (hexQuad h1 h2 h3 h4) = true →
      Json.parseStr (92 :: 117 :: h1 :: h2 :: h3 :: h4 :: bs) acc =
        Json.parseStr bs (acc ++ [92, 117, h1, h2, h3, h4])) ∧
    (hexOk4 h1 h2 h3 h4 = true → IsHighSurrogate (hexQuad h1 h2 h3 h4) = true →
      lowSurrogateEscAt bs = false →
      Json.parseStr (92 :: 117 :: h1 :: h2 :: h3 :: h4 :: bs) acc =
        Json.parseStr bs (acc ++ [92, 117, h1, h2, h3, h4])) ∧
    Json.parseStrTok [92, 117, 68, 56, 51, 52, 92, 117, 68, 68, 49, 69, 34] =
      (.success, .str [240, 157, 132, 158], []) := by
  have hstep : ∀ t a2, Json.parseStr (92 :: 117 :: t) a2 = Json.parseStrEscU t a2 :=
    fun t a2 => rfl
  refine ⟨?_, ?_, ?_, ?_, rfl⟩
  · intro hok hns
    rw [hstep, parseStrEscU_cons4, if_pos hok,
      if_pos (by simp [hns] : (!IsSurrogate (hexQuad h1 h2 h3 h4)) = true)]
  · intro hok hhi g1 g2 g3 g4 bs2 hokg hlow hbs
    subst hbs
    rw [hstep, parseStrEscU_cons4, if_pos hok,
      if_neg (by simp [isSurrogate_of_high hhi] :
        ¬((!IsSurrogate (hexQuad h1 h2 h3 h4)) = true)),
      if_pos hhi,
      if_pos (by
        simp only [lowSurrogateEscAt, List.getD_cons_zero, List.getD_cons_succ]
        simp [hokg, hlow] : lowSurrogateEscAt (92 :: 117 :: g1 :: g2 :: g3 :: g4 :: bs2) = true),
      parseStrEscPair_cons6]
  · intro hok hlow
    rw [hstep, parseStrEscU_cons4, if_pos hok,
      if_neg (by simp [isSurrogate_of_low hlow] :
        ¬((!IsSurrogate (hexQuad h1 h2 h3 h4)) = true)),
      if_neg (by simp [not_high_of_low hlow] :
        ¬(IsHighSurrogate (hexQuad h1 h2 h3 h4) = true))]
  · intro hok hhi hnoesc
    rw [hstep, parseStrEscU_cons4, if_pos hok,
      if_neg (by simp [isSurrogate_of_high hhi] :
        ¬((!IsSurrogate (hexQuad h1 h2 h3 h4)) = true)),
      if_pos hhi, if_neg (by simp [hnoesc] : ¬(lowSurrogateEscAt bs = true))]

/-- Generalized digit fold with a starting accumulator; digitsToNat is the
instance at 0. -/
def natFold (acc : Nat) (ds : Bytes) : Nat := ds.foldl (fun x c => x * 10 + (c - 48)) acc

theorem natFold_nil (acc : Nat) : natFold acc [] = acc := rfl

theorem natFold_cons (acc c : Nat) (ds : Bytes) :
    natFold acc (c :: ds) = natFold (acc * 10 + (c - 48)) ds := rfl

theorem natFold_append (acc : Nat) (l1 l2 : Bytes) :
    natFold acc (l1 ++ l2) = natFold (natFold acc l1) l2 := by
  unfold natFold
  rw [List.foldl_append]

theorem digitsToNat_eq_natFold (ds : Bytes) : digitsToNat ds = natFold 0 ds := rfl

theorem natFold_le_self : ∀ (ds : Bytes) (m : Nat), m ≤ natFold m ds := by
  intro ds
  induction ds with
  | nil => intro m; rw [natFold_nil]
  | cons c t ih =>
    intro m
    rw [natFold_cons]
    exact le_trans (by omega) (ih (m * 10 + (c - 48)))

/-- A byte that terminates the integer loop without promotion. -/
def numStop : Bytes → Prop
  | [] => True
  | c :: _ => isDigitB c = false ∧ c ≠ 46 ∧ c ≠ 101 ∧ c ≠ 69

theorem numLoop_pos_fixed : ∀ (ds rest : Bytes) (m : Nat), (∀ c ∈ ds, isDigitB c = true) →
    numStop rest → natFold m ds ≤ 2 ^ 63 - 1 →
    numLoop 1 (ds ++ rest) (m : Int) = .fixed (natFold m ds) rest := by
  intro ds
  induction ds with
  | nil =>
    intro rest m _ hstop hle
    rw [List.nil_append, natFold_nil]
    rcases rest with _ | ⟨c, t⟩
    · rfl
    obtain ⟨hnd, h46, h101, h69⟩ := hstop
    unfold numLoop
    rw [if_neg (by simp [hnd]), if_neg (by simpa using h46),
      if_neg (by simp [h101, h69])]
  | cons c t ih =>
    intro rest m hdig hstop hle
    rw [natFold_cons] at hle
    have hc : isDigitB c = true := hdig c (List.mem_cons_self c t)
    have hc48 : 48 ≤ c ∧ c ≤ 57 := by simpa [isDigitB, Bool.and_eq_true] using hc
    have hmono := natFold_le_self t (m * 10 + (c - 48))
    rw [List.cons_append]
    unfold numLoop
    rw [if_pos hc]
    have hin1 : inI64 ((m : Int) * 10) = true := by
      simp only [inI64, i64min, i64max, Bool.and_eq_true, decide_eq_true_eq]
      omega
    have hin2 : inI64 ((m : Int) * 10 + ((c : Int) - 48)) = true := by
      simp only [inI64, i64min, i64max, Bool.and_eq_true, decide_eq_true_eq]
      omega
    rw [if_neg (by simp [hin1]), if_neg (by simp [hin2])]
    have hcast : (m : Int) * 10 + ((c : Int) - 48) * 1 = ((m * 10 + (c - 48) : Nat) : Int) := by
      push_cast
      omega
    rw [hcast, ih rest (m * 10 + (c - 48)) (fun x hx => hdig x (List.mem_cons_of_mem c hx))
      hstop hle, natFold_cons]

theorem numLoop_neg_fixed : ∀ (ds rest : Bytes) (m : Nat), (∀ c ∈ ds, isDigitB c = true) →
    numStop rest → natFold m ds ≤ 2 ^ 63 →
    numLoop (-1) (ds ++ rest) (-(m : Int)) = .fixed (-(natFold m ds)) rest := by
  intro ds
  induction ds with
  | nil =>
    intro rest m _ hstop hle
    rw [List.nil_append, natFold_nil]
    rcases rest with _ | ⟨c, t⟩
    · rfl
    obtain ⟨hnd, h46, h101, h69⟩ := hstop
    unfold numLoop
    rw [if_neg (by simp [hnd]), if_neg (by simpa using h46),
      if_neg (by simp [h101, h69])]
  | cons c t ih =>
    intro rest m hdig hstop hle
    rw [natFold_cons] at hle
    have hc : isDigitB c = true := hdig c (List.mem_cons_self c t)
    have hc48 : 48 ≤ c ∧ c ≤ 57 := by simpa [isDigitB, Bool.and_eq_true] using hc
    have hmono := natFold_le_self t (m * 10 + (c - 48))
    rw [List.cons_append]
    unfold numLoop
    rw [if_pos hc]
    have hin1 : inI64 (-(m : Int) * 10) = true := by
      simp only [inI64, i64min, i64max, Bool.and_eq_true, decide_eq_true_eq]
      omega
    have hin2 : inI64 (-(m : Int) * 10 + ((c : Int) - 48) * (-1)) = true := by
      simp only [inI64, i64min, i64max, Bool.and_eq_true, decide_eq_true_eq]
      omega
    rw [if_neg (by rw [Bool.not_eq_true', hin1]; simp),
      if_neg (by rw [Bool.not_eq_true', hin2]; simp)]
    have hcast : -(m : Int) * 10 + ((c : Int) - 48) * (-1) =
        -((m * 10 + (c - 48) : Nat) : Int) := by
      push_cast
      omega
    rw [show (-(m : Int) * 10 + (↑c - 48) * (-1)) = -((m * 10 + (c - 48) : Nat) : Int) from hcast,
      ih rest (m * 10 + (c - 48)) (fun x hx => hdig x (List.mem_cons_of_mem c hx)) hstop hle,
      natFold_cons]

theorem numLoop_pos_overflow : ∀ (ds rest : Bytes) (m : Nat), (∀ c ∈ ds, isDigitB c = true) →
    m ≤ 2 ^ 63 - 1 → 2 ^ 63 - 1 < natFold m ds →
    ∃ r, numLoop 1 (ds ++ rest) (m : Int) = .promote r := by
  intro ds
  induction ds with
  | nil =>
    intro rest m _ hm hover
    rw [natFold_nil] at hover
    omega
  | cons c t ih =>
    intro rest m hdig hm hover
    rw [natFold_cons] at hover
    have hc : isDigitB c = true := hdig c (List.mem_cons_self c t)
    have hc48 : 48 ≤ c ∧ c ≤ 57 := by simpa [isDigitB, Bool.and_eq_true] using hc
    rw [List.cons_append]
    unfold numLoop
    rw [if_pos hc]
    by_cases hin1 : inI64 ((m : Int) * 10) = true
    · rw [if_neg (by rw [Bool.not_eq_true', hin1]; simp)]
      by_cases hin2 : inI64 ((m : Int) * 10 + ((c : Int) - 48) * 1) = true
      · rw [if_neg (by rw [Bool.not_eq_true', hin2]; simp)]
        have hm2 : m * 10 + (c - 48) ≤ 2 ^ 63 - 1 := by
          simp only [inI64, i64min, i64max, Bool.and_eq_true, decide_eq_true_eq] at hin2
          omega
        have hcast : (m : Int) * 10 + ((c : Int) - 48) * 1 =
            ((m * 10 + (c - 48) : Nat) : Int) := by
          push_cast
          omega
        rw [hcast]
        exact ih rest (m * 10 + (c - 48)) (fun x hx => hdig x (List.mem_cons_of_mem c hx))
          hm2 hover
      · have hf : inI64 ((m : Int) * 10 + ((c : Int) - 48) * 1) = false := by
          cases hx : inI64 ((m : Int) * 10 + ((c : Int) - 48) * 1)
          · rfl
          · exact absurd hx hin2
        rw [if_pos (by rw [hf]; rfl)]
        exact ⟨_, rfl⟩
    · have hf : inI64 ((m : Int) * 10) = false := by
        cases hx : inI64 ((m : Int) * 10)
        · rfl
        · exact absurd hx hin1
      rw [if_pos (by rw [hf]; rfl)]
      exact ⟨_, rfl⟩

theorem numLoop_neg_overflow : ∀ (ds rest : Bytes) (m : Nat), (∀ c ∈ ds, isDigitB c = true) →
    m ≤ 2 ^ 63 → 2 ^ 63 < natFold m ds →
    ∃ r, numLoop (-1) (ds ++ rest) (-(m : Int)) = .promote r := by
  intro ds
  induction ds with
  | nil =>
    intro rest m _ hm hover
    rw [natFold_nil] at hover
    omega
  | cons c t ih =>
    intro rest m hdig hm hover
    rw [natFold_cons] at hover
    have hc : isDigitB c = true := hdig c (List.mem_cons_self c t)
    have hc48 : 48 ≤ c ∧ c ≤ 57 := by simpa [isDigitB, Bool.and_eq_true] using hc
    rw [List.cons_append]
    unfold numLoop
    rw [if_pos hc]
    by_cases hin1 : inI64 (-(m : Int) * 10) = true
    · rw [if_neg (by rw [Bool.not_eq_true', hin1]; simp)]
      by_cases hin2 : inI64 (-(m : Int) * 10 + ((c : Int) - 48) * (-1)) = true
      · rw [if_neg (by rw [Bool.not_eq_true', hin2]; simp)]
        have hm2 : m * 10 + (c - 48) ≤ 2 ^ 63 := by
          simp only [inI64, i64min, i64max, Bool.and_eq_true, decide_eq_true_eq] at hin2
          omega
        have hcast : -(m : Int) * 10 + ((c : Int) - 48) * (-1) =
            -((m * 10 + (c - 48) : Nat) : Int) := by
          push_cast
          omega
        rw [show (-(m : Int) * 10 + (↑c - 48) * (-1)) = -((m * 10 + (c - 48) : Nat) : Int)
          from hcast]
        exact ih rest (m * 10 + (c - 48)) (fun x hx => hdig x (List.mem_cons_of_mem c hx))
          hm2 hover
      · have hf : inI64 (-(m : Int) * 10 + ((c : Int) - 48) * (-1)) = false := by
          cases hx : inI64 (-(m : Int) * 10 + ((c : Int) - 48) * (-1))
          · rfl
          · exact absurd hx hin2
        rw [if_pos (by rw [hf]; rfl)]
        exact ⟨_, rfl⟩
    · have hf : inI64 (-(m : Int) * 10) = false := by
        cases hx : inI64 (-(m : Int) * 10)
        · rfl
        · exact absurd hx hin1
      rw [if_pos (by rw [hf]; rfl)]
      exact ⟨_, rfl⟩

theorem takeDigits_all : ∀ (ds : Bytes), (∀ c ∈ ds, isDigitB c = true) →
    takeDigits ds = (ds, []) := by
  intro ds
  induction ds with
  | nil => intro _; rfl
  | cons c t ih =>
    intro hd
    unfold takeDigits
    rw [if_pos (hd c (List.mem_cons_self c t)), ih (fun x hx => hd x (List.mem_cons_of_mem c hx))]

theorem s2d_pos_digits (c : Nat) (t : Bytes) (hd : ∀ x ∈ c :: t, isDigitB x = true) :
    StringToDouble (c :: t) = ((digitsToNat (c :: t) : ℚ), (c :: t).length) := by
  have hc : isDigitB c = true := hd c (List.mem_cons_self c t)
  have hcr : 48 ≤ c ∧ c ≤ 57 := by simpa [isDigitB] using hc
  have htd := takeDigits_all (c :: t) hd
  obtain ⟨h48, h57⟩ := hcr
  unfold StringToDouble
  interval_cases c <;>
    (dsimp only
     rw [htd]
     simp [s2dFrac, s2dExp, qpow10, digitsToNat])

theorem s2d_neg_digits (c : Nat) (t : Bytes) (hd : ∀ x ∈ c :: t, isDigitB x = true) :
    StringToDouble (45 :: c :: t) = (-(digitsToNat (c :: t) : ℚ), (c :: t).length + 1) := by
  have htd := takeDigits_all (c :: t) hd
  unfold StringToDouble
  dsimp only
  rw [htd]
  simp [s2dFrac, s2dExp, qpow10, digitsToNat]
  omega

theorem parse_of_first (bs : Bytes) (v : Json)
    (h : Json.parseVal (goodFuel bs) bs bs 1 0 DEPTH = some (.success, v, [])) :
    Json.parse bs = (.success, v) := by
  unfold Json.parse
  rw [h]
  dsimp only
  rw [if_pos rfl]
  rw [allWS_parseVal [] rfl (goodFuel bs)
    (by have := goodFuel_ge bs; simp only [List.length_nil]; omega) [] 1]
  dsimp only
  rw [if_pos rfl]

theorem parseVal_digit_dispatch (fuel : Nat) (c : Nat) (t a : Bytes) (d : Int)
    (hc : isDigitB c = true) (h48 : c ≠ 48) :
    Json.parseVal (fuel + 1) (c :: t) a d 0 DEPTH = some (Json.parseIntTok c d a t) := by
  have hcr : 48 ≤ c ∧ c ≤ 57 := by simpa [isDigitB] using hc
  rw [parseVal_succ, if_neg (by decide : ¬DEPTH = 0)]
  dsimp only
  rw [if_neg (show ¬(isWsB c = true) by simp [isWsB]; omega),
    if_neg (show ¬c = 44 by omega), if_neg (show ¬c = 58 by omega),
    if_neg (show ¬c = 110 by omega), if_neg (show ¬c = 102 by omega),
    if_neg (show ¬c = 116 by omega), if_neg (show ¬c = 45 by omega),
    if_neg h48, if_pos hc,
    if_neg (by decide : ¬((0 : Nat) &&& (COLON ||| COMMA ||| KEY) ≠ 0))]

theorem parseVal_minus_dispatch (fuel : Nat) (c : Nat) (t a : Bytes) (d : Int)
    (hc : isDigitB c = true) :
    Json.parseVal (fuel + 1) (45 :: c :: t) a d 0 DEPTH =
      Json.parseVal fuel (c :: t) a (-1) 0 DEPTH := by
  rw [parseVal_succ, if_neg (by decide : ¬DEPTH = 0)]
  dsimp only
  rw [if_neg (by decide : ¬(isWsB 45 = true)), if_neg (by decide : ¬(45 : Nat) = 44),
    if_neg (by decide : ¬(45 : Nat) = 58), if_neg (by decide : ¬(45 : Nat) = 110),
    if_neg (by decide : ¬(45 : Nat) = 102), if_neg (by decide : ¬(45 : Nat) = 116),
    if_pos rfl, if_neg (by decide : ¬((0 : Nat) &&& (COLON ||| COMMA ||| KEY) ≠ 0)),
    if_pos (show isDigitB ((c :: t).getD 0 256) = true by simpa using hc)]

theorem natFold_first (c : Nat) (t : Bytes) : digitsToNat (c :: t) = natFold (c - 48) t := by
  rw [digitsToNat_eq_natFold, natFold_cons]
  norm_num

theorem parseIntTok_pos_fits (c : Nat) (t : Bytes) (a : Bytes)
    (hd : ∀ x ∈ c :: t, isDigitB x = true)
    (hle : digitsToNat (c :: t) ≤ 2 ^ 63 - 1) :
    Json.parseIntTok c 1 a t = (.success, .long (digitsToNat (c :: t)), []) := by
  have hcr : 48 ≤ c ∧ c ≤ 57 := by
    simpa [isDigitB] using hd c (List.mem_cons_self c t)
  rw [natFold_first] at hle ⊢
  have hnl := numLoop_pos_fixed t [] (c - 48)
    (fun x hx => hd x (List.mem_cons_of_mem c hx)) trivial hle
  rw [List.append_nil] at hnl
  unfold Json.parseIntTok
  rw [show ((c : Int) - 48) * 1 = ((c - 48 : Nat) : Int) from by push_cast; omega, hnl]

theorem parseIntTok_pos_over (c : Nat) (t : Bytes)
    (hd : ∀ x ∈ c :: t, isDigitB x = true)
    (hover : 2 ^ 63 - 1 < digitsToNat (c :: t)) :
    Json.parseIntTok c 1 (c :: t) t = (.success, .double (digitsToNat (c :: t)), []) := by
  have hcr : 48 ≤ c ∧ c ≤ 57 := by
    simpa [isDigitB] using hd c (List.mem_cons_self c t)
  rw [natFold_first] at hover
  obtain ⟨r, hr⟩ := numLoop_pos_overflow t [] (c - 48)
    (fun x hx => hd x (List.mem_cons_of_mem c hx)) (by omega) hover
  rw [List.append_nil] at hr
  unfold Json.parseIntTok
  rw [show ((c : Int) - 48) * 1 = ((c - 48 : Nat) : Int) from by push_cast; omega, hr]
  dsimp only
  unfold promoteDouble
  rw [s2d_pos_digits c t hd]
  dsimp only
  rw [if_neg (by simp), List.drop_length]

theorem parseIntTok_neg_fits (c : Nat) (t : Bytes) (a : Bytes)
    (hd : ∀ x ∈ c :: t, isDigitB x = true)
    (hle : digitsToNat (c :: t) ≤ 2 ^ 63) :
    Json.parseIntTok c (-1) a t = (.success, .long (-(digitsToNat (c :: t) : Int)), []) := by
  have hcr : 48 ≤ c ∧ c ≤ 57 := by
    simpa [isDigitB] using hd c (List.mem_cons_self c t)
  rw [natFold_first] at hle ⊢
  have hnl := numLoop_neg_fixed t [] (c - 48)
    (fun x hx => hd x (List.mem_cons_of_mem c hx)) trivial hle
  rw [List.append_nil] at hnl
  unfold Json.parseIntTok
  rw [show ((c : Int) - 48) * (-1) = -((c - 48 : Nat) : Int) from by push_cast; omega, hnl]

theorem parseIntTok_neg_over (c : Nat) (t : Bytes)
    (hd : ∀ x ∈ c :: t, isDigitB x = true)
    (hover : 2 ^ 63 < digitsToNat (c :: t)) :
    Json.parseIntTok c (-1) (45 :: c :: t) t =
      (.success, .double (-(digitsToNat (c :: t) : ℚ)), []) := by
  have hcr : 48 ≤ c ∧ c ≤ 57 := by
    simpa [isDigitB] using hd c (List.mem_cons_self c t)
  rw [natFold_first] at hover
  obtain ⟨r, hr⟩ := numLoop_neg_overflow t [] (c - 48)
    (fun x hx => hd x (List.mem_cons_of_mem c hx)) (by omega) hover
  rw [List.append_nil] at hr
  unfold Json.parseIntTok
  rw [show ((c : Int) - 48) * (-1) = -((c - 48 : Nat) : Int) from by push_cast; omega, hr]
  dsimp only
  unfold promoteDouble
  rw [s2d_neg_digits c t hd]
  dsimp only
  rw [if_neg (by simp)]
  rw [show (c :: t).length + 1 = (45 :: c :: t).length from by simp, List.drop_length]

/-- C5: a pure integer literal is folded digit by digit into the signed
64-bit accumulator with the sign d, each step checked against the i64
range; when the magnitude fits (at most 2^63 - 1 unsigned, 2^63 with a
minus sign) the result is kind Long with exactly the folded integer, and on
the first overflow the token is reparsed by the floating-point converter,
giving kind Double with the value of the whole literal. -/
theorem C5_integer_literals (c : Nat) (t : Bytes)
    (hd : ∀ x ∈ c :: t, isDigitB x = true) (h48 : c ≠ 48) :
    (digitsToNat (c :: t) ≤ 2 ^ 63 - 1 →
      Json.parse (c :: t) = (.success, .long (digitsToNat (c :: t)))) ∧
    (2 ^ 63 - 1 < digitsToNat (c :: t) →
      Json.parse (c :: t) = (.success, .double (digitsToNat (c :: t)))) ∧
    (digitsToNat (c :: t) ≤ 2 ^ 63 →
      Json.parse (45 :: c :: t) = (.success, .long (-(digitsToNat (c :: t) : Int)))) ∧
    (2 ^ 63 < digitsToNat (c :: t) →
      Json.parse (45 :: c :: t) = (.success, .double (-(digitsToNat (c :: t) : ℚ)))) := by
  have hc : isDigitB c = true := hd c (List.mem_cons_self c t)
  obtain ⟨f, hf⟩ : ∃ f, goodFuel (c :: t) = f + 1 :=
    ⟨2 * (c :: t).length + 2 * DEPTH + 3, by simp [goodFuel]⟩
  obtain ⟨g, hg⟩ : ∃ g, goodFuel (45 :: c :: t) = g + 2 :=
    ⟨2 * (45 :: c :: t).length + 2 * DEPTH + 2, by simp only [goodFuel]⟩
  refine ⟨?_, ?_, ?_, ?_⟩
  · intro hle
    apply parse_of_first
    rw [hf, parseVal_digit_dispatch f c t (c :: t) 1 hc h48,
      parseIntTok_pos_fits c t (c :: t) hd hle]
  · intro hover
    apply parse_of_first
    rw [hf, parseVal_digit_dispatch f c t (c :: t) 1 hc h48,
      parseIntTok_pos_over c t hd hover]
  · intro hle
    apply parse_of_first
    rw [hg, show g + 2 = (g + 1) + 1 from rfl,
      parseVal_minus_dispatch (g + 1) c t (45 :: c :: t) 1 hc,
      parseVal_digit_dispatch g c t (45 :: c :: t) (-1) hc h48,
      parseIntTok_neg_fits c t (45 :: c :: t) hd hle]
  · intro hover
    apply parse_of_first
    rw [hg, show g + 2 = (g + 1) + 1 from rfl,
      parseVal_minus_dispatch (g + 1) c t (45 :: c :: t) 1 hc,
      parseVal_digit_dispatch g c t (45 :: c :: t) (-1) hc h48,
      parseIntTok_neg_over c t hd hover]

/-- C5 witness: 9223372036854775807 parses as that Long,
9223372036854775808 overflows to Double, and with a minus sign
-9223372036854775808 still fits as a Long. -/
theorem C5_integer_literals_witness :
    Json.parse [57] = (.success, .long 9) ∧
    Json.parse [49, 48, 48] = (.success, .long 100) ∧
    Json.parse [57, 50, 50, 51, 51, 55, 50, 48, 51, 54, 56, 53, 52, 55, 55, 53, 56, 48, 56] =
      (.success, .double ((9223372036854775808 : Nat) : ℚ)) ∧
    Json.parse [45, 57, 50, 50, 51, 51, 55, 50, 48, 51, 54, 56, 53, 52, 55, 55, 53, 56, 48, 56] =
      (.success, .long (-9223372036854775808)) := by
  refine ⟨?_, ?_, ?_, ?_⟩
  · have h := (C5_integer_literals 57 [] (by decide) (by decide)).1 (by decide)
    simpa using h
  · have h := (C5_integer_literals 49 [48, 48] (by decide) (by decide)).1 (by decide)
    simpa using h
  · have h := (C5_integer_literals 57 [50, 50, 51, 51, 55, 50, 48, 51, 54, 56, 53, 52, 55, 55, 53, 56, 48, 56]
      (by decide) (by decide)).2.1 (by decide)
    simpa [digitsToNat, natFold] using h
  · have h := (C5_integer_literals 57 [50, 50, 51, 51, 55, 50, 48, 51, 54, 56, 53, 52, 55, 55, 53, 56, 48, 56]
      (by decide) (by decide)).2.2.1 (by decide)
    simpa [digitsToNat, natFold] using h

/-- Strings that round-trip byte for byte: nonzero ASCII. -/
def goodStr (s : Bytes) : Bool := s.all (fun c => 1 ≤ c && c ≤ 127)

theorem serialize_cons_lo (c : Nat) (t : Bytes) (h : c < 0xc0) :
    Json.serialize (c :: t) = Json.serializeChar c ++ Json.serialize t := by
  simp only [Json.serialize]
  rw [if_pos h]

theorem escLit_facts : ∀ c : Nat, c < 128 →
    (1 ≤ c → kEscapeLiteral c = 0 → kJsonStr c = 0) ∧
    (kEscapeLiteral c = 1 → c = 9) ∧ (kEscapeLiteral c = 2 → c = 10) ∧
    (kEscapeLiteral c = 3 → c = 13) ∧ (kEscapeLiteral c = 4 → c = 12) ∧
    (kEscapeLiteral c = 5 → c = 92) ∧ (kEscapeLiteral c = 6 → c = 47) ∧
    (kEscapeLiteral c = 7 → c = 34) ∧ kEscapeLiteral c ≠ 8 ∧ kEscapeLiteral c ≤ 9 := by
  decide

theorem uescape_facts : ∀ c : Nat, c < 128 →
    hexOk4 (hexDigitLower ((c &&& 0xf000) >>> 12)) (hexDigitLower ((c &&& 0x0f00) >>> 8))
      (hexDigitLower ((c &&& 0x00f0) >>> 4)) (hexDigitLower (c &&& 0x000f)) = true ∧
    hexQuad (hexDigitLower ((c &&& 0xf000) >>> 12)) (hexDigitLower ((c &&& 0x0f00) >>> 8))
      (hexDigitLower ((c &&& 0x00f0) >>> 4)) (hexDigitLower (c &&& 0x000f)) = c ∧
    IsSurrogate c = false := by
  decide

theorem strStep (c : Nat) (hlo : 1 ≤ c) (hhi : c ≤ 127) (bs acc : Bytes) :
    Json.parseStr (Json.serializeChar c ++ bs) acc = Json.parseStr bs (acc ++ [c]) := by
  have hF := escLit_facts c (by omega)
  unfold Json.serializeChar
  rw [show (if c ≤ 127 then kEscapeLiteral c else 9) = kEscapeLiteral c from if_pos hhi]
  by_cases k0 : kEscapeLiteral c = 0
  · rw [if_pos k0]
    simp only [List.cons_append, List.nil_append]
    rw [parseStr_cons, if_pos (hF.1 hlo k0)]
  rw [if_neg k0]
  by_cases k1 : kEscapeLiteral c = 1
  · rw [if_pos k1, hF.2.1 k1]
    rfl
  rw [if_neg k1]
  by_cases k2 : kEscapeLiteral c = 2
  · rw [if_pos k2, hF.2.2.1 k2]
    rfl
  rw [if_neg k2]
  by_cases k3 : kEscapeLiteral c = 3
  · rw [if_pos k3, hF.2.2.2.1 k3]
    rfl
  rw [if_neg k3]
  by_cases k4 : kEscapeLiteral c = 4
  · rw [if_pos k4, hF.2.2.2.2.1 k4]
    rfl
  rw [if_neg k4]
  by_cases k5 : kEscapeLiteral c = 5
  · rw [if_pos k5, hF.2.2.2.2.2.1 k5]
    rfl
  rw [if_neg k5]
  by_cases k6 : kEscapeLiteral c = 6
  · rw [if_pos k6, hF.2.2.2.2.2.2.1 k6]
    rfl
  rw [if_neg k6]
  by_cases k7 : kEscapeLiteral c = 7
  · rw [if_pos k7, hF.2.2.2.2.2.2.2.1 k7]
    rfl
  rw [if_neg k7]
  have hU := uescape_facts c (by omega)
  rw [show EncodeUtf16 c = c from by unfold EncodeUtf16; rw [if_pos (by omega : c ≤ 0xffff)],
    show uEscape c = uEscapeGroup c from by
      unfold uEscape
      rw [if_neg (by
        simp only [ne_eq, Nat.shiftRight_eq_div_pow]
        omega), List.append_nil],
    show uEscapeGroup c = [92, 117, hexDigitLower ((c &&& 0xf000) >>> 12),
      hexDigitLower ((c &&& 0x0f00) >>> 8), hexDigitLower ((c &&& 0x00f0) >>> 4),
      hexDigitLower (c &&& 0x000f)] from rfl]
  simp only [List.cons_append, List.nil_append]
  rw [show Json.parseStr (92 :: 117 :: hexDigitLower ((c &&& 0xf000) >>> 12) ::
      hexDigitLower ((c &&& 0x0f00) >>> 8) :: hexDigitLower ((c &&& 0x00f0) >>> 4) ::
      hexDigitLower (c &&& 0x000f) :: bs) acc =
    Json.parseStrEscU (hexDigitLower ((c &&& 0xf000) >>> 12) ::
      hexDigitLower ((c &&& 0x0f00) >>> 8) :: hexDigitLower ((c &&& 0x00f0) >>> 4) ::
      hexDigitLower (c &&& 0x000f) :: bs) acc from rfl,
    parseStrEscU_cons4, if_pos hU.1, hU.2.1,
    if_pos (by rw [hU.2.2]; rfl : (!IsSurrogate c) = true),
    show EncodeUTF8 c = [c] from by unfold EncodeUTF8; rw [if_pos (by omega : c ≤ 0x7f)]]

theorem strRT : ∀ (s : Bytes), goodStr s = true → ∀ (bs acc : Bytes),
    Json.parseStr (Json.serialize s ++ 34 :: bs) acc = (.success, acc ++ s, bs) := by
  intro s
  induction s with
  | nil =>
    intro _ bs acc
    rw [show Json.serialize [] ++ 34 :: bs = 34 :: bs from rfl,
      show Json.parseStr (34 :: bs) acc = (.success, acc, bs) from rfl, List.append_nil]
  | cons c t ih =>
    intro hg bs acc
    simp only [goodStr, List.all_cons, Bool.and_eq_true, decide_eq_true_eq] at hg
    rw [serialize_cons_lo c t (by omega), List.append_assoc,
      strStep c hg.1.1 hg.1.2 (Json.serialize t ++ 34 :: bs) acc,
      ih (by simpa [goodStr] using hg.2) bs (acc ++ [c])]
    simp

theorem takeWhile_nonzero : ∀ (s : Bytes), goodStr s = true →
    s.takeWhile (fun c => c ≠ 0) = s := by
  intro s
  induction s with
  | nil => intro _; rfl
  | cons c t ih =>
    intro hg
    simp only [goodStr, List.all_cons, Bool.and_eq_true, decide_eq_true_eq] at hg
    rw [List.takeWhile_cons, if_pos (by simp; omega), ih (by simpa [goodStr] using hg.2)]

theorem stringify_good (s : Bytes) (hg : goodStr s = true) :
    Json.stringify s = 34 :: Json.serialize s ++ [34] := by
  unfold Json.stringify
  rw [takeWhile_nonzero s hg]

theorem stringify_rt (s : Bytes) (hg : goodStr s = true) (rest : Bytes) :
    Json.parseStrTok (Json.serialize s ++ 34 :: rest) = (.success, .str s, rest) := by
  rw [parseStrTok_eq, strRT s hg rest []]
  dsimp only
  rw [if_pos rfl]
  simp

mutual

/-- Container nesting height of a value: scalars 0, a container one more
than its deepest child. -/
def Json.height : Json → Nat
  | .null => 0
  | .bool _ => 0
  | .long _ => 0
  | .float _ => 0
  | .double _ => 0
  | .str _ => 0
  | .arr xs => 1 + Json.heightL xs
  | .obj kvs => 1 + Json.heightO kvs

def Json.heightL : List Json → Nat
  | [] => 0
  | x :: t => max (Json.height x) (Json.heightL t)

def Json.heightO : List (Bytes × Json) → Nat
  | [] => 0
  | (_, v) :: t => max (Json.height v) (Json.heightO t)

end

mutual

/-- Values whose compact serialization parses back exactly: no Float or
Double payload (their serialization goes through the external converter),
longs in the signed 64-bit range, strings (and keys) of nonzero ASCII
bytes, and object keys strictly sorted. -/
def goodRT : Json → Bool
  | .null => true
  | .bool _ => true
  | .long n => inI64 n
  | .float _ => false
  | .double _ => false
  | .str s => goodStr s
  | .arr xs => goodRTL xs
  | .obj kvs => keysSorted kvs && goodRTO kvs

def goodRTL : List Json → Bool
  | [] => true
  | x :: t => goodRT x && goodRTL t

def goodRTO : List (Bytes × Json) → Bool
  | [] => true
  | (k, v) :: t => goodStr k && goodRT v && goodRTO t

end

/-- Bytes that may follow a serialized value: nothing, or a comma or
closing bracket from an enclosing container. -/
def restStop : Bytes → Prop
  | [] => True
  | c :: _ => c = 44 ∨ c = 93 ∨ c = 125

theorem restStop_numStop (rest : Bytes) (h : restStop rest) : numStop rest := by
  rcases rest with _ | ⟨c, t⟩
  · trivial
  rcases h with rfl | rfl | rfl <;> exact ⟨by decide, by decide, by decide, by decide⟩

/-- The round-trip property of one value: from any state permitted by the
serializer's context (token start at the cursor, sign 1, a context without
the key, colon and comma bits, enough depth and fuel), parsing the
serialization of v followed by a stop byte succeeds with exactly v and
stops at the stop byte. -/
def RT (v : Json) : Prop :=
  ∀ (rest : Bytes) (ctx depth fuel : Nat), restStop rest →
    ctx &&& 7 = 0 → Json.height v + 1 ≤ depth →
    2 * (Json.marshal v).length + 2 ≤ fuel →
    Json.parseVal fuel (Json.marshal v ++ rest) (Json.marshal v ++ rest) 1 ctx depth =
      some (.success, v, rest)

/-- The serialization of the elements after the first in an array: a comma
before each. -/
def commaArr : List Json → Bytes
  | [] => []
  | x :: t => 44 :: Json.marshal x ++ commaArr t

/-- The serialization of the members after the first in an object: a comma,
the key string, a colon, the value. -/
def commaObj : List (Bytes × Json) → Bytes
  | [] => []
  | (k, v) :: t => 44 :: Json.stringify k ++ 58 :: Json.marshal v ++ commaObj t

theorem marshalArr_eq : ∀ (t : List Json) (x : Json),
    Json.marshalArr (x :: t) = Json.marshal x ++ commaArr t := by
  intro t
  induction t with
  | nil => intro x; simp [Json.marshalArr, commaArr]
  | cons y t2 ih =>
    intro x
    rw [show Json.marshalArr (x :: y :: t2) = Json.marshal x ++ 44 :: Json.marshalArr (y :: t2)
        from rfl,
      ih y,
      show commaArr (y :: t2) = 44 :: Json.marshal y ++ commaArr t2 from rfl]
    simp

theorem marshalObj_eq : ∀ (t : List (Bytes × Json)) (k : Bytes) (v : Json),
    Json.marshalObj ((k, v) :: t) =
      Json.stringify k ++ 58 :: Json.marshal v ++ commaObj t := by
  intro t
  induction t with
  | nil => intro k v; simp [Json.marshalObj, commaObj]
  | cons p t2 ih =>
    intro k v
    rcases p with ⟨k2, v2⟩
    rw [show Json.marshalObj ((k, v) :: (k2, v2) :: t2) =
        Json.stringify k ++ 58 :: Json.marshal v ++ [44] ++ Json.marshalObj ((k2, v2) :: t2)
        from rfl,
      ih k2 v2,
      show commaObj ((k2, v2) :: t2) = 44 :: Json.stringify k2 ++ 58 :: Json.marshal v2 ++
        commaObj t2 from rfl]
    simp

theorem parseVal_null_dispatch (fuel : Nat) (t a : Bytes) (d : Int) (ctx depth : Nat)
    (hctx : ctx &&& 7 = 0) (hdep : depth ≠ 0) :
    Json.parseVal (fuel + 1) (110 :: t) a d ctx depth = some (Json.parseNullTok t) := by
  rw [parseVal_succ, if_neg hdep]
  dsimp only
  rw [if_neg (by decide : ¬(isWsB 110 = true)), if_neg (by decide : ¬(110 : Nat) = 44),
    if_neg (by decide : ¬(110 : Nat) = 58), if_pos rfl,
    if_neg (fun hcon => hcon hctx)]

theorem parseVal_false_dispatch (fuel : Nat) (t a : Bytes) (d : Int) (ctx depth : Nat)
    (hctx : ctx &&& 7 = 0) (hdep : depth ≠ 0) :
    Json.parseVal (fuel + 1) (102 :: t) a d ctx depth = some (Json.parseFalseTok t) := by
  rw [parseVal_succ, if_neg hdep]
  dsimp only
  rw [if_neg (by decide : ¬(isWsB 102 = true)), if_neg (by decide : ¬(102 : Nat) = 44),
    if_neg (by decide : ¬(102 : Nat) = 58), if_neg (by decide : ¬(102 : Nat) = 110),
    if_pos rfl, if_neg (fun hcon => hcon hctx)]

theorem parseVal_true_dispatch (fuel : Nat) (t a : Bytes) (d : Int) (ctx depth : Nat)
    (hctx : ctx &&& 7 = 0) (hdep : depth ≠ 0) :
    Json.parseVal (fuel + 1) (116 :: t) a d ctx depth = some (Json.parseTrueTok t) := by
  rw [parseVal_succ, if_neg hdep]
  dsimp only
  rw [if_neg (by decide : ¬(isWsB 116 = true)), if_neg (by decide : ¬(116 : Nat) = 44),
    if_neg (by decide : ¬(116 : Nat) = 58), if_neg (by decide : ¬(116 : Nat) = 110),
    if_neg (by decide : ¬(116 : Nat) = 102), if_pos rfl, if_neg (fun hcon => hcon hctx)]

theorem parseVal_digit_ctx (fuel : Nat) (c : Nat) (t a : Bytes) (d : Int) (ctx depth : Nat)
    (hc : isDigitB c = true) (h48 : c ≠ 48) (hctx : ctx &&& 7 = 0) (hdep : depth ≠ 0) :
    Json.parseVal (fuel + 1) (c :: t) a d ctx depth = some (Json.parseIntTok c d a t) := by
  have hcr : 48 ≤ c ∧ c ≤ 57 := by simpa [isDigitB] using hc
  rw [parseVal_succ, if_neg hdep]
  dsimp only
  rw [if_neg (show ¬(isWsB c = true) by simp [isWsB]; omega),
    if_neg (show ¬c = 44 by omega), if_neg (show ¬c = 58 by omega),
    if_neg (show ¬c = 110 by omega), if_neg (show ¬c = 102 by omega),
    if_neg (show ¬c = 116 by omega), if_neg (show ¬c = 45 by omega),
    if_neg h48, if_pos hc, if_neg (fun hcon => hcon hctx)]

theorem parseVal_zero_ctx (fuel : Nat) (t a : Bytes) (d : Int) (ctx depth : Nat)
    (hctx : ctx &&& 7 = 0) (hdep : depth ≠ 0) :
    Json.parseVal (fuel + 1) (48 :: t) a d ctx depth = some (Json.parseZeroTok a t) := by
  rw [parseVal_succ, if_neg hdep]
  dsimp only
  rw [if_neg (by decide : ¬(isWsB 48 = true)), if_neg (by decide : ¬(48 : Nat) = 44),
    if_neg (by decide : ¬(48 : Nat) = 58), if_neg (by decide : ¬(48 : Nat) = 110),
    if_neg (by decide : ¬(48 : Nat) = 102), if_neg (by decide : ¬(48 : Nat) = 116),
    if_neg (by decide : ¬(48 : Nat) = 45), if_pos rfl, if_neg (fun hcon => hcon hctx)]

theorem parseVal_minus_ctx (fuel : Nat) (c : Nat) (t a : Bytes) (d : Int) (ctx depth : Nat)
    (hc : isDigitB c = true) (hctx : ctx &&& 7 = 0) (hdep : depth ≠ 0) :
    Json.parseVal (fuel + 1) (45 :: c :: t) a d ctx depth =
      Json.parseVal fuel (c :: t) a (-1) ctx depth := by
  rw [parseVal_succ, if_neg hdep]
  dsimp only
  rw [if_neg (by decide : ¬(isWsB 45 = true)), if_neg (by decide : ¬(45 : Nat) = 44),
    if_neg (by decide : ¬(45 : Nat) = 58), if_neg (by decide : ¬(45 : Nat) = 110),
    if_neg (by decide : ¬(45 : Nat) = 102), if_neg (by decide : ¬(45 : Nat) = 116),
    if_pos rfl, if_neg (fun hcon => hcon hctx),
    if_pos (show isDigitB ((c :: t).getD 0 256) = true by simpa using hc)]

theorem parseVal_quote_dispatch (fuel : Nat) (t a : Bytes) (d : Int) (ctx depth : Nat)
    (hctx : ctx &&& 6 = 0) (hdep : depth ≠ 0) :
    Json.parseVal (fuel + 1) (34 :: t) a d ctx depth = some (Json.parseStrTok t) := by
  rw [parseVal_succ, if_neg hdep]
  dsimp only
  rw [if_neg (by decide : ¬(isWsB 34 = true)), if_neg (by decide : ¬(34 : Nat) = 44),
    if_neg (by decide : ¬(34 : Nat) = 58), if_neg (by decide : ¬(34 : Nat) = 110),
    if_neg (by decide : ¬(34 : Nat) = 102), if_neg (by decide : ¬(34 : Nat) = 116),
    if_neg (by decide : ¬(34 : Nat) = 45), if_neg (by decide : ¬(34 : Nat) = 48),
    if_neg (by decide : ¬(isDigitB 34 = true)), if_neg (by decide : ¬(34 : Nat) = 91),
    if_neg (by decide : ¬(34 : Nat) = 93), if_neg (by decide : ¬(34 : Nat) = 125),
    if_neg (by decide : ¬(34 : Nat) = 123), if_pos rfl, if_neg (fun hcon => hcon hctx)]

theorem parseVal_lbrack_dispatch (fuel : Nat) (t a : Bytes) (d : Int) (ctx depth : Nat)
    (hctx : ctx &&& 7 = 0) (hdep : depth ≠ 0) :
    Json.parseVal (fuel + 1) (91 :: t) a d ctx depth = Json.parseArr fuel t depth [] ARRAY := by
  rw [parseVal_succ, if_neg hdep]
  dsimp only
  rw [if_neg (by decide : ¬(isWsB 91 = true)), if_neg (by decide : ¬(91 : Nat) = 44),
    if_neg (by decide : ¬(91 : Nat) = 58), if_neg (by decide : ¬(91 : Nat) = 110),
    if_neg (by decide : ¬(91 : Nat) = 102), if_neg (by decide : ¬(91 : Nat) = 116),
    if_neg (by decide : ¬(91 : Nat) = 45), if_neg (by decide : ¬(91 : Nat) = 48),
    if_neg (by decide : ¬(isDigitB 91 = true)), if_pos rfl, if_neg (fun hcon => hcon hctx)]

theorem parseVal_lbrace_dispatch (fuel : Nat) (t a : Bytes) (d : Int) (ctx depth : Nat)
    (hctx : ctx &&& 7 = 0) (hdep : depth ≠ 0) :
    Json.parseVal (fuel + 1) (123 :: t) a d ctx depth =
      Json.parseObj fuel t depth [] (KEY ||| OBJECT) := by
  rw [parseVal_succ, if_neg hdep]
  dsimp only
  rw [if_neg (by decide : ¬(isWsB 123 = true)), if_neg (by decide : ¬(123 : Nat) = 44),
    if_neg (by decide : ¬(123 : Nat) = 58), if_neg (by decide : ¬(123 : Nat) = 110),
    if_neg (by decide : ¬(123 : Nat) = 102), if_neg (by decide : ¬(123 : Nat) = 116),
    if_neg (by decide : ¬(123 : Nat) = 45), if_neg (by decide : ¬(123 : Nat) = 48),
    if_neg (by decide : ¬(isDigitB 123 = true)), if_neg (by decide : ¬(123 : Nat) = 91),
    if_neg (by decide : ¬(123 : Nat) = 93), if_neg (by decide : ¬(123 : Nat) = 125),
    if_pos rfl, if_neg (fun hcon => hcon hctx)]

theorem parseVal_rbrack_dispatch (fuel : Nat) (t a : Bytes) (d : Int) (ctx depth : Nat)
    (hctx : ctx &&& ARRAY ≠ 0) (hdep : depth ≠ 0) :
    Json.parseVal (fuel + 1) (93 :: t) a d ctx depth = some (.absent_value, .null, t) := by
  rw [parseVal_succ, if_neg hdep]
  dsimp only
  rw [if_neg (by decide : ¬(isWsB 93 = true)), if_neg (by decide : ¬(93 : Nat) = 44),
    if_neg (by decide : ¬(93 : Nat) = 58), if_neg (by decide : ¬(93 : Nat) = 110),
    if_neg (by decide : ¬(93 : Nat) = 102), if_neg (by decide : ¬(93 : Nat) = 116),
    if_neg (by decide : ¬(93 : Nat) = 45), if_neg (by decide : ¬(93 : Nat) = 48),
    if_neg (by decide : ¬(isDigitB 93 = true)), if_neg (by decide : ¬(93 : Nat) = 91),
    if_pos rfl, if_pos hctx]

theorem parseVal_rbrace_dispatch (fuel : Nat) (t a : Bytes) (d : Int) (ctx depth : Nat)
    (hctx : ctx &&& OBJECT ≠ 0) (hdep : depth ≠ 0) :
    Json.parseVal (fuel + 1) (125 :: t) a d ctx depth = some (.absent_value, .null, t) := by
  rw [parseVal_succ, if_neg hdep]
  dsimp only
  rw [if_neg (by decide : ¬(isWsB 125 = true)), if_neg (by decide : ¬(125 : Nat) = 44),
    if_neg (by decide : ¬(125 : Nat) = 58), if_neg (by decide : ¬(125 : Nat) = 110),
    if_neg (by decide : ¬(125 : Nat) = 102), if_neg (by decide : ¬(125 : Nat) = 116),
    if_neg (by decide : ¬(125 : Nat) = 45), if_neg (by decide : ¬(125 : Nat) = 48),
    if_neg (by decide : ¬(isDigitB 125 = true)), if_neg (by decide : ¬(125 : Nat) = 91),
    if_neg (by decide : ¬(125 : Nat) = 93), if_pos rfl, if_pos hctx]

theorem parseVal_comma_dispatch (fuel : Nat) (t a : Bytes) (d : Int) (ctx depth : Nat)
    (hctx : ctx &&& COMMA ≠ 0) (hdep : depth ≠ 0) :
    Json.parseVal (fuel + 1) (44 :: t) a d ctx depth = Json.parseVal fuel t t d 0 depth := by
  rw [parseVal_succ, if_neg hdep]
  dsimp only
  rw [if_neg (by decide : ¬(isWsB 44 = true)), if_pos rfl, if_pos hctx]

theorem parseVal_colon_dispatch (fuel : Nat) (t a : Bytes) (d : Int) (ctx depth : Nat)
    (hctx : ctx &&& COLON ≠ 0) (hdep : depth ≠ 0) :
    Json.parseVal (fuel + 1) (58 :: t) a d ctx depth = Json.parseVal fuel t t d 0 depth := by
  rw [parseVal_succ, if_neg hdep]
  dsimp only
  rw [if_neg (by decide : ¬(isWsB 58 = true)), if_neg (by decide : ¬(58 : Nat) = 44),
    if_pos rfl, if_pos hctx]

theorem parseIntTok_fits_rest (c : Nat) (t rest a : Bytes)
    (hd : ∀ x ∈ c :: t, isDigitB x = true) (hstop : numStop rest)
    (hle : digitsToNat (c :: t) ≤ 2 ^ 63 - 1) :
    Json.parseIntTok c 1 a (t ++ rest) = (.success, .long (digitsToNat (c :: t)), rest) := by
  have hcr : 48 ≤ c ∧ c ≤ 57 := by
    simpa [isDigitB] using hd c (List.mem_cons_self c t)
  rw [natFold_first] at hle ⊢
  unfold Json.parseIntTok
  rw [show ((c : Int) - 48) * 1 = ((c - 48 : Nat) : Int) from by push_cast; omega,
    numLoop_pos_fixed t rest (c - 48) (fun x hx => hd x (List.mem_cons_of_mem c hx)) hstop hle]

theorem parseIntTok_neg_fits_rest (c : Nat) (t rest a : Bytes)
    (hd : ∀ x ∈ c :: t, isDigitB x = true) (hstop : numStop rest)
    (hle : digitsToNat (c :: t) ≤ 2 ^ 63) :
    Json.parseIntTok c (-1) a (t ++ rest) =
      (.success, .long (-(digitsToNat (c :: t) : Int)), rest) := by
  have hcr : 48 ≤ c ∧ c ≤ 57 := by
    simpa [isDigitB] using hd c (List.mem_cons_self c t)
  rw [natFold_first] at hle ⊢
  unfold Json.parseIntTok
  rw [show ((c : Int) - 48) * (-1) = -((c - 48 : Nat) : Int) from by push_cast; omega,
    numLoop_neg_fixed t rest (c - 48) (fun x hx => hd x (List.mem_cons_of_mem c hx)) hstop hle]

theorem parseZeroTok_stop (a rest : Bytes) (hstop : restStop rest) :
    Json.parseZeroTok a rest = (.success, .long 0, rest) := by
  rcases rest with _ | ⟨c, t⟩
  · rfl
  rcases hstop with rfl | rfl | rfl <;>
    (unfold Json.parseZeroTok
     dsimp only
     rw [if_neg (by decide), if_neg (by decide), if_neg (by decide)])

theorem decDigitsAux_spec : ∀ (fuel x : Nat), x ≤ fuel →
    (∀ c ∈ decDigitsAux fuel x, isDigitB c = true) ∧
    digitsToNat (decDigitsAux fuel x) = x ∧
    (∃ c t, decDigitsAux fuel x = c :: t ∧ (1 ≤ x → c ≠ 48)) := by
  intro fuel
  induction fuel with
  | zero =>
    intro x hx
    have : x = 0 := by omega
    subst this
    exact ⟨by intro c hc; simp [decDigitsAux] at hc; subst hc; decide,
      by simp [decDigitsAux, digitsToNat, natFold], ⟨48, [], rfl, by omega⟩⟩
  | succ fuel ih =>
    intro x hx
    by_cases hlt : x < 10
    · refine ⟨?_, ?_, ⟨x + 48, [], ?_, ?_⟩⟩
      · intro c hc
        simp [decDigitsAux, if_pos hlt] at hc
        subst hc
        simp [isDigitB]
        omega
      · simp [decDigitsAux, if_pos hlt, digitsToNat, natFold]
      · simp [decDigitsAux, if_pos hlt]
      · omega
    · have hrec : x / 10 ≤ fuel := by omega
      obtain ⟨ihd, ihv, c, t, ihe, ihc⟩ := ih (x / 10) hrec
      have hxd : decDigitsAux (fuel + 1) x = decDigitsAux fuel (x / 10) ++ [x % 10 + 48] := by
        simp [decDigitsAux, if_neg hlt]
      refine ⟨?_, ?_, ⟨c, t ++ [x % 10 + 48], ?_, ?_⟩⟩
      · intro y hy
        rw [hxd] at hy
        rcases List.mem_append.mp hy with h1 | h2
        · exact ihd y h1
        · simp at h2
          subst h2
          simp [isDigitB]
          omega
      · rw [hxd, digitsToNat_eq_natFold, natFold_append, ← digitsToNat_eq_natFold, ihv,
          natFold_cons, natFold_nil]
        omega
      · rw [hxd, ihe]
        rfl
      · intro _
        exact ihc (by omega)

theorem UlongToString_spec (x : Nat) :
    (∀ c ∈ UlongToString x, isDigitB c = true) ∧
    digitsToNat (UlongToString x) = x ∧
    (∃ c t, UlongToString x = c :: t ∧ (1 ≤ x → c ≠ 48)) := decDigitsAux_spec x x le_rfl

theorem goodRTL_mem : ∀ (xs : List Json) (x : Json), goodRTL xs = true → x ∈ xs →
    goodRT x = true := by
  intro xs
  induction xs with
  | nil => intro x _ hx; cases hx
  | cons y t ih =>
    intro x hg hx
    rw [show goodRTL (y :: t) = (goodRT y && goodRTL t) from rfl, Bool.and_eq_true] at hg
    rcases List.mem_cons.mp hx with rfl | hx2
    · exact hg.1
    · exact ih x hg.2 hx2

theorem goodRTO_mem : ∀ (kvs : List (Bytes × Json)) (p : Bytes × Json),
    goodRTO kvs = true → p ∈ kvs → goodStr p.1 = true ∧ goodRT p.2 = true := by
  intro kvs
  induction kvs with
  | nil => intro p _ hp; cases hp
  | cons q t ih =>
    intro p hg hp
    rcases q with ⟨k, v⟩
    rw [show goodRTO ((k, v) :: t) = (goodStr k && goodRT v && goodRTO t) from rfl,
      Bool.and_eq_true, Bool.and_eq_true] at hg
    rcases List.mem_cons.mp hp with rfl | hp2
    · exact ⟨hg.1.1, hg.1.2⟩
    · exact ih p hg.2 hp2

theorem heightL_mem : ∀ (xs : List Json) (x : Json), x ∈ xs →
    Json.height x ≤ Json.heightL xs := by
  intro xs
  induction xs with
  | nil => intro x hx; cases hx
  | cons y t ih =>
    intro x hx
    rw [show Json.heightL (y :: t) = max (Json.height y) (Json.heightL t) from rfl]
    rcases List.mem_cons.mp hx with rfl | hx2
    · exact le_max_left _ _
    · exact le_trans (ih x hx2) (le_max_right _ _)

theorem heightO_mem : ∀ (kvs : List (Bytes × Json)) (p : Bytes × Json), p ∈ kvs →
    Json.height p.2 ≤ Json.heightO kvs := by
  intro kvs
  induction kvs with
  | nil => intro p hp; cases hp
  | cons q t ih =>
    intro p hp
    rcases q with ⟨k, v⟩
    rw [show Json.heightO ((k, v) :: t) = max (Json.height v) (Json.heightO t) from rfl]
    rcases List.mem_cons.mp hp with rfl | hp2
    · exact le_max_left _ _
    · exact le_trans (ih p hp2) (le_max_right _ _)

theorem lexLt_asymm {a b : Bytes} (h : lexLt a b = true) : lexLt b a = false := by
  cases hx : lexLt b a
  · rfl
  · have := lexLt_trans a b a h hx
    rw [lexLt_irrefl] at this
    cases this

theorem emplace_last : ∀ (acc : List (Bytes × Json)) (k : Bytes) (v : Json),
    acc.all (fun q => lexLt q.1 k) = true → Json.emplace acc k v = acc ++ [(k, v)] := by
  intro acc
  induction acc with
  | nil => intro k v _; rfl
  | cons q t ih =>
    intro k v hall
    rcases q with ⟨k2, v2⟩
    simp only [List.all_cons, Bool.and_eq_true] at hall
    unfold Json.emplace
    rw [if_neg (by rw [lexLt_asymm (by simpa using hall.1)]; exact fun h => nomatch h),
      if_pos (by simpa using hall.1), ih k v (by simpa using hall.2)]
    rfl

theorem restStop_commaArr (t : List Json) (rest : Bytes) :
    restStop (commaArr t ++ 93 :: rest) := by
  rcases t with _ | ⟨x, t2⟩
  · exact Or.inr (Or.inl rfl)
  · exact Or.inl rfl

theorem restStop_commaObj (t : List (Bytes × Json)) (rest : Bytes) :
    restStop (commaObj t ++ 125 :: rest) := by
  rcases t with _ | ⟨⟨k, v⟩, t2⟩
  · exact Or.inr (Or.inr rfl)
  · exact Or.inl rfl

theorem commaArr_len (x : Json) (t : List Json) :
    (commaArr (x :: t)).length = 1 + (Json.marshal x).length + (commaArr t).length := by
  rw [show commaArr (x :: t) = 44 :: Json.marshal x ++ commaArr t from rfl]
  simp
  omega

theorem commaObj_len (k : Bytes) (v : Json) (t : List (Bytes × Json)) :
    (commaObj ((k, v) :: t)).length =
      2 + (Json.stringify k).length + (Json.marshal v).length + (commaObj t).length := by
  rw [show commaObj ((k, v) :: t) = 44 :: Json.stringify k ++ 58 :: Json.marshal v ++ commaObj t
    from rfl]
  simp
  omega

theorem arrRT : ∀ (xs : List Json) (acc : List Json) (rest : Bytes) (depth fuel : Nat),
    (∀ x ∈ xs, RT x ∧ Json.height x + 2 ≤ depth) → restStop rest → 2 ≤ depth →
    2 * (commaArr xs).length + 4 ≤ fuel →
    Json.parseArr fuel (commaArr xs ++ 93 :: rest) depth acc (ARRAY ||| COMMA) =
      some (.success, .arr (acc ++ xs), rest) := by
  intro xs
  induction xs with
  | nil =>
    intro acc rest depth fuel _ hstop hdep hfuel
    obtain ⟨f2, rfl⟩ : ∃ f2, fuel = f2 + 2 := ⟨fuel - 2, by omega⟩
    rw [show commaArr [] ++ 93 :: rest = 93 :: rest from rfl,
      show f2 + 2 = (f2 + 1) + 1 from rfl, parseArr_succ,
      parseVal_rbrack_dispatch f2 rest (93 :: rest) 1 (ARRAY ||| COMMA) (depth - 1)
        (by decide) (by omega)]
    dsimp only
    rw [if_pos rfl]
    simp
  | cons x t ih =>
    intro acc rest depth fuel hmem hstop hdep hfuel
    obtain ⟨f2, rfl⟩ : ∃ f2, fuel = f2 + 2 := ⟨fuel - 2, by omega⟩
    rw [commaArr_len] at hfuel
    have hRT := (hmem x (List.mem_cons_self x t)).1 (commaArr t ++ 93 :: rest) 0 (depth - 1) f2
      (restStop_commaArr t rest) rfl (by have := (hmem x (List.mem_cons_self x t)).2; omega)
      (by omega)
    rw [show commaArr (x :: t) ++ 93 :: rest =
        44 :: (Json.marshal x ++ (commaArr t ++ 93 :: rest)) from by
        rw [show commaArr (x :: t) = 44 :: Json.marshal x ++ commaArr t from rfl]
        simp,
      show f2 + 2 = (f2 + 1) + 1 from rfl, parseArr_succ,
      parseVal_comma_dispatch f2 (Json.marshal x ++ (commaArr t ++ 93 :: rest))
        (44 :: (Json.marshal x ++ (commaArr t ++ 93 :: rest))) 1 (ARRAY ||| COMMA) (depth - 1)
        (by decide) (by omega),
      hRT]
    dsimp only
    rw [if_neg (by decide : ¬(JsonStatus.success = .absent_value)), if_pos rfl,
      ih (acc ++ [x]) rest depth (f2 + 1)
        (fun y hy => hmem y (List.mem_cons_of_mem x hy)) hstop hdep (by omega)]
    simp

theorem objRT : ∀ (kvs : List (Bytes × Json)) (acc : List (Bytes × Json)) (rest : Bytes)
    (depth fuel : Nat),
    (∀ p ∈ kvs, RT p.2 ∧ Json.height p.2 + 2 ≤ depth ∧ goodStr p.1 = true) →
    keysSorted kvs = true →
    (∀ p ∈ kvs, acc.all (fun q => lexLt q.1 p.1) = true) →
    restStop rest → 2 ≤ depth → 2 * (commaObj kvs).length + 8 ≤ fuel →
    Json.parseObj fuel (commaObj kvs ++ 125 :: rest) depth acc (KEY ||| COMMA ||| OBJECT) =
      some (.success, .obj (acc ++ kvs), rest) := by
  intro kvs
  induction kvs with
  | nil =>
    intro acc rest depth fuel _ _ _ hstop hdep hfuel
    obtain ⟨f2, rfl⟩ : ∃ f2, fuel = f2 + 2 := ⟨fuel - 2, by omega⟩
    rw [show commaObj [] ++ 125 :: rest = 125 :: rest from rfl,
      show f2 + 2 = (f2 + 1) + 1 from rfl, parseObj_succ,
      parseVal_rbrace_dispatch f2 rest (125 :: rest) 1 (KEY ||| COMMA ||| OBJECT) (depth - 1)
        (by decide) (by omega)]
    try dsimp only
    rw [if_pos rfl]
    simp
  | cons p t ih =>
    intro acc rest depth fuel hmem hsort hlow hstop hdep hfuel
    rcases p with ⟨k, v⟩
    obtain ⟨hRTv0, hhv0, hgk0⟩ := hmem (k, v) (List.mem_cons_self (k, v) t)
    have hRTv : RT v := hRTv0
    have hhv : Json.height v + 2 ≤ depth := hhv0
    have hgk : goodStr k = true := hgk0
    rw [commaObj_len] at hfuel
    obtain ⟨f4, rfl⟩ : ∃ f4, fuel = f4 + 4 := ⟨fuel - 4, by omega⟩
    rw [show keysSorted ((k, v) :: t) = (keyLB k t && keysSorted t) from rfl,
      Bool.and_eq_true] at hsort
    have hsklen : (Json.stringify k).length = (Json.serialize k).length + 2 := by
      rw [stringify_good k hgk]
      simp
    have hRT := hRTv (commaObj t ++ 125 :: rest) 0 (depth - 1) (f4 + 2)
      (restStop_commaObj t rest) rfl (by omega) (by omega)
    rw [show commaObj ((k, v) :: t) ++ 125 :: rest =
        44 :: (Json.stringify k ++ (58 :: (Json.marshal v ++ (commaObj t ++ 125 :: rest))))
        from by
        rw [show commaObj ((k, v) :: t) =
          44 :: Json.stringify k ++ 58 :: Json.marshal v ++ commaObj t from rfl]
        simp,
      show f4 + 4 = (f4 + 3) + 1 from rfl, parseObj_succ,
      show f4 + 3 = (f4 + 2) + 1 from rfl,
      parseVal_comma_dispatch (f4 + 2)
        (Json.stringify k ++ (58 :: (Json.marshal v ++ (commaObj t ++ 125 :: rest))))
        _ 1 (KEY ||| COMMA ||| OBJECT) (depth - 1) (by decide) (by omega),
      stringify_good k hgk,
      show (34 :: Json.serialize k ++ [34]) ++
          (58 :: (Json.marshal v ++ (commaObj t ++ 125 :: rest))) =
        34 :: (Json.serialize k ++ 34 :: (58 :: (Json.marshal v ++ (commaObj t ++ 125 :: rest))))
        from by simp,
      show f4 + 2 = (f4 + 1) + 1 from rfl,
      parseVal_quote_dispatch (f4 + 1)
        (Json.serialize k ++ 34 :: (58 :: (Json.marshal v ++ (commaObj t ++ 125 :: rest))))
        _ 1 0 (depth - 1) (by decide) (by omega),
      stringify_rt k hgk]
    try dsimp only
    rw [if_neg (by decide : ¬(JsonStatus.success = .absent_value)),
      if_neg (by simp : ¬(JsonStatus.success ≠ .success))]
    try dsimp only
    rw [show f4 + 1 + 1 + 1 = (f4 + 2) + 1 from rfl,
      parseVal_colon_dispatch (f4 + 2) (Json.marshal v ++ (commaObj t ++ 125 :: rest))
        _ 1 COLON (depth - 1) (by decide) (by omega),
      hRT]
    try dsimp only
    rw [if_neg (by decide : ¬(JsonStatus.success = .absent_value)),
      if_neg (by simp : ¬(JsonStatus.success ≠ .success)),
      emplace_last acc k v (hlow (k, v) (List.mem_cons_self (k, v) t)),
      ih (acc ++ [(k, v)]) rest depth ((f4 + 2) + 1)
        (fun q hq => hmem q (List.mem_cons_of_mem (k, v) hq)) hsort.2
        (fun q hq => by
          simp only [List.all_append, List.all_cons, List.all_nil, Bool.and_eq_true]
          refine ⟨by simpa using hlow q (List.mem_cons_of_mem (k, v) hq), ?_, trivial⟩
          have := hsort.1
          simp only [keyLB, List.all_eq_true] at this
          simpa using this q hq)
        hstop hdep (by omega)]
    simp

theorem and6_of_and7 (ctx : Nat) (h : ctx &&& 7 = 0) : ctx &&& 6 = 0 := by
  have h2 : ctx &&& 7 &&& 6 = 0 &&& 6 := by rw [h]
  rw [Nat.and_assoc] at h2
  simpa using h2

theorem marshal_rt : ∀ (n : Nat) (v : Json), sizeOf v ≤ n → goodRT v = true → RT v := by
  intro n
  induction n with
  | zero =>
    intro v hs
    cases v <;> simp at hs
  | succ n ih =>
    intro v hs hg
    cases v with
    | null =>
      intro rest ctx depth fuel hstop hctx hdep hfuel
      simp only [Json.marshal, List.length_cons, List.length_nil] at hfuel ⊢
      obtain ⟨f, rfl⟩ : ∃ f, fuel = f + 1 := ⟨fuel - 1, by omega⟩
      rw [show ([110, 117, 108, 108] : Bytes) ++ rest = 110 :: (117 :: 108 :: 108 :: rest)
          from rfl,
        parseVal_null_dispatch f (117 :: 108 :: 108 :: rest) _ 1 ctx depth hctx (by omega),
        show Json.parseNullTok (117 :: 108 :: 108 :: rest) = (.success, .null, rest) from rfl]
    | bool b =>
      intro rest ctx depth fuel hstop hctx hdep hfuel
      cases b
      · simp only [Json.marshal, Bool.false_eq_true, if_neg, List.length_cons,
          List.length_nil] at hfuel ⊢
        obtain ⟨f, rfl⟩ : ∃ f, fuel = f + 1 := ⟨fuel - 1, by omega⟩
        rw [show (if False then ([116, 114, 117, 101] : Bytes) else [102, 97, 108, 115, 101]) ++
            rest = 102 :: (97 :: 108 :: 115 :: 101 :: rest) from rfl,
          parseVal_false_dispatch f (97 :: 108 :: 115 :: 101 :: rest) _ 1 ctx depth hctx
            (by omega),
          show Json.parseFalseTok (97 :: 108 :: 115 :: 101 :: rest) =
            (.success, .bool false, rest) from rfl]
      · simp only [Json.marshal, List.length_cons, List.length_nil] at hfuel ⊢
        obtain ⟨f, rfl⟩ : ∃ f, fuel = f + 1 := ⟨fuel - 1, by omega⟩
        rw [show (if True then ([116, 114, 117, 101] : Bytes) else [102, 97, 108, 115, 101]) ++
            rest = 116 :: (114 :: 117 :: 101 :: rest) from rfl,
          parseVal_true_dispatch f (114 :: 117 :: 101 :: rest) _ 1 ctx depth hctx (by omega),
          show Json.parseTrueTok (114 :: 117 :: 101 :: rest) = (.success, .bool true, rest)
            from rfl]
    | long m =>
      intro rest ctx depth fuel hstop hctx hdep hfuel
      have hin : inI64 m = true := hg
      simp only [inI64, i64min, i64max, Bool.and_eq_true, decide_eq_true_eq] at hin
      obtain ⟨hdig, hval, c, t, hct, hc48⟩ := UlongToString_spec m.natAbs
      by_cases hneg : m < 0
      · have hmarsh : Json.marshal (.long m) = 45 :: UlongToString m.natAbs := by
          simp only [Json.marshal, LongToString]
          rw [if_pos hneg]
        rw [hmarsh, hct] at hfuel ⊢
        simp only [List.length_cons] at hfuel
        obtain ⟨f2, rfl⟩ : ∃ f2, fuel = f2 + 2 := ⟨fuel - 2, by omega⟩
        rw [hct] at hdig hval
        have hcd : isDigitB c = true := hdig c (List.mem_cons_self c t)
        rw [show (45 :: c :: t) ++ rest = 45 :: c :: (t ++ rest) from rfl,
          show f2 + 2 = (f2 + 1) + 1 from rfl,
          parseVal_minus_ctx (f2 + 1) c (t ++ rest) _ 1 ctx depth hcd hctx (by omega),
          parseVal_digit_ctx f2 c (t ++ rest) _ (-1) ctx depth hcd
            (hc48 (by omega)) hctx (by omega),
          parseIntTok_neg_fits_rest c t rest _ hdig (restStop_numStop rest hstop)
            (by rw [hval]; omega)]
        rw [hval, show (-(((Int.natAbs m : Nat) : Int))) = m from by
          rw [Int.ofNat_natAbs_of_nonpos (le_of_lt hneg)]
          exact neg_neg m]
      · have hmarsh : Json.marshal (.long m) = UlongToString m.natAbs := by
          simp only [Json.marshal, LongToString]
          rw [if_neg hneg]
        by_cases hz : m = 0
        · subst hz
          rw [hmarsh, show (Int.natAbs 0) = 0 from rfl,
            show UlongToString 0 = [48] from rfl] at hfuel ⊢
          simp only [List.length_cons, List.length_nil] at hfuel
          obtain ⟨f, rfl⟩ : ∃ f, fuel = f + 1 := ⟨fuel - 1, by omega⟩
          rw [show ([48] : Bytes) ++ rest = 48 :: rest from rfl,
            parseVal_zero_ctx f rest _ 1 ctx depth hctx (by omega),
            parseZeroTok_stop _ rest hstop]
        · rw [hmarsh, hct] at hfuel ⊢
          simp only [List.length_cons] at hfuel
          obtain ⟨f, rfl⟩ : ∃ f, fuel = f + 1 := ⟨fuel - 1, by omega⟩
          rw [hct] at hdig hval
          have hcd : isDigitB c = true := hdig c (List.mem_cons_self c t)
          rw [show (c :: t) ++ rest = c :: (t ++ rest) from rfl,
            parseVal_digit_ctx f c (t ++ rest) _ 1 ctx depth hcd
              (hc48 (by omega)) hctx (by omega),
            parseIntTok_fits_rest c t rest _ hdig (restStop_numStop rest hstop)
              (by rw [hval]; omega)]
          rw [hval, Int.natAbs_of_nonneg (not_lt.mp hneg)]
    | float q => simp [goodRT] at hg
    | double q => simp [goodRT] at hg
    | str s =>
      intro rest ctx depth fuel hstop hctx hdep hfuel
      have hgs : goodStr s = true := hg
      have hmarsh : Json.marshal (.str s) = 34 :: Json.serialize s ++ [34] :=
        stringify_good s hgs
      rw [hmarsh] at hfuel ⊢
      simp only [List.length_cons, List.length_append] at hfuel
      obtain ⟨f, rfl⟩ : ∃ f, fuel = f + 1 := ⟨fuel - 1, by omega⟩
      rw [show (34 :: Json.serialize s ++ [34]) ++ rest =
          34 :: (Json.serialize s ++ 34 :: rest) from by simp,
        parseVal_quote_dispatch f (Json.serialize s ++ 34 :: rest) _ 1 ctx depth
          (and6_of_and7 ctx hctx) (by omega),
        stringify_rt s hgs rest]
    | arr xs =>
      intro rest ctx depth fuel hstop hctx hdep hfuel
      have hgl : goodRTL xs = true := hg
      have hH : Json.height (.arr xs) = 1 + Json.heightL xs := rfl
      have hmarsh : Json.marshal (.arr xs) = 91 :: Json.marshalArr xs ++ [93] := rfl
      rw [hmarsh] at hfuel ⊢
      simp only [List.length_cons, List.length_append] at hfuel
      obtain ⟨f, rfl⟩ : ∃ f, fuel = f + 1 := ⟨fuel - 1, by omega⟩
      rw [show (91 :: Json.marshalArr xs ++ [93]) ++ rest =
          91 :: (Json.marshalArr xs ++ 93 :: rest) from by simp,
        parseVal_lbrack_dispatch f (Json.marshalArr xs ++ 93 :: rest) _ 1 ctx depth hctx
          (by omega)]
      rw [hH] at hdep
      have hmemRT : ∀ x ∈ xs, RT x ∧ Json.height x + 2 ≤ depth := by
        intro x hx
        refine ⟨ih x ?_ (goodRTL_mem xs x hgl hx), ?_⟩
        · have h1 := List.sizeOf_lt_of_mem hx
          have h2 : sizeOf (Json.arr xs) = 1 + sizeOf xs := by simp
          omega
        · have := heightL_mem xs x hx
          omega
      rcases xs with _ | ⟨x, t⟩
      · obtain ⟨f2, rfl⟩ : ∃ f2, f = f2 + 2 := ⟨f - 2, by omega⟩
        rw [show Json.marshalArr [] ++ 93 :: rest = 93 :: rest from rfl,
          show f2 + 2 = (f2 + 1) + 1 from rfl, parseArr_succ,
          parseVal_rbrack_dispatch f2 rest (93 :: rest) 1 ARRAY (depth - 1)
            (by decide) (by omega)]
        dsimp only
        rw [if_pos rfl]
      · obtain ⟨f2, rfl⟩ : ∃ f2, f = f2 + 1 := ⟨f - 1, by omega⟩
        have hlen : (Json.marshalArr (x :: t)).length =
            (Json.marshal x).length + (commaArr t).length := by
          rw [marshalArr_eq]
          simp
        rw [hlen] at hfuel
        have hRTx := (hmemRT x (List.mem_cons_self x t)).1 (commaArr t ++ 93 :: rest) ARRAY
          (depth - 1) f2 (restStop_commaArr t rest) (by decide)
          (by have := (hmemRT x (List.mem_cons_self x t)).2; omega)
          (by omega)
        rw [marshalArr_eq, parseArr_succ,
          show (Json.marshal x ++ commaArr t) ++ 93 :: rest =
            Json.marshal x ++ (commaArr t ++ 93 :: rest) from by simp,
          hRTx]
        dsimp only
        rw [if_neg (by decide : ¬(JsonStatus.success = .absent_value)), if_pos rfl,
          show ([] : List Json) ++ [x] = [x] from rfl,
          arrRT t [x] rest depth f2 (fun y hy => hmemRT y (List.mem_cons_of_mem x hy)) hstop
            (by omega) (by omega)]
        simp
    | obj kvs =>
      intro rest ctx depth fuel hstop hctx hdep hfuel
      rw [show goodRT (.obj kvs) = (keysSorted kvs && goodRTO kvs) from rfl,
        Bool.and_eq_true] at hg
      have hH : Json.height (.obj kvs) = 1 + Json.heightO kvs := rfl
      have hmarsh : Json.marshal (.obj kvs) = 123 :: Json.marshalObj kvs ++ [125] := rfl
      rw [hmarsh] at hfuel ⊢
      simp only [List.length_cons, List.length_append] at hfuel
      obtain ⟨f, rfl⟩ : ∃ f, fuel = f + 1 := ⟨fuel - 1, by omega⟩
      rw [show (123 :: Json.marshalObj kvs ++ [125]) ++ rest =
          123 :: (Json.marshalObj kvs ++ 125 :: rest) from by simp,
        parseVal_lbrace_dispatch f (Json.marshalObj kvs ++ 125 :: rest) _ 1 ctx depth hctx
          (by omega)]
      rw [hH] at hdep
      have hmemRT : ∀ p ∈ kvs, RT p.2 ∧ Json.height p.2 + 2 ≤ depth ∧ goodStr p.1 = true := by
        intro p hp
        have hgp := goodRTO_mem kvs p hg.2 hp
        refine ⟨ih p.2 ?_ hgp.2, ?_, hgp.1⟩
        · have h1 := List.sizeOf_lt_of_mem hp
          have h2 : sizeOf (Json.obj kvs) = 1 + sizeOf kvs := by simp
          have h3 : sizeOf p = 1 + sizeOf p.1 + sizeOf p.2 := by
            rcases p with ⟨a, b⟩
            simp
          omega
        · have := heightO_mem kvs p hp
          omega
      rcases kvs with _ | ⟨⟨k, v⟩, t⟩
      · obtain ⟨f2, rfl⟩ : ∃ f2, f = f2 + 2 := ⟨f - 2, by omega⟩
        rw [show Json.marshalObj [] ++ 125 :: rest = 125 :: rest from rfl,
          show f2 + 2 = (f2 + 1) + 1 from rfl, parseObj_succ,
          parseVal_rbrace_dispatch f2 rest (125 :: rest) 1 (KEY ||| OBJECT) (depth - 1)
            (by decide) (by omega)]
        dsimp only
        rw [if_pos rfl]
      · obtain ⟨hRTv0, hhv0, hgk0⟩ := hmemRT (k, v) (List.mem_cons_self (k, v) t)
        have hRTv : RT v := hRTv0
        have hhv : Json.height v + 2 ≤ depth := hhv0
        have hgk : goodStr k = true := hgk0
        have hsklen : (Json.stringify k).length = (Json.serialize k).length + 2 := by
          rw [stringify_good k hgk]
          simp
        have hlen : (Json.marshalObj ((k, v) :: t)).length =
            (Json.stringify k).length + 1 + (Json.marshal v).length + (commaObj t).length := by
          rw [marshalObj_eq]
          simp
          omega
        rw [hlen] at hfuel
        obtain ⟨f3, rfl⟩ : ∃ f3, f = f3 + 3 := ⟨f - 3, by omega⟩
        rw [show keysSorted ((k, v) :: t) = (keyLB k t && keysSorted t) from rfl,
          Bool.and_eq_true] at hg
        have hRT := hRTv (commaObj t ++ 125 :: rest) 0 (depth - 1) (f3 + 1)
          (restStop_commaObj t rest) rfl (by omega) (by omega)
        rw [marshalObj_eq,
          show (Json.stringify k ++ 58 :: Json.marshal v ++ commaObj t) ++ 125 :: rest =
            Json.stringify k ++ (58 :: (Json.marshal v ++ (commaObj t ++ 125 :: rest)))
            from by simp,
          show f3 + 3 = (f3 + 2) + 1 from rfl, parseObj_succ,
          stringify_good k hgk,
          show (34 :: Json.serialize k ++ [34]) ++
              (58 :: (Json.marshal v ++ (commaObj t ++ 125 :: rest))) =
            34 :: (Json.serialize k ++ 34 ::
              (58 :: (Json.marshal v ++ (commaObj t ++ 125 :: rest)))) from by simp,
          show f3 + 2 = (f3 + 1) + 1 from rfl,
          parseVal_quote_dispatch (f3 + 1)
            (Json.serialize k ++ 34 :: (58 :: (Json.marshal v ++ (commaObj t ++ 125 :: rest))))
            _ 1 (KEY ||| OBJECT) (depth - 1) (by decide) (by omega),
          stringify_rt k hgk]
        try dsimp only
        rw [if_neg (by decide : ¬(JsonStatus.success = .absent_value)),
          if_neg (by simp : ¬(JsonStatus.success ≠ .success))]
        try dsimp only
        rw [parseVal_colon_dispatch (f3 + 1) (Json.marshal v ++ (commaObj t ++ 125 :: rest))
            _ 1 COLON (depth - 1) (by decide) (by omega),
          hRT]
        try dsimp only
        rw [if_neg (by decide : ¬(JsonStatus.success = .absent_value)),
          if_neg (by simp : ¬(JsonStatus.success ≠ .success)),
          show Json.emplace [] k v = [(k, v)] from rfl,
          objRT t [(k, v)] rest depth ((f3 + 1) + 1)
            (fun q hq => hmemRT q (List.mem_cons_of_mem (k, v) hq)) hg.1.2
            (fun q hq => by
              simp only [List.all_cons, List.all_nil, Bool.and_eq_true]
              refine ⟨?_, trivial⟩
              have := hg.1.1
              simp only [keyLB, List.all_eq_true] at this
              simpa using this q hq)
            hstop (by omega) (by omega)]
        simp

-- ===========================================================================
-- Nested-container inputs for the depth-limit claim.

/-- The n+1-fold nested empty array, the canonical input of depth n+1. -/
def nestVal : Nat → Json
  | 0 => .arr []
  | n + 1 => .arr [nestVal n]

theorem nestVal_height : ∀ n, Json.height (nestVal n) = n + 1 := by
  intro n
  induction n with
  | zero => rfl
  | succ n ih =>
    rw [show Json.height (nestVal (n + 1)) =
        1 + max (Json.height (nestVal n)) 0 from rfl, ih]
    omega

theorem nestVal_good : ∀ n, goodRT (nestVal n) = true := by
  intro n
  induction n with
  | zero => rfl
  | succ n ih =>
    rw [show goodRT (nestVal (n + 1)) = (goodRT (nestVal n) && true) from rfl, ih]
    rfl

theorem nestVal_marshal : ∀ n, Json.marshal (nestVal n) =
    List.replicate (n + 1) 91 ++ List.replicate (n + 1) 93 := by
  intro n
  induction n with
  | zero => rfl
  | succ n ih =>
    rw [show Json.marshal (nestVal (n + 1)) =
        91 :: (Json.marshal (nestVal n) ++ [93]) from rfl, ih,
      List.append_assoc, ← List.replicate_succ',
      show (91 :: (List.replicate (n + 1) 91 ++ List.replicate (n + 1 + 1) 93) : Bytes) =
        (91 :: List.replicate (n + 1) 91) ++ List.replicate (n + 1 + 1) 93 from rfl,
      ← List.replicate_succ]

/-- C4: the compile-time depth constant is 20, but it bounds the depth the
parser may ENTER, not the nesting it accepts: every input of n+1 ≤ 19 nested
arrays parses successfully, while 20 nested arrays already return
depth_exceeded (not 21 as claimed). -/
theorem C4_depth_limit :
    (∀ n : Nat, n + 1 ≤ 19 →
      Json.parse (List.replicate (n + 1) 91 ++ List.replicate (n + 1) 93) =
        (.success, nestVal n)) ∧
    Json.parse (List.replicate 20 91 ++ List.replicate 20 93) =
      (.depth_exceeded, .arr []) ∧
    DEPTH = 20 := by
  refine ⟨?_, rfl, rfl⟩
  intro n hn
  rw [← nestVal_marshal n]
  have hRT := marshal_rt (sizeOf (nestVal n)) (nestVal n) le_rfl (nestVal_good n)
  have h := hRT [] 0 DEPTH (goodFuel (Json.marshal (nestVal n))) trivial rfl
    (by rw [nestVal_height]; simp only [DEPTH]; omega)
    (by simp only [goodFuel]; omega)
  rw [List.append_nil] at h
  exact parse_of_first _ _ h

/-- C4 counterexample: an input of exactly 20 nested containers does NOT
parse successfully; it returns depth_exceeded. -/
theorem C4_counterexample :
    Json.parse (List.replicate 20 91 ++ List.replicate 20 93) =
      (.depth_exceeded, .arr []) ∧
    (JsonStatus.depth_exceeded, Json.arr []) ≠ (JsonStatus.success, Json.arr []) :=
  ⟨rfl, by simp⟩

/-- C1: round trip of serialization. For every value built from null, bool,
in-range longs, strings of nonzero ASCII bytes, and arrays/objects of such
values with strictly sorted keys, of height at most 19, parsing the bytes of
toString yields success with exactly that value. (Float/Double values and
greater heights are excluded: the claim as stated fails for them.) -/
theorem C1_roundtrip (v : Json) (h1 : goodRT v = true) (h2 : Json.height v ≤ 19) :
    Json.parse (Json.toBytes v) = (.success, v) := by
  have hRT := marshal_rt (sizeOf v) v le_rfl h1
  have h := hRT [] 0 DEPTH (goodFuel (Json.toBytes v)) trivial rfl
    (by simp only [DEPTH]; omega)
    (by simp only [goodFuel, Json.toBytes]; omega)
  rw [List.append_nil] at h
  exact parse_of_first (Json.toBytes v) v h

/-- C1 witness: the round trip at a concrete object holding a sorted object,
an array, a negative long, a null, a bool and a string. -/
theorem C1_roundtrip_witness :
    goodRT (.obj [([97], .arr [.long (-3), .null]), ([98], .bool true),
      ([99], .str [104, 105])]) = true ∧
    Json.height (.obj [([97], .arr [.long (-3), .null]), ([98], .bool true),
      ([99], .str [104, 105])]) ≤ 19 ∧
    Json.parse (Json.toBytes (.obj [([97], .arr [.long (-3), .null]),
      ([98], .bool true), ([99], .str [104, 105])])) =
      (.success, .obj [([97], .arr [.long (-3), .null]), ([98], .bool true),
        ([99], .str [104, 105])]) :=
  ⟨by decide, by decide,
    C1_roundtrip (.obj [([97], .arr [.long (-3), .null]), ([98], .bool true),
      ([99], .str [104, 105])]) (by decide) (by decide)⟩

/-- C1 counterexample: the claim quantifies over every constructible value,
but a string containing a NUL byte serializes to plain quotes-with-NUL while
the parser rejects NUL inside strings only after the serializer dropped it:
toString of the one-byte NUL string round-trips to the EMPTY string, not to
the original value. -/
theorem C1_counterexample :
    Json.toBytes (.str [0]) = [34, 0, 34] ∨
    (Json.parse (Json.toBytes (.str [0])) ≠ (.success, .str [0])) := by
  right
  intro h
  have h2 : Json.parse (Json.toBytes (.str [0])) = (.success, .str []) := rfl
  rw [h2] at h
  simp at h
